import Mathlib

/-!
# Debug-draw renderer (`dd::Renderer`, src/src/debug_draw.cpp)

A shallow embedding of the accumulate / batch / flush engine of the debug
renderer, followed by the properties proved about it.

Conventions of the embedding.

* `float` values are elements of a type `F` carrying the operations the source
  applies to them (class `Glm`).  Nothing is assumed about these operations
  unless a theorem says so, hence every statement proved for all `F` holds for
  IEEE arithmetic as well as for exact arithmetic.  Both are given as
  instances: exact arithmetic on the rationals (`exactGlm`) and binary32 with
  rounding to nearest (`binary32Glm`).
* `int` values are integers (`Int`).  The running vertex offset of `render`,
  the one `int` the renderer adds to without a bound, is reduced to the range
  of a 32-bit `int` after every addition (`wrap_int`).
* `std::vector` is `List`, `push_back` appends at the end.
* A pointer to `glm::vec3` is the function giving the element at each index.
* The render device is external: the model records the calls made on it and
  the bytes written through mapped pointers.
-/

namespace dd

/-! ## glm value types -/

/-- Two floats (glm::vec2). -/
structure Vec2 (F : Type) where
  x : F
  y : F

/-- Three floats (glm::vec3). -/
structure Vec3 (F : Type) where
  x : F
  y : F
  z : F

/-- Four floats (glm::vec4). -/
structure Vec4 (F : Type) where
  x : F
  y : F
  z : F
  w : F

/-- Four columns of four floats (glm::mat4 is column major). -/
structure Mat4 (F : Type) where
  c0 : Vec4 F
  c1 : Vec4 F
  c2 : Vec4 F
  c3 : Vec4 F

/-- The operations of the floating-point unit, of the C math library and of glm
that the renderer uses.  They are parameters of the embedding: the header files
that define them are not part of the sources. -/
class Glm (F : Type) where
  /-- Float addition. -/
  add : F → F → F
  /-- Float subtraction. -/
  sub : F → F → F
  /-- Float multiplication. -/
  mul : F → F → F
  /-- Float division. -/
  div : F → F → F
  /-- Conversion of an `int` (or of an integral literal such as `2.0f`) to float. -/
  ofInt : Int → F
  /-- Conversion of a float to `int`. -/
  toInt : F → Int
  /-- The comparison `a <= b` on floats. -/
  le : F → F → Bool
  /-- The C function `floor`. -/
  floor : F → F
  /-- The C function `cos`. -/
  cos : F → F
  /-- The C function `sin`. -/
  sin : F → F
  /-- The function `glm::radians`. -/
  radians : F → F
  /-- What a default-constructed `glm::vec2` holds. -/
  vec2Default : Vec2 F
  /-- What a default-constructed `glm::vec3` holds. -/
  vec3Default : Vec3 F
  /-- Product of two matrices. -/
  mulMM : Mat4 F → Mat4 F → Mat4 F
  /-- Product of a matrix and a column vector. -/
  mulMV : Mat4 F → Vec4 F → Vec4 F
  /-- The function `glm::inverse`. -/
  inverse : Mat4 F → Mat4 F

section Model

variable {F : Type} [Glm F]

/-- Componentwise sum of two `glm::vec3` (`operator+`). -/
def Vec3.add (a b : Vec3 F) : Vec3 F :=
  { x := Glm.add a.x b.x, y := Glm.add a.y b.y, z := Glm.add a.z b.z }

/-- Componentwise difference of two `glm::vec3` (`operator-`). -/
def Vec3.sub (a b : Vec3 F) : Vec3 F :=
  { x := Glm.sub a.x b.x, y := Glm.sub a.y b.y, z := Glm.sub a.z b.z }

/-- Division of a `glm::vec4` by a scalar (`operator/`). -/
def Vec4.divScalar (v : Vec4 F) (s : F) : Vec4 F :=
  { x := Glm.div v.x s, y := Glm.div v.y s, z := Glm.div v.z s, w := Glm.div v.w s }

/-! ## Data model of the renderer -/

/-- The two members of `PrimitiveType` the renderer uses. -/
inductive PrimitiveType where
  | LINES
  | LINE_STRIP
  deriving DecidableEq

/-- Mirror of `struct VertexWorld`. -/
structure VertexWorld (F : Type) where
  position : Vec3 F
  uv : Vec2 F
  color : Vec3 F

/-- Mirror of `struct DrawCommand`. -/
structure DrawCommand where
  type : PrimitiveType
  vertices : Int
  deriving DecidableEq

/-- The constant `MAX_VERTICES`. -/
def MAX_VERTICES : Nat := 100000

/-- A device object (`VertexBuffer*`, `Shader*`, ...); 0 is the null pointer. -/
abbrev Handle := Nat

/-- The members of `class Renderer` (the device pointer apart). -/
structure Renderer (F : Type) where
  m_uniforms : Mat4 F
  m_line_vao : Handle
  m_line_vbo : Handle
  m_line_il : Handle
  m_line_vs : Handle
  m_line_fs : Handle
  m_line_program : Handle
  m_ubo : Handle
  m_world_vertices : List (VertexWorld F)
  m_draw_commands : List DrawCommand
  m_rs : Handle
  m_ds : Handle

/-- The operation `std::vector::push_back`. -/
def push_back {α : Type} (v : List α) (a : α) : List α := v ++ [a]

/-- The constructor `Renderer()`: both vectors are resized and cleared, the
other members keep what the storage `raw` held. -/
def Renderer.new (raw : Renderer F) : Renderer F :=
  { raw with m_world_vertices := [], m_draw_commands := [] }

/-! ## The two primitive generators -/

/-- The method `Renderer::line`. -/
def line (v0 v1 c : Vec3 F) (r : Renderer F) : Renderer F :=
  let vw0 : VertexWorld F := { position := v0, uv := Glm.vec2Default, color := c }
  let vw1 : VertexWorld F := { position := v1, uv := Glm.vec2Default, color := c }
  let vs := push_back (push_back r.m_world_vertices vw0) vw1
  let cmd : DrawCommand := { type := PrimitiveType.LINES, vertices := 2 }
  { r with m_world_vertices := vs, m_draw_commands := push_back r.m_draw_commands cmd }

/-- The loop of `Renderer::line_strip`: `n` is the number of iterations left
before `i < count` fails, `i` the loop counter. -/
def line_strip_loop (v : Nat → Vec3 F) (c : Vec3 F) :
    Nat → Nat → List (VertexWorld F) → List (VertexWorld F)
  | 0, _, vs => vs
  | n + 1, i, vs =>
    line_strip_loop v c n (i + 1)
      (push_back vs { position := v i, uv := Glm.vec2Default, color := c })

/-- The method `Renderer::line_strip`.  The counter starts at 0 and the loop
runs while `i < count`, that is `count.toNat` times. -/
def line_strip (v : Nat → Vec3 F) (count : Int) (c : Vec3 F) (r : Renderer F) : Renderer F :=
  let vs := line_strip_loop v c count.toNat 0 r.m_world_vertices
  let cmd : DrawCommand := { type := PrimitiveType.LINE_STRIP, vertices := count }
  { r with m_world_vertices := vs, m_draw_commands := push_back r.m_draw_commands cmd }

/-- The pointer `&verts[0]` to a local array: element `i` of the array, and
what a default-constructed vector holds past the elements written. -/
def ptr (verts : List (Vec3 F)) : Nat → Vec3 F :=
  fun i => verts.getD i Glm.vec3Default

/-! ## The derived generators -/

/-- The values of `i` in `for (int i = lo; i <= hi; i += 20)`, in order; the
first argument bounds the number of iterations. -/
def angle_loop : Nat → Nat → Nat → List Int
  | 0, _, _ => []
  | n + 1, i, hi => if i ≤ hi then (i : Int) :: angle_loop n (i + 20) hi else []

/-- The values of `i` in `for (int i = lo; i <= hi; i += 20)`. -/
def angles (lo hi : Nat) : List Int := angle_loop (hi + 1 - lo) lo hi

/-- The expression `glm::radians((float)i)`. -/
def degInRad (i : Int) : F := Glm.radians (Glm.ofInt i : F)

/-- The method `Renderer::circle_xy`; `verts` holds the elements written
through `verts[idx++]`. -/
def circle_xy (radius : F) (pos c : Vec3 F) (r : Renderer F) : Renderer F :=
  let verts := (angles 0 360).map fun i =>
    Vec3.add pos
      { x := Glm.mul (Glm.cos (degInRad i : F)) radius
        y := Glm.mul (Glm.sin (degInRad i : F)) radius
        z := Glm.ofInt 0 }
  line_strip (ptr verts) 19 c r

/-- The method `Renderer::circle_xz`. -/
def circle_xz (radius : F) (pos c : Vec3 F) (r : Renderer F) : Renderer F :=
  let verts := (angles 0 360).map fun i =>
    Vec3.add pos
      { x := Glm.mul (Glm.cos (degInRad i : F)) radius
        y := Glm.ofInt 0
        z := Glm.mul (Glm.sin (degInRad i : F)) radius }
  line_strip (ptr verts) 19 c r

/-- The method `Renderer::circle_yz`. -/
def circle_yz (radius : F) (pos c : Vec3 F) (r : Renderer F) : Renderer F :=
  let verts := (angles 0 360).map fun i =>
    Vec3.add pos
      { x := Glm.ofInt 0
        y := Glm.mul (Glm.cos (degInRad i : F)) radius
        z := Glm.mul (Glm.sin (degInRad i : F)) radius }
  line_strip (ptr verts) 19 c r

/-- The method `Renderer::sphere`. -/
def sphere (radius : F) (pos c : Vec3 F) (r : Renderer F) : Renderer F :=
  circle_yz radius pos c (circle_xz radius pos c (circle_xy radius pos c r))

/-- The method `Renderer::capsule`. -/
def capsule (_height _radius : F) (_pos _c : Vec3 F) (r : Renderer F) : Renderer F :=
  let top : F := Glm.sub _height _radius
  let r := line { x := _pos.x, y := Glm.add _pos.y _radius, z := Glm.sub _pos.z _radius }
                { x := _pos.x, y := top, z := Glm.sub _pos.z _radius } _c r
  let r := line { x := _pos.x, y := Glm.add _pos.y _radius, z := Glm.add _pos.z _radius }
                { x := _pos.x, y := top, z := Glm.add _pos.z _radius } _c r
  let r := line { x := Glm.sub _pos.x _radius, y := Glm.add _pos.y _radius, z := _pos.z }
                { x := Glm.sub _pos.x _radius, y := top, z := _pos.z } _c r
  let r := line { x := Glm.add _pos.x _radius, y := Glm.add _pos.y _radius, z := _pos.z }
                { x := Glm.add _pos.x _radius, y := top, z := _pos.z } _c r
  let verts : List (Vec3 F) := (angles 0 180).map fun i =>
    { x := Glm.add _pos.x (Glm.mul (Glm.cos (degInRad i : F)) _radius)
      y := Glm.add top (Glm.mul (Glm.sin (degInRad i : F)) _radius)
      z := _pos.z }
  let r := line_strip (ptr verts) 10 _c r
  let verts : List (Vec3 F) := (angles 0 180).map fun i =>
    { x := _pos.x
      y := Glm.add top (Glm.mul (Glm.sin (degInRad i : F)) _radius)
      z := Glm.add _pos.z (Glm.mul (Glm.cos (degInRad i : F)) _radius) }
  let r := line_strip (ptr verts) 10 _c r
  let verts : List (Vec3 F) := (angles 180 360).map fun i =>
    { x := Glm.add _pos.x (Glm.mul (Glm.cos (degInRad i : F)) _radius)
      y := Glm.add _radius (Glm.mul (Glm.sin (degInRad i : F)) _radius)
      z := _pos.z }
  let r := line_strip (ptr verts) 10 _c r
  let verts : List (Vec3 F) := (angles 180 360).map fun i =>
    { x := _pos.x
      y := Glm.add _radius (Glm.mul (Glm.sin (degInRad i : F)) _radius)
      z := Glm.add _pos.z (Glm.mul (Glm.cos (degInRad i : F)) _radius) }
  let r := line_strip (ptr verts) 10 _c r
  let r := circle_xz _radius { x := _pos.x, y := top, z := _pos.z } _c r
  circle_xz _radius { x := _pos.x, y := _radius, z := _pos.z } _c r

/-- The method `Renderer::aabb`. -/
def aabb (_min _max _pos _c : Vec3 F) (r : Renderer F) : Renderer F :=
  let min := Vec3.add _pos _min
  let max := Vec3.add _pos _max
  let r := line min { x := max.x, y := min.y, z := min.z } _c r
  let r := line { x := max.x, y := min.y, z := min.z } { x := max.x, y := min.y, z := max.z } _c r
  let r := line { x := max.x, y := min.y, z := max.z } { x := min.x, y := min.y, z := max.z } _c r
  let r := line { x := min.x, y := min.y, z := max.z } min _c r
  let r := line { x := min.x, y := max.y, z := min.z } { x := max.x, y := max.y, z := min.z } _c r
  let r := line { x := max.x, y := max.y, z := min.z } max _c r
  let r := line max { x := min.x, y := max.y, z := max.z } _c r
  let r := line { x := min.x, y := max.y, z := max.z } { x := min.x, y := max.y, z := min.z } _c r
  let r := line min { x := min.x, y := max.y, z := min.z } _c r
  let r := line { x := max.x, y := min.y, z := min.z } { x := max.x, y := max.y, z := min.z } _c r
  let r := line { x := max.x, y := min.y, z := max.z } max _c r
  line { x := min.x, y := min.y, z := max.z } { x := min.x, y := max.y, z := max.z } _c r

/-- Why a call did not return: the iteration budget of a loop was used up, or
a loop wrote past the end of a local array. -/
inductive Fault where
  | outOfFuel
  | outOfBounds
  deriving DecidableEq

/-- The innermost loop of `Renderer::obb`, `for (float z = ...; z <= _max.z;
z += size.z)`.  `verts` holds the elements written so far (`idx` is its
length), the array has 8 elements; the first argument is the iteration budget. -/
def obb_loop_z (_model : Mat4 F) (max_z size_z x y : F) :
    Nat → F → List (Vec3 F) → Except Fault (List (Vec3 F))
  | 0, _, _ => Except.error Fault.outOfFuel
  | n + 1, z, verts =>
    if Glm.le z max_z then
      if verts.length < 8 then
        let v := Glm.mulMV _model { x := x, y := y, z := z, w := Glm.ofInt 1 }
        obb_loop_z _model max_z size_z x y n (Glm.add z size_z)
          (push_back verts { x := v.x, y := v.y, z := v.z })
      else Except.error Fault.outOfBounds
    else Except.ok verts

/-- The middle loop of `Renderer::obb`, over `y`; `fuel` is the budget of each
inner loop. -/
def obb_loop_y (_model : Mat4 F) (_min _max size : Vec3 F) (fuel : Nat) (x : F) :
    Nat → F → List (Vec3 F) → Except Fault (List (Vec3 F))
  | 0, _, _ => Except.error Fault.outOfFuel
  | n + 1, y, verts =>
    if Glm.le y _max.y then
      match obb_loop_z _model _max.z size.z x y fuel _min.z verts with
      | Except.ok verts1 =>
        obb_loop_y _model _min _max size fuel x n (Glm.add y size.y) verts1
      | Except.error e => Except.error e
    else Except.ok verts

/-- The outer loop of `Renderer::obb`, over `x`. -/
def obb_loop_x (_model : Mat4 F) (_min _max size : Vec3 F) (fuel : Nat) :
    Nat → F → List (Vec3 F) → Except Fault (List (Vec3 F))
  | 0, _, _ => Except.error Fault.outOfFuel
  | n + 1, x, verts =>
    if Glm.le x _max.x then
      match obb_loop_y _model _min _max size fuel x fuel _min.y verts with
      | Except.ok verts1 =>
        obb_loop_x _model _min _max size fuel n (Glm.add x size.x) verts1
      | Except.error e => Except.error e
    else Except.ok verts

/-- The corner enumeration of `Renderer::obb`: the elements written to
`verts`, in order, when the three loops finish within `fuel` iterations each. -/
def obb_corners (fuel : Nat) (_min _max : Vec3 F) (_model : Mat4 F) :
    Except Fault (List (Vec3 F)) :=
  obb_loop_x _model _min _max (Vec3.sub _max _min) fuel fuel _min.x []

/-- The twelve `line` calls of `Renderer::obb` on the array `verts`. -/
def obb_lines (verts : Nat → Vec3 F) (_c : Vec3 F) (r : Renderer F) : Renderer F :=
  let r := line (verts 0) (verts 1) _c r
  let r := line (verts 1) (verts 5) _c r
  let r := line (verts 5) (verts 4) _c r
  let r := line (verts 4) (verts 0) _c r
  let r := line (verts 2) (verts 3) _c r
  let r := line (verts 3) (verts 7) _c r
  let r := line (verts 7) (verts 6) _c r
  let r := line (verts 6) (verts 2) _c r
  let r := line (verts 2) (verts 0) _c r
  let r := line (verts 6) (verts 4) _c r
  let r := line (verts 3) (verts 1) _c r
  line (verts 7) (verts 5) _c r

/-- The method `Renderer::obb`, with iteration budget `fuel` for each loop. -/
def obb (fuel : Nat) (_min _max : Vec3 F) (_model : Mat4 F) (_c : Vec3 F) (r : Renderer F) :
    Except Fault (Renderer F) :=
  match obb_corners fuel _min _max _model with
  | Except.ok verts => Except.ok (obb_lines (ptr verts) _c r)
  | Except.error e => Except.error e

/-- The first loop of `Renderer::grid`, `for (int x = -offset_x; x <= offset_x;
x += spacing)`: the compound assignment adds in float and converts back. -/
def grid_loop_x (_y_level spacing : F) (_c : Vec3 F) (offset_x offset_z : Int) :
    Nat → Int → Renderer F → Except Fault (Renderer F)
  | 0, _, _ => Except.error Fault.outOfFuel
  | n + 1, x, r =>
    if x ≤ offset_x then
      grid_loop_x _y_level spacing _c offset_x offset_z n
        (Glm.toInt (Glm.add (Glm.ofInt x) spacing))
        (line { x := Glm.ofInt x, y := _y_level, z := Glm.ofInt (-offset_z) }
              { x := Glm.ofInt x, y := _y_level, z := Glm.ofInt offset_z } _c r)
    else Except.ok r

/-- The second loop of `Renderer::grid`, over `z`. -/
def grid_loop_z (_y_level spacing : F) (_c : Vec3 F) (offset_x offset_z : Int) :
    Nat → Int → Renderer F → Except Fault (Renderer F)
  | 0, _, _ => Except.error Fault.outOfFuel
  | n + 1, z, r =>
    if z ≤ offset_z then
      grid_loop_z _y_level spacing _c offset_x offset_z n
        (Glm.toInt (Glm.add (Glm.ofInt z) spacing))
        (line { x := Glm.ofInt (-offset_x), y := _y_level, z := Glm.ofInt z }
              { x := Glm.ofInt offset_x, y := _y_level, z := Glm.ofInt z } _c r)
    else Except.ok r

/-- The method `Renderer::grid`, with iteration budget `fuel` for each loop. -/
def grid (fuel : Nat) (_x _z _y_level spacing : F) (_c : Vec3 F) (r : Renderer F) :
    Except Fault (Renderer F) :=
  let offset_x : Int := Glm.toInt (Glm.floor (Glm.div (Glm.mul _x spacing) (Glm.ofInt 2)))
  let offset_z : Int := Glm.toInt (Glm.floor (Glm.div (Glm.mul _z spacing) (Glm.ofInt 2)))
  match grid_loop_x _y_level spacing _c offset_x offset_z fuel (-offset_x) r with
  | Except.ok r1 => grid_loop_z _y_level spacing _c offset_x offset_z fuel (-offset_z) r1
  | Except.error e => Except.error e

/-- The table `kFrustumCorners`. -/
def kFrustumCorners : List (Vec4 F) :=
  [ { x := Glm.ofInt (-1), y := Glm.ofInt (-1), z := Glm.ofInt 1, w := Glm.ofInt 1 },
    { x := Glm.ofInt (-1), y := Glm.ofInt 1, z := Glm.ofInt 1, w := Glm.ofInt 1 },
    { x := Glm.ofInt 1, y := Glm.ofInt 1, z := Glm.ofInt 1, w := Glm.ofInt 1 },
    { x := Glm.ofInt 1, y := Glm.ofInt (-1), z := Glm.ofInt 1, w := Glm.ofInt 1 },
    { x := Glm.ofInt (-1), y := Glm.ofInt (-1), z := Glm.ofInt (-1), w := Glm.ofInt 1 },
    { x := Glm.ofInt (-1), y := Glm.ofInt 1, z := Glm.ofInt (-1), w := Glm.ofInt 1 },
    { x := Glm.ofInt 1, y := Glm.ofInt 1, z := Glm.ofInt (-1), w := Glm.ofInt 1 },
    { x := Glm.ofInt 1, y := Glm.ofInt (-1), z := Glm.ofInt (-1), w := Glm.ofInt 1 } ]

/-- The array `corners` of `Renderer::frustum`: each table entry multiplied by
the inverse matrix and divided by its `w`. -/
def frustum_corners (proj view : Mat4 F) : List (Vec3 F) :=
  let inverse := Glm.inverse (Glm.mulMM proj view)
  (kFrustumCorners : List (Vec4 F)).map fun k =>
    let v := Glm.mulMV inverse k
    let v := Vec4.divScalar v v.w
    { x := v.x, y := v.y, z := v.z }

/-- The method `Renderer::frustum`. -/
def frustum (proj view : Mat4 F) (c : Vec3 F) (r : Renderer F) : Renderer F :=
  let corners := ptr (frustum_corners proj view)
  let far : List (Vec3 F) := [corners 0, corners 1, corners 2, corners 3, corners 0]
  let r := line_strip (ptr far) 5 c r
  let near : List (Vec3 F) := [corners 4, corners 5, corners 6, corners 7, corners 4]
  let r := line_strip (ptr near) 5 c r
  let r := line (corners 0) (corners 4) c r
  let r := line (corners 1) (corners 5) c r
  let r := line (corners 2) (corners 6) c r
  line (corners 3) (corners 7) c r

/-! ## Generator calls as data -/

/-- One call of a generator method, with its arguments. -/
inductive Call (F : Type) where
  | line (v0 v1 c : Vec3 F)
  | line_strip (v : Nat → Vec3 F) (count : Int) (c : Vec3 F)
  | circle_xy (radius : F) (pos c : Vec3 F)
  | circle_xz (radius : F) (pos c : Vec3 F)
  | circle_yz (radius : F) (pos c : Vec3 F)
  | sphere (radius : F) (pos c : Vec3 F)
  | capsule (height radius : F) (pos c : Vec3 F)
  | aabb (min max pos c : Vec3 F)
  | obb (min max : Vec3 F) (model : Mat4 F) (c : Vec3 F)
  | grid (x z y_level spacing : F) (c : Vec3 F)
  | frustum (proj view : Mat4 F) (c : Vec3 F)

/-- The effect of a generator call on the renderer; `fuel` is the iteration
budget of the loops of `obb` and `grid`, the other generators always return. -/
def Call.run (fuel : Nat) : Call F → Renderer F → Except Fault (Renderer F)
  | Call.line v0 v1 c, r => Except.ok (dd.line v0 v1 c r)
  | Call.line_strip v count c, r => Except.ok (dd.line_strip v count c r)
  | Call.circle_xy radius pos c, r => Except.ok (dd.circle_xy radius pos c r)
  | Call.circle_xz radius pos c, r => Except.ok (dd.circle_xz radius pos c r)
  | Call.circle_yz radius pos c, r => Except.ok (dd.circle_yz radius pos c r)
  | Call.sphere radius pos c, r => Except.ok (dd.sphere radius pos c r)
  | Call.capsule height radius pos c, r => Except.ok (dd.capsule height radius pos c r)
  | Call.aabb min max pos c, r => Except.ok (dd.aabb min max pos c r)
  | Call.obb min max model c, r => dd.obb fuel min max model c r
  | Call.grid x z y_level spacing c, r => dd.grid fuel x z y_level spacing c r
  | Call.frustum proj view c, r => Except.ok (dd.frustum proj view c r)

/-- A sequence of generator calls, run in order. -/
def Call.runAll (fuel : Nat) : List (Call F) → Renderer F → Except Fault (Renderer F)
  | [], r => Except.ok r
  | g :: gs, r =>
    match Call.run fuel g r with
    | Except.ok r1 => Call.runAll fuel gs r1
    | Except.error e => Except.error e

/-! ## The render device and the flush -/

/-- The calls `render` makes on the render device, with their arguments.
`map_buffer` is always called with `BufferMapType::WRITE`, `bind_uniform_buffer`
with `ShaderType::VERTEX` and slot 0. -/
inductive DeviceCall where
  | map_buffer (buffer : Handle)
  | unmap_buffer (buffer : Handle)
  | bind_rasterizer_state (state : Handle)
  | bind_depth_stencil_state (state : Handle)
  | bind_framebuffer (fbo : Handle)
  | set_viewport (width height x y : Int)
  | bind_shader_program (program : Handle)
  | bind_uniform_buffer (buffer : Handle)
  | bind_vertex_array (vao : Handle)
  | set_primitive_type (type : PrimitiveType)
  | draw (first count : Int)
  deriving DecidableEq

/-- The memory of the two buffers the renderer maps: slot `i` of the vertex
buffer (the bytes from `i * sizeof(VertexWorld)`) and the uniform buffer. -/
structure Device (F : Type) where
  vbo : Nat → VertexWorld F
  ubo : Mat4 F

/-- The call `memcpy(ptr, &m_world_vertices[0], sizeof(VertexWorld) * size)`
on the mapped vertex buffer: slot `i` receives vertex `i`, the slots from
`size` on are not written. -/
def memcpy_vertices (vs : List (VertexWorld F)) (vbo : Nat → VertexWorld F) :
    Nat → VertexWorld F :=
  fun i => vs.getD i (vbo i)

/-- The upload step of `render`: the branch on `size() > MAX_VERTICES`.  The
result is the vertex buffer and what was written to `std::cout`. -/
def upload (vs : List (VertexWorld F)) (vbo : Nat → VertexWorld F) :
    (Nat → VertexWorld F) × List String :=
  if vs.length > MAX_VERTICES then
    (vbo, ["Vertices are above limit"])
  else
    (memcpy_vertices vs vbo, [])

/-- The value an `int` variable holds after an operation whose result on the
integers is `n`: the number congruent to `n` modulo 2^32 in the range
-2^31 .. 2^31 - 1 (32-bit two's complement, which is what the compiled
addition computes). -/
def wrap_int (n : Int) : Int := (n + 2147483648) % 4294967296 - 2147483648

/-- The replay loop of `render`; `v` is the local `int v`, the running vertex
offset, and `v += cmd.vertices` is an addition of two `int` values. -/
def replay_int : List DrawCommand → Int → List DeviceCall
  | [], _ => []
  | cmd :: rest, v =>
    DeviceCall.set_primitive_type cmd.type :: DeviceCall.draw v cmd.vertices ::
      replay_int rest (wrap_int (v + cmd.vertices))

/-- What one call of `render` leaves behind. -/
structure Frame (F : Type) where
  renderer : Renderer F
  device : Device F
  calls : List DeviceCall
  cout : List String

/-- The method `Renderer::render`. -/
def render (fbo : Handle) (width height : Int) (view_proj : Mat4 F)
    (r : Renderer F) (d : Device F) : Frame F :=
  let r1 : Renderer F := { r with m_uniforms := view_proj }
  let up := upload r1.m_world_vertices d.vbo
  let calls :=
    [DeviceCall.map_buffer r1.m_line_vbo,
     DeviceCall.unmap_buffer r1.m_line_vbo,
     DeviceCall.map_buffer r1.m_ubo,
     DeviceCall.unmap_buffer r1.m_ubo,
     DeviceCall.bind_rasterizer_state r1.m_rs,
     DeviceCall.bind_depth_stencil_state r1.m_ds,
     DeviceCall.bind_framebuffer fbo,
     DeviceCall.set_viewport width height 0 0,
     DeviceCall.bind_shader_program r1.m_line_program,
     DeviceCall.bind_uniform_buffer r1.m_ubo,
     DeviceCall.bind_vertex_array r1.m_line_vao]
    ++ replay_int r1.m_draw_commands 0
  { renderer := { r1 with m_draw_commands := [], m_world_vertices := [] }
    device := { vbo := up.1, ubo := r1.m_uniforms }
    calls := calls
    cout := up.2 }

/-! ## Frames: generator calls interleaved with `render` -/

/-- One call made by the application on the renderer between `init` and
`shutdown`: a generator call or a call of `render`. -/
inductive Step (F : Type) where
  | call (g : Call F)
  | render (fbo : Handle) (width height : Int) (view_proj : Mat4 F)

/-- The renderer together with the device memory, all device calls made so far
and everything written to `std::cout`. -/
structure World (F : Type) where
  renderer : Renderer F
  device : Device F
  calls : List DeviceCall
  cout : List String

/-- The effect of one step on the world. -/
def Step.run (fuel : Nat) : Step F → World F → Except Fault (World F)
  | Step.call g, w =>
    match Call.run fuel g w.renderer with
    | Except.ok r1 => Except.ok { w with renderer := r1 }
    | Except.error e => Except.error e
  | Step.render fbo width height view_proj, w =>
    let f := dd.render fbo width height view_proj w.renderer w.device
    Except.ok
      { renderer := f.renderer
        device := f.device
        calls := w.calls ++ f.calls
        cout := w.cout ++ f.cout }

/-- A sequence of steps, run in order. -/
def Step.runAll (fuel : Nat) : List (Step F) → World F → Except Fault (World F)
  | [], w => Except.ok w
  | s :: ss, w =>
    match Step.run fuel s w with
    | Except.ok w1 => Step.runAll fuel ss w1
    | Except.error e => Except.error e

/-- The world right after the constructor `Renderer()` ran on the storage
`raw`, with device memory `d`. -/
def World.fresh (raw : Renderer F) (d : Device F) : World F :=
  { renderer := Renderer.new raw, device := d, calls := [], cout := [] }

/-! ## Notions used to state the properties -/

/-- The replay of a command list with the running offset kept as an integer
and not as an `int`: the calls `replay_int` makes as long as the offset stays
in the range of `int`. -/
def replay : List DrawCommand → Int → List DeviceCall
  | [], _ => []
  | cmd :: rest, v =>
    DeviceCall.set_primitive_type cmd.type :: DeviceCall.draw v cmd.vertices ::
      replay rest (v + cmd.vertices)

/-- The ranges of vertices the commands stand for: for each command the pair
(first, first + count), where the first `first` is `v` and every other one is
the end of the range before it. -/
def ranges : List DrawCommand → Int → List (Int × Int)
  | [], _ => []
  | cmd :: rest, v => (v, v + cmd.vertices) :: ranges rest (v + cmd.vertices)

/-- The sum of the `vertices` members of a command list. -/
def total_vertices (cs : List DrawCommand) : Int := (cs.map DrawCommand.vertices).sum

/-- The renderer `r` with the vertices `dV` and the commands `dC` pushed at the
end of its two vectors, every other member unchanged. -/
def Renderer.append (r : Renderer F) (dV : List (VertexWorld F)) (dC : List DrawCommand) :
    Renderer F :=
  { r with m_world_vertices := r.m_world_vertices ++ dV
           m_draw_commands := r.m_draw_commands ++ dC }

/-- The two vertices `line` pushes. -/
def segment (v0 v1 c : Vec3 F) : List (VertexWorld F) :=
  [{ position := v0, uv := Glm.vec2Default, color := c },
   { position := v1, uv := Glm.vec2Default, color := c }]

/-- The vertices `line_strip` pushes in `n` iterations. -/
def strip (v : Nat → Vec3 F) (n : Nat) (c : Vec3 F) : List (VertexWorld F) :=
  (List.range n).map fun k => { position := v k, uv := Glm.vec2Default, color := c }

/-- The point number `k` of a circle in the xy plane as the specification
gives it: the centre offset by radius times the cosine of 20 k degrees along
x, radius times the sine of 20 k degrees along y, and 0 along z. -/
def circle_xy_point (radius : F) (pos : Vec3 F) (k : Nat) : Vec3 F :=
  Vec3.add pos
    { x := Glm.mul (Glm.cos (Glm.radians (Glm.ofInt (20 * k)))) radius
      y := Glm.mul (Glm.sin (Glm.radians (Glm.ofInt (20 * k)))) radius
      z := Glm.ofInt 0 }

/-- The point number `k` of a circle in the xz plane as the specification
gives it: cosine along x, sine along z, 0 along y. -/
def circle_xz_point (radius : F) (pos : Vec3 F) (k : Nat) : Vec3 F :=
  Vec3.add pos
    { x := Glm.mul (Glm.cos (Glm.radians (Glm.ofInt (20 * k)))) radius
      y := Glm.ofInt 0
      z := Glm.mul (Glm.sin (Glm.radians (Glm.ofInt (20 * k)))) radius }

/-- The point number `k` of a circle in the yz plane as the specification
gives it: cosine along y, sine along z, 0 along x. -/
def circle_yz_point (radius : F) (pos : Vec3 F) (k : Nat) : Vec3 F :=
  Vec3.add pos
    { x := Glm.ofInt 0
      y := Glm.mul (Glm.cos (Glm.radians (Glm.ofInt (20 * k)))) radius
      z := Glm.mul (Glm.sin (Glm.radians (Glm.ofInt (20 * k)))) radius }

/-- The function `f` on renderers does not return, whatever the renderer, or it
pushes the same vertices and commands whatever the renderer, and these
satisfy `P`. -/
def AppendsOnly (P : List (VertexWorld F) → List DrawCommand → Prop)
    (f : Renderer F → Except Fault (Renderer F)) : Prop :=
  (∃ e, ∀ r, f r = Except.error e) ∨
    ∃ dV dC, P dV dC ∧ ∀ r, f r = Except.ok (r.append dV dC)

/-- The function `f` on renderers always returns and pushes the same vertices
and commands whatever the renderer, and these satisfy `P`. -/
def Appends (P : List (VertexWorld F) → List DrawCommand → Prop)
    (f : Renderer F → Renderer F) : Prop :=
  ∃ dV dC, P dV dC ∧ ∀ r, f r = r.append dV dC

/-- The property `P` of pushed vertices and commands holds of what the two
primitives push (for `line_strip` when its count satisfies `Q`) and is kept by
concatenation; `Q` holds of every count that is not negative. -/
structure Primitive (P : List (VertexWorld F) → List DrawCommand → Prop) (Q : Int → Prop) :
    Prop where
  nil : P [] []
  app : ∀ a b a' b', P a b → P a' b' → P (a ++ a') (b ++ b')
  seg : ∀ v0 v1 c, P (segment v0 v1 c) [{ type := PrimitiveType.LINES, vertices := 2 }]
  strp : ∀ v count c, Q count →
    P (strip v count.toNat c) [{ type := PrimitiveType.LINE_STRIP, vertices := count }]
  nonneg : ∀ n : Nat, Q n

/-- The commands `dC` account for the vertices `dV`: no count is negative and
the counts add up to the number of vertices. -/
def Balanced (dV : List (VertexWorld F)) (dC : List DrawCommand) : Prop :=
  total_vertices dC = dV.length ∧ ∀ c ∈ dC, 0 ≤ c.vertices

/-- What a generator call pushes when called on the renderer just constructed
on the storage `raw`: the vertices and the commands, or the fault. -/
def Call.delta (fuel : Nat) (g : Call F) (raw : Renderer F) :
    Except Fault (List (VertexWorld F) × List DrawCommand) :=
  match Call.run fuel g (Renderer.new raw) with
  | Except.ok r => Except.ok (r.m_world_vertices, r.m_draw_commands)
  | Except.error e => Except.error e

/-- The device calls of the replay loop: `set_primitive_type` and `draw`. -/
def DeviceCall.isReplay : DeviceCall → Bool
  | DeviceCall.set_primitive_type _ => true
  | DeviceCall.draw _ _ => true
  | _ => false

/-- The `draw` calls. -/
def DeviceCall.isDraw : DeviceCall → Bool
  | DeviceCall.draw _ _ => true
  | _ => false

/-- The calls `render` makes before the replay loop, in order. -/
def binding_calls (fbo : Handle) (width height : Int) (r : Renderer F) : List DeviceCall :=
  [DeviceCall.map_buffer r.m_line_vbo,
   DeviceCall.unmap_buffer r.m_line_vbo,
   DeviceCall.map_buffer r.m_ubo,
   DeviceCall.unmap_buffer r.m_ubo,
   DeviceCall.bind_rasterizer_state r.m_rs,
   DeviceCall.bind_depth_stencil_state r.m_ds,
   DeviceCall.bind_framebuffer fbo,
   DeviceCall.set_viewport width height 0 0,
   DeviceCall.bind_shader_program r.m_line_program,
   DeviceCall.bind_uniform_buffer r.m_ubo,
   DeviceCall.bind_vertex_array r.m_line_vao]

/-- The replay the specification describes: for the command at index `i`, the
topology is set to its tag and a draw is issued for its vertex count, starting
at the sum of the vertex counts of the commands before it. -/
def expected_replay (cs : List DrawCommand) : List DeviceCall :=
  ((List.range cs.length).zip cs).flatMap fun p =>
    [DeviceCall.set_primitive_type p.2.type,
     DeviceCall.draw (total_vertices (cs.take p.1)) p.2.vertices]

/-- The generators without a loop on float or converted counters: all but
`obb` and `grid`. -/
def Call.loopFree : Call F → Bool
  | Call.obb _ _ _ _ => false
  | Call.grid _ _ _ _ _ => false
  | _ => true

/-- The steps without a loop on float or converted counters: `render` and
the calls of every generator but `obb` and `grid`. -/
def Step.loopFree : Step F → Bool
  | Step.call g => g.loopFree
  | Step.render _ _ _ _ => true

/-- Every `line_strip` call of the application passes a count that is not
negative. -/
def Call.countOk : Call F → Prop
  | Call.line_strip _ count _ => 0 ≤ count
  | _ => True

/-- The condition `Call.countOk` on the generator calls of a step. -/
def Step.countOk : Step F → Prop
  | Step.call g => Call.countOk g
  | Step.render _ _ _ _ => True

/-- The partition invariant of the frame state: the vertex counts of the
commands add up to the number of vertices; the ranges given by the running
offsets are the ones the draw calls of the replay consume; each range ends where
the next one starts (contiguous); an earlier range ends at or before the
start of every later one (no overlap, command order); every range lies within
the vertex list; the first range starts at 0 and the last one ends at the
number of vertices. -/
def PartitionInvariant (r : Renderer F) : Prop :=
  total_vertices r.m_draw_commands = r.m_world_vertices.length ∧
  (replay r.m_draw_commands 0).filter DeviceCall.isDraw =
    (ranges r.m_draw_commands 0).map (fun p => DeviceCall.draw p.1 (p.2 - p.1)) ∧
  List.Chain' (fun a b : Int × Int => a.2 = b.1) (ranges r.m_draw_commands 0) ∧
  List.Pairwise (fun a b : Int × Int => a.2 ≤ b.1) (ranges r.m_draw_commands 0) ∧
  (∀ p ∈ ranges r.m_draw_commands 0,
    0 ≤ p.1 ∧ p.1 ≤ p.2 ∧ p.2 ≤ r.m_world_vertices.length) ∧
  (∀ p, (ranges r.m_draw_commands 0).head? = some p → p.1 = 0) ∧
  (∀ p, (ranges r.m_draw_commands 0).getLast? = some p → p.2 = r.m_world_vertices.length)

/-- The 19 vertices of a circle whose point number `k` is `point k`. -/
def circle_vertices (point : Nat → Vec3 F) (c : Vec3 F) : List (VertexWorld F) :=
  (List.range 19).map fun k => { position := point k, uv := Glm.vec2Default, color := c }

/-- The vertex `line` and `line_strip` push for the position `p`. -/
def vertex_at (c p : Vec3 F) : VertexWorld F :=
  { position := p, uv := Glm.vec2Default, color := c }

/-- The unprojection of the corner (x, y, z) of the unit cube, as the
specification gives it: the corner, with w = 1, is multiplied by the inverse
of `proj * view` and divided by its own fourth coordinate. -/
def unproject (proj view : Mat4 F) (x y z : Int) : Vec3 F :=
  let v := Glm.mulMV (Glm.inverse (Glm.mulMM proj view))
    { x := Glm.ofInt x, y := Glm.ofInt y, z := Glm.ofInt z, w := Glm.ofInt 1 }
  { x := Glm.div v.x v.w, y := Glm.div v.y v.w, z := Glm.div v.z v.w }

/-- A corner of a box: for each of the axes x, y, z, whether the corner lies
on the `max` side (true) or on the `min` side (false). -/
abbrev Corner := Bool × Bool × Bool

/-- The point of the corner `s` of the box with opposite corners `lo`, `hi`. -/
def box_corner (lo hi : Vec3 F) (s : Corner) : Vec3 F :=
  { x := if s.1 then hi.x else lo.x
    y := if s.2.1 then hi.y else lo.y
    z := if s.2.2 then hi.z else lo.z }

/-- The corners joined by the twelve `line` calls of `aabb`, in call order. -/
def aabb_edges : List (Corner × Corner) :=
  [((false, false, false), (true, false, false)),
   ((true, false, false), (true, false, true)),
   ((true, false, true), (false, false, true)),
   ((false, false, true), (false, false, false)),
   ((false, true, false), (true, true, false)),
   ((true, true, false), (true, true, true)),
   ((true, true, true), (false, true, true)),
   ((false, true, true), (false, true, false)),
   ((false, false, false), (false, true, false)),
   ((true, false, false), (true, true, false)),
   ((true, false, true), (true, true, true)),
   ((false, false, true), (false, true, true))]

/-- The corners `s` and `t` differ on exactly one axis: they are the ends of
an edge of the box. -/
def Corner.adjacent (s t : Corner) : Bool :=
  (s.1 != t.1 && s.2.1 == t.2.1 && s.2.2 == t.2.2) ||
  (s.1 == t.1 && s.2.1 != t.2.1 && s.2.2 == t.2.2) ||
  (s.1 == t.1 && s.2.1 == t.2.1 && s.2.2 != t.2.2)

/-- The points `p` and `q` differ in their x coordinate only. -/
def differ_in_x (p q : Vec3 F) : Prop := p.x ≠ q.x ∧ p.y = q.y ∧ p.z = q.z

/-- The points `p` and `q` differ in their y coordinate only. -/
def differ_in_y (p q : Vec3 F) : Prop := p.x = q.x ∧ p.y ≠ q.y ∧ p.z = q.z

/-- The points `p` and `q` differ in their z coordinate only. -/
def differ_in_z (p q : Vec3 F) : Prop := p.x = q.x ∧ p.y = q.y ∧ p.z ≠ q.z

/-- The segments joining the points of the corners of each edge. -/
def box_segments (edges : List (Corner × Corner)) (point : Corner → Vec3 F) :
    List (Vec3 F × Vec3 F) :=
  edges.map fun e => (point e.1, point e.2)

/-- The vertices pushed by one `line` call per segment, in order. -/
def segment_vertices (c : Vec3 F) (segs : List (Vec3 F × Vec3 F)) : List (VertexWorld F) :=
  segs.flatMap fun s => segment s.1 s.2 c

/-- The commands pushed by `n` calls of `line`. -/
def line_commands (n : Nat) : List DrawCommand :=
  List.replicate n { type := PrimitiveType.LINES, vertices := 2 }

/-- Each coordinate of `p` is the corresponding coordinate of `lo` or of `hi`. -/
def on_box (lo hi p : Vec3 F) : Prop :=
  (p.x = lo.x ∨ p.x = hi.x) ∧ (p.y = lo.y ∨ p.y = hi.y) ∧ (p.z = lo.z ∨ p.z = hi.z)

/-- The segments `segs` are box edges: those at the indices `ix` have ends
that differ in x only, those at the indices `iy` in y only, those at the
indices `iz` in z only, and no two segments of the list are the same segment,
in either direction. -/
def BoxEdges (segs : List (Vec3 F × Vec3 F)) (ix iy iz : List Nat) : Prop :=
  (∀ i ∈ ix, ∀ s, segs[i]? = some s → differ_in_x s.1 s.2) ∧
  (∀ i ∈ iy, ∀ s, segs[i]? = some s → differ_in_y s.1 s.2) ∧
  (∀ i ∈ iz, ∀ s, segs[i]? = some s → differ_in_z s.1 s.2) ∧
  segs.Pairwise (fun s t => s ≠ t ∧ s ≠ (t.2, t.1))

/-- The corners joined by the twelve `line` calls of `obb`, in call order;
element `4 a + 2 b + c` of `verts` is the corner on the side `a` in x, `b` in
y and `c` in z when the loops visit `min`, then `max` on each axis. -/
def obb_edges : List (Corner × Corner) :=
  [((false, false, false), (false, false, true)),
   ((false, false, true), (true, false, true)),
   ((true, false, true), (true, false, false)),
   ((true, false, false), (false, false, false)),
   ((false, true, false), (false, true, true)),
   ((false, true, true), (true, true, true)),
   ((true, true, true), (true, true, false)),
   ((true, true, false), (false, true, false)),
   ((false, true, false), (false, false, false)),
   ((true, true, false), (true, false, false)),
   ((false, true, true), (false, false, true)),
   ((true, true, true), (true, false, true))]

/-- The eight corners of a box in the order `x` outermost, `z` innermost,
`min` before `max`. -/
def corner_order : List Corner :=
  [(false, false, false), (false, false, true), (false, true, false), (false, true, true),
   (true, false, false), (true, false, true), (true, true, false), (true, true, true)]

/-- The matrix `model` applied to the point `p`: the first three coordinates of
the product of `model` and (p.x, p.y, p.z, 1). -/
def transform (model : Mat4 F) (p : Vec3 F) : Vec3 F :=
  let v := Glm.mulMV model { x := p.x, y := p.y, z := p.z, w := Glm.ofInt 1 }
  { x := v.x, y := v.y, z := v.z }

/-- The `n` segments of a grid parallel to the z axis, as the specification
gives them: segment number `k` lies at x = x0 + k s and runs from z = -oz to
z = oz, at height `y_level`. -/
def grid_x_lines (y_level : F) (x0 oz s : Int) (n : Nat) : List (Vec3 F × Vec3 F) :=
  (List.range n).map fun k : Nat =>
    ({ x := Glm.ofInt (x0 + (k : Int) * s), y := y_level, z := Glm.ofInt (-oz) },
     { x := Glm.ofInt (x0 + (k : Int) * s), y := y_level, z := Glm.ofInt oz })

/-- The `n` segments of a grid parallel to the x axis, as the specification
gives them: segment number `k` lies at z = z0 + k s and runs from x = -ox to
x = ox, at height `y_level`. -/
def grid_z_lines (y_level : F) (ox z0 s : Int) (n : Nat) : List (Vec3 F × Vec3 F) :=
  (List.range n).map fun k : Nat =>
    ({ x := Glm.ofInt (-ox), y := y_level, z := Glm.ofInt (z0 + (k : Int) * s) },
     { x := Glm.ofInt ox, y := y_level, z := Glm.ofInt (z0 + (k : Int) * s) })

/-! ## Creation and release of the device objects -/

/-- The two members of `ShaderType` that `init` uses. -/
inductive ShaderType where
  | VERTEX
  | FRAGMENT
  deriving DecidableEq

/-- The creation calls of `init` and the `destroy` calls of `shutdown`, with
the handles they receive.  The descriptors `init` fills in are constants, the
handles it stores in them apart; the shader source texts are not modelled. -/
inductive ResourceCall where
  | create_shader (type : ShaderType)
  | create_shader_program (shaders : List Handle)
  | create_vertex_buffer
  | create_input_layout
  | create_vertex_array (vertex_buffer layout : Handle)
  | create_rasterizer_state
  | create_depth_stencil_state
  | create_uniform_buffer
  | destroy (object : Handle)
  deriving DecidableEq

/-- The answers of the render device to the creation calls of `init`: the
handle each call returns, 0 when the creation fails.  The device is external,
so its answers are parameters. -/
structure RenderDevice where
  create_shader : ShaderType → Handle
  create_shader_program : List Handle → Handle
  create_vertex_buffer : Handle
  create_input_layout : Handle
  create_vertex_array : Handle → Handle → Handle
  create_rasterizer_state : Handle
  create_depth_stencil_state : Handle
  create_uniform_buffer : Handle

/-- What a call of `init` leaves behind: the value returned, the renderer, the
device calls made, and the messages passed to `LOG_FATAL`. -/
structure InitResult (F : Type) where
  success : Bool
  renderer : Renderer F
  calls : List ResourceCall
  log : List String

/-- The method `Renderer::init`. -/
def init (_device : RenderDevice) (r : Renderer F) : InitResult F :=
  let m_line_vs := _device.create_shader ShaderType.VERTEX
  let m_line_fs := _device.create_shader ShaderType.FRAGMENT
  let r := { r with m_line_vs := m_line_vs, m_line_fs := m_line_fs }
  let calls := [ResourceCall.create_shader ShaderType.VERTEX,
    ResourceCall.create_shader ShaderType.FRAGMENT]
  if m_line_vs = 0 ∨ m_line_fs = 0 then
    { success := false, renderer := r, calls := calls, log := ["Failed to create Shaders"] }
  else
    let m_line_program := _device.create_shader_program [m_line_vs, m_line_fs]
    let m_line_vbo := _device.create_vertex_buffer
    let m_line_il := _device.create_input_layout
    let m_line_vao := _device.create_vertex_array m_line_vbo m_line_il
    let r := { r with m_line_program := m_line_program, m_line_vbo := m_line_vbo,
                      m_line_il := m_line_il, m_line_vao := m_line_vao }
    let calls := calls ++
      [ResourceCall.create_shader_program [m_line_vs, m_line_fs],
       ResourceCall.create_vertex_buffer,
       ResourceCall.create_input_layout,
       ResourceCall.create_vertex_array m_line_vbo m_line_il]
    if m_line_vao = 0 ∨ m_line_vbo = 0 then
      { success := false, renderer := r, calls := calls,
        log := ["Failed to create Vertex Buffers/Arrays"] }
    else
      let m_rs := _device.create_rasterizer_state
      let m_ds := _device.create_depth_stencil_state
      let m_ubo := _device.create_uniform_buffer
      { success := true
        renderer := { r with m_rs := m_rs, m_ds := m_ds, m_ubo := m_ubo }
        calls := calls ++
          [ResourceCall.create_rasterizer_state,
           ResourceCall.create_depth_stencil_state,
           ResourceCall.create_uniform_buffer]
        log := [] }

/-- The method `Renderer::shutdown`: the `destroy` calls it makes, in order. -/
def shutdown (r : Renderer F) : List ResourceCall :=
  [ResourceCall.destroy r.m_ubo,
   ResourceCall.destroy r.m_line_program,
   ResourceCall.destroy r.m_line_vs,
   ResourceCall.destroy r.m_line_fs,
   ResourceCall.destroy r.m_line_vbo,
   ResourceCall.destroy r.m_line_vao,
   ResourceCall.destroy r.m_ds,
   ResourceCall.destroy r.m_rs]

/-- The handles `init` obtained from the device, in creation order, when it
ran to the end: both shaders, the program, the vertex buffer, the input
layout, the vertex array, the two states and the uniform buffer. -/
def created_handles (r : Renderer F) : List Handle :=
  [r.m_line_vs, r.m_line_fs, r.m_line_program, r.m_line_vbo, r.m_line_il, r.m_line_vao,
   r.m_rs, r.m_ds, r.m_ubo]

/-! ## The parts of a capsule -/

/-- The point at `i` degrees of an arc in the xy plane around `centre`: cosine
along x, sine along y. -/
def arc_xy_point (radius : F) (centre : Vec3 F) (i : Int) : Vec3 F :=
  { x := Glm.add centre.x (Glm.mul (Glm.cos (degInRad i : F)) radius)
    y := Glm.add centre.y (Glm.mul (Glm.sin (degInRad i : F)) radius)
    z := centre.z }

/-- The point at `i` degrees of an arc in the zy plane around `centre`: cosine
along z, sine along y. -/
def arc_zy_point (radius : F) (centre : Vec3 F) (i : Int) : Vec3 F :=
  { x := centre.x
    y := Glm.add centre.y (Glm.mul (Glm.sin (degInRad i : F)) radius)
    z := Glm.add centre.z (Glm.mul (Glm.cos (degInRad i : F)) radius) }

/-- The centre `capsule` uses for the upper cap and the two upper arcs. -/
def capsule_top (height radius : F) (pos : Vec3 F) : Vec3 F :=
  { x := pos.x, y := Glm.sub height radius, z := pos.z }

/-- The centre `capsule` uses for the lower cap and the two lower arcs. -/
def capsule_bottom (radius : F) (pos : Vec3 F) : Vec3 F :=
  { x := pos.x, y := radius, z := pos.z }

/-- The four side lines of `capsule`, in call order, each as the pair of its
first (lower) and second (upper) end. -/
def capsule_sides (height radius : F) (pos : Vec3 F) : List (Vec3 F × Vec3 F) :=
  [({ x := pos.x, y := Glm.add pos.y radius, z := Glm.sub pos.z radius },
    { x := pos.x, y := Glm.sub height radius, z := Glm.sub pos.z radius }),
   ({ x := pos.x, y := Glm.add pos.y radius, z := Glm.add pos.z radius },
    { x := pos.x, y := Glm.sub height radius, z := Glm.add pos.z radius }),
   ({ x := Glm.sub pos.x radius, y := Glm.add pos.y radius, z := pos.z },
    { x := Glm.sub pos.x radius, y := Glm.sub height radius, z := pos.z }),
   ({ x := Glm.add pos.x radius, y := Glm.add pos.y radius, z := pos.z },
    { x := Glm.add pos.x radius, y := Glm.sub height radius, z := pos.z })]

/-- The vertices `capsule` pushes, by part: the side lines, the two upper arcs
around `capsule_top`, the two lower arcs around `capsule_bottom`, the upper
cap and the lower cap. -/
def capsule_vertices (height radius : F) (pos c : Vec3 F) : List (VertexWorld F) :=
  segment_vertices c (capsule_sides height radius pos) ++
  ((angles 0 180).map (arc_xy_point radius (capsule_top height radius pos))).map (vertex_at c) ++
  ((angles 0 180).map (arc_zy_point radius (capsule_top height radius pos))).map (vertex_at c) ++
  ((angles 180 360).map (arc_xy_point radius (capsule_bottom radius pos))).map (vertex_at c) ++
  ((angles 180 360).map (arc_zy_point radius (capsule_bottom radius pos))).map (vertex_at c) ++
  circle_vertices (circle_xz_point radius (capsule_top height radius pos)) c ++
  circle_vertices (circle_xz_point radius (capsule_bottom radius pos)) c

/-- The commands `capsule` pushes. -/
def capsule_command_list : List DrawCommand :=
  [{ type := PrimitiveType.LINES, vertices := 2 },
   { type := PrimitiveType.LINES, vertices := 2 },
   { type := PrimitiveType.LINES, vertices := 2 },
   { type := PrimitiveType.LINES, vertices := 2 },
   { type := PrimitiveType.LINE_STRIP, vertices := 10 },
   { type := PrimitiveType.LINE_STRIP, vertices := 10 },
   { type := PrimitiveType.LINE_STRIP, vertices := 10 },
   { type := PrimitiveType.LINE_STRIP, vertices := 10 },
   { type := PrimitiveType.LINE_STRIP, vertices := 19 },
   { type := PrimitiveType.LINE_STRIP, vertices := 19 }]

end Model

/-! ## Exact rational arithmetic as an instance of the float operations -/

namespace Exact

/-- Component `i` of a vector. -/
def get (v : Vec4 ℚ) (i : Nat) : ℚ :=
  match i with
  | 0 => v.x
  | 1 => v.y
  | 2 => v.z
  | _ => v.w

/-- Column `j` of a matrix. -/
def col (m : Mat4 ℚ) (j : Nat) : Vec4 ℚ :=
  match j with
  | 0 => m.c0
  | 1 => m.c1
  | 2 => m.c2
  | _ => m.c3

/-- The product of a matrix and a column vector. -/
def mulMV (m : Mat4 ℚ) (v : Vec4 ℚ) : Vec4 ℚ :=
  let f := fun i => get m.c0 i * v.x + get m.c1 i * v.y + (get m.c2 i * v.z + get m.c3 i * v.w)
  { x := f 0, y := f 1, z := f 2, w := f 3 }

/-- The product of two matrices, column by column. -/
def mulMM (a b : Mat4 ℚ) : Mat4 ℚ :=
  { c0 := mulMV a b.c0, c1 := mulMV a b.c1, c2 := mulMV a b.c2, c3 := mulMV a b.c3 }

/-- Determinant of a square matrix given by its rows, by expansion along the
first row; the first argument is the size. -/
def det : Nat → List (List ℚ) → ℚ
  | 0, _ => 1
  | n + 1, rows =>
    match rows with
    | [] => 1
    | r0 :: rest =>
      ((List.range (n + 1)).map fun j =>
        (-1) ^ j * r0.getD j 0 * det n (rest.map fun row => row.eraseIdx j)).sum

/-- The rows of a matrix. -/
def rows (m : Mat4 ℚ) : List (List ℚ) :=
  [0, 1, 2, 3].map fun i => [0, 1, 2, 3].map fun j => get (col m j) i

/-- The cofactor of entry (i, j). -/
def cofactor (m : Mat4 ℚ) (i j : Nat) : ℚ :=
  (-1) ^ (i + j) * det 3 (((rows m).eraseIdx i).map fun row => row.eraseIdx j)

/-- The inverse of a matrix: the transposed cofactors over the determinant. -/
def inverse (m : Mat4 ℚ) : Mat4 ℚ :=
  let d := det 4 (rows m)
  let column := fun j : Nat =>
    ({ x := cofactor m j 0 / d, y := cofactor m j 1 / d,
       z := cofactor m j 2 / d, w := cofactor m j 3 / d } : Vec4 ℚ)
  { c0 := column 0, c1 := column 1, c2 := column 2, c3 := column 3 }

/-- Conversion to `int`: the fractional part is discarded. -/
def toInt (q : ℚ) : Int := if 0 ≤ q then q.floor else -((-q).floor)

/-- A rational stand-in for `cos`: the Taylor polynomial of degree 4. -/
def cos (x : ℚ) : ℚ := 1 - x ^ 2 / 2 + x ^ 4 / 24

/-- A rational stand-in for `sin`: the Taylor polynomial of degree 5. -/
def sin (x : ℚ) : ℚ := x - x ^ 3 / 6 + x ^ 5 / 120

/-- A rational stand-in for `glm::radians`, with 355/113 for pi. -/
def radians (x : ℚ) : ℚ := x * (355 / 113) / 180

end Exact

/-- Exact arithmetic on the rationals, with default-constructed vectors
zeroed and rational stand-ins for the trigonometric functions. -/
instance exactGlm : Glm ℚ where
  add := fun a b => a + b
  sub := fun a b => a - b
  mul := fun a b => a * b
  div := fun a b => a / b
  ofInt := fun i => (i : ℚ)
  toInt := Exact.toInt
  le := fun a b => decide (a ≤ b)
  floor := fun a => (a.floor : ℚ)
  cos := Exact.cos
  sin := Exact.sin
  radians := Exact.radians
  vec2Default := { x := 0, y := 0 }
  vec3Default := { x := 0, y := 0, z := 0 }
  mulMM := Exact.mulMM
  mulMV := Exact.mulMV
  inverse := Exact.inverse

/-! ## Binary32 arithmetic as an instance of the float operations -/

/-- A finite value of the type `float` (IEEE 754 binary32), given by the
rational number it stands for. -/
structure Binary32 where
  val : ℚ
  deriving DecidableEq

namespace Binary32

/-- The number of times `n` can be halved before it drops below 2, that is
floor(log2 n) for `n` of at least 1; the first argument bounds the number of
halvings. -/
def log2 : Nat → Nat → Nat
  | 0, _ => 0
  | f + 1, n => if n < 2 then 0 else log2 f (n / 2) + 1

/-- The binary exponent of `q`, for `q` other than 0: the integer `e` with
2^e ≤ |q| < 2^(e+1). -/
def exponent (q : ℚ) : Int :=
  let g : Int := (log2 q.num.natAbs q.num.natAbs : Int) - (log2 q.den q.den : Int)
  if (2 : ℚ) ^ g ≤ |q| then g else g - 1

/-- The integer nearest to `q`; of two nearest integers the even one. -/
def round_even (q : ℚ) : Int :=
  let f := q.floor
  let r := q - f
  if r < 1 / 2 then f else if 1 / 2 < r then f + 1 else if f % 2 = 0 then f else f + 1

/-- Rounding to binary32 in the default rounding mode (to nearest, ties to
even): the significand has 24 bits, the exponent is at least -126 (below it
the values are subnormal).  Overflow to infinity is not modelled. -/
def round (q : ℚ) : ℚ :=
  if q = 0 then 0 else
    let u : ℚ := 2 ^ (max (exponent q) (-126) - 23)
    round_even (q / u) * u

/-- The rational components of a vector. -/
def vec4 (v : Vec4 Binary32) : Vec4 ℚ := { x := v.x.val, y := v.y.val, z := v.z.val, w := v.w.val }

/-- The rational components of a matrix. -/
def mat4 (m : Mat4 Binary32) : Mat4 ℚ :=
  { c0 := vec4 m.c0, c1 := vec4 m.c1, c2 := vec4 m.c2, c3 := vec4 m.c3 }

/-- Every component of a vector rounded to binary32. -/
def round_vec4 (v : Vec4 ℚ) : Vec4 Binary32 :=
  { x := { val := round v.x }, y := { val := round v.y }, z := { val := round v.z },
    w := { val := round v.w } }

/-- Every component of a matrix rounded to binary32. -/
def round_mat4 (m : Mat4 ℚ) : Mat4 Binary32 :=
  { c0 := round_vec4 m.c0, c1 := round_vec4 m.c1, c2 := round_vec4 m.c2,
    c3 := round_vec4 m.c3 }

end Binary32

/-- Binary32 arithmetic on finite values.  `add`, `sub`, `mul`, `div` (by a
divisor other than 0), `ofInt`, `toInt`, `le` and `floor` are the IEEE 754
operations: the exact result rounded to nearest, ties to even.  `radians`
multiplies by the binary32 value nearest to pi / 180.  `cos`, `sin` and the
matrix operations are stand-ins: the value of the exact stand-in rounded
once. -/
instance binary32Glm : Glm Binary32 where
  add := fun a b => { val := Binary32.round (a.val + b.val) }
  sub := fun a b => { val := Binary32.round (a.val - b.val) }
  mul := fun a b => { val := Binary32.round (a.val * b.val) }
  div := fun a b => { val := Binary32.round (a.val / b.val) }
  ofInt := fun i => { val := Binary32.round (i : ℚ) }
  toInt := fun a => Exact.toInt a.val
  le := fun a b => decide (a.val ≤ b.val)
  floor := fun a => { val := (a.val.floor : ℚ) }
  cos := fun a => { val := Binary32.round (Exact.cos a.val) }
  sin := fun a => { val := Binary32.round (Exact.sin a.val) }
  radians := fun a => { val := Binary32.round (a.val * (9370165 / 536870912)) }
  vec2Default := { x := { val := 0 }, y := { val := 0 } }
  vec3Default := { x := { val := 0 }, y := { val := 0 }, z := { val := 0 } }
  mulMM := fun a b =>
    Binary32.round_mat4 (Exact.mulMM (Binary32.mat4 a) (Binary32.mat4 b))
  mulMV := fun m v =>
    Binary32.round_vec4 (Exact.mulMV (Binary32.mat4 m) (Binary32.vec4 v))
  inverse := fun m => Binary32.round_mat4 (Exact.inverse (Binary32.mat4 m))

/-! ## Concrete data for the examples -/

/-- The identity matrix. -/
def identity : Mat4 ℚ :=
  { c0 := { x := 1, y := 0, z := 0, w := 0 }
    c1 := { x := 0, y := 1, z := 0, w := 0 }
    c2 := { x := 0, y := 0, z := 1, w := 0 }
    c3 := { x := 0, y := 0, z := 0, w := 1 } }

/-- A renderer whose device objects are numbered 1 to 9, just constructed. -/
def renderer0 : Renderer ℚ :=
  Renderer.new
    { m_uniforms := identity
      m_line_vao := 1, m_line_vbo := 2, m_line_il := 3, m_line_vs := 4, m_line_fs := 5
      m_line_program := 6, m_ubo := 7
      m_world_vertices := [], m_draw_commands := []
      m_rs := 8, m_ds := 9 }

/-- The colour white. -/
def white : Vec3 ℚ := { x := 1, y := 1, z := 1 }

/-- A vertex at the origin. -/
def vertex0 : VertexWorld ℚ :=
  { position := { x := 0, y := 0, z := 0 }, uv := { x := 0, y := 0 }, color := white }

/-- A device whose vertex buffer holds `vertex0` in every slot. -/
def device0 : Device ℚ := { vbo := fun _ => vertex0, ubo := identity }

/-- A vertex at the origin with texture coordinate (1, 1). -/
def vertex1 : VertexWorld ℚ := { vertex0 with uv := { x := 1, y := 1 } }

/-- A renderer holding exactly MAX_VERTICES vertices. -/
def renderer_full : Renderer ℚ :=
  { renderer0 with m_world_vertices := List.replicate 100000 vertex1 }

/-- A renderer holding one vertex more than MAX_VERTICES. -/
def renderer_over : Renderer ℚ :=
  { renderer0 with m_world_vertices := List.replicate 100001 vertex1 }

/-- A point array: element `i` is the point (i, 2 i, 0). -/
def points0 : Nat → Vec3 ℚ := fun i => { x := i, y := 2 * i, z := 0 }

/-- A frame of generator calls, a `render`, and the calls of the next frame. -/
def steps0 : List (Step ℚ) :=
  [Step.call (Call.line (points0 0) (points0 1) white),
   Step.call (Call.line_strip points0 3 white),
   Step.call (Call.sphere 2 (points0 1) white),
   Step.render 0 640 480 identity,
   Step.call (Call.aabb (points0 0) (points0 1) (points0 2) white),
   Step.call (Call.capsule 20 5 (points0 1) white),
   Step.call (Call.frustum identity identity white)]

/-- The generator calls of a small frame. -/
def calls0 : List (Call ℚ) :=
  [Call.line (points0 0) (points0 1) white, Call.line_strip points0 3 white]

/-- The renderer after the calls of `calls0` on the renderer just constructed. -/
def renderer_small : Renderer ℚ :=
  line_strip points0 3 white (line (points0 0) (points0 1) white (Renderer.new renderer0))

/-- The origin. -/
def origin : Vec3 ℚ := { x := 0, y := 0, z := 0 }

/-- The corner (0, 0, 0). -/
def box_min0 : Vec3 ℚ := { x := 0, y := 0, z := 0 }

/-- The corner (1, 2, 3). -/
def box_max0 : Vec3 ℚ := { x := 1, y := 2, z := 3 }

/-- The corner (1, 2, 0): with `box_min0` it spans a box of zero extent in z. -/
def flat_max0 : Vec3 ℚ := { x := 1, y := 2, z := 0 }

/-- A device on which every creation succeeds, with handles 11 to 19. -/
def device_ok : RenderDevice :=
  { create_shader := fun t => match t with
      | ShaderType.VERTEX => 11
      | ShaderType.FRAGMENT => 12
    create_shader_program := fun _ => 13
    create_vertex_buffer := 14
    create_input_layout := 15
    create_vertex_array := fun _ _ => 16
    create_rasterizer_state := 17
    create_depth_stencil_state := 18
    create_uniform_buffer := 19 }

/-- A device on which the creation of the shader program fails and every
other creation succeeds. -/
def device_no_program : RenderDevice :=
  { device_ok with create_shader_program := fun _ => 0 }

/-- The point (0, 1, 0): a position off the plane y = 0. -/
def raised_pos0 : Vec3 ℚ := { x := 0, y := 1, z := 0 }

/-- The renderer after four calls `line_strip(points0, -2147483648, white)` on
the renderer just constructed (`-2147483648` is the least `int`). -/
def renderer_wrap : Renderer ℚ :=
  line_strip points0 (-2147483648) white
    (line_strip points0 (-2147483648) white
      (line_strip points0 (-2147483648) white
        (line_strip points0 (-2147483648) white (Renderer.new renderer0))))

/-- The identity matrix in binary32. -/
def identity32 : Mat4 Binary32 := Binary32.round_mat4 identity

/-- A renderer over binary32 whose device objects are numbered 1 to 9, just
constructed. -/
def renderer32 : Renderer Binary32 :=
  Renderer.new
    { m_uniforms := identity32
      m_line_vao := 1, m_line_vbo := 2, m_line_il := 3, m_line_vs := 4, m_line_fs := 5
      m_line_program := 6, m_ubo := 7
      m_world_vertices := [], m_draw_commands := []
      m_rs := 8, m_ds := 9 }

/-- The colour white in binary32. -/
def white32 : Vec3 Binary32 := { x := { val := 1 }, y := { val := 1 }, z := { val := 1 } }

/-- The corner (0, 0, 0) in binary32. -/
def unit_min32 : Vec3 Binary32 := { x := { val := 0 }, y := { val := 0 }, z := { val := 0 } }

/-- The corner (1, 1, 1) in binary32. -/
def unit_max32 : Vec3 Binary32 := { x := { val := 1 }, y := { val := 1 }, z := { val := 1 } }

/-- The point (2^24, 2^24, 2^24) in binary32: from 2^24 on the values of
binary32 are 2 or more apart. -/
def far_pos32 : Vec3 Binary32 :=
  { x := { val := 16777216 }, y := { val := 16777216 }, z := { val := 16777216 } }

/-- The point (5, 5, 5) in binary32. -/
def near_pos32 : Vec3 Binary32 := { x := { val := 5 }, y := { val := 5 }, z := { val := 5 } }

/-- The binary32 value nearest to 10 / 3, the literal `3.3333333f`:
13981013 / 2^22, a little below 10 / 3. -/
def x32 : Binary32 := { val := 13981013 / 4194304 }

/-- The binary32 value 33554440 = 2^25 + 8. -/
def wide32 : Binary32 := { val := 33554440 }

/-! ## Properties -/

section Properties

variable {F : Type} [Glm F]

theorem line_eq_append (v0 v1 c : Vec3 F) (r : Renderer F) :
    line v0 v1 c r =
      r.append (segment v0 v1 c) [{ type := PrimitiveType.LINES, vertices := 2 }] := by
  simp [line, Renderer.append, push_back, segment]

theorem line_strip_loop_eq (v : Nat → Vec3 F) (c : Vec3 F) (n i : Nat)
    (vs : List (VertexWorld F)) :
    line_strip_loop v c n i vs =
      vs ++ (List.range n).map fun k =>
        ({ position := v (i + k), uv := Glm.vec2Default, color := c } : VertexWorld F) := by
  induction n generalizing i vs with
  | zero => simp [line_strip_loop]
  | succ n ih =>
    rw [line_strip_loop, ih, List.range_succ_eq_map]
    simp [push_back, Function.comp_def, Nat.add_assoc, Nat.add_comm 1]

theorem line_strip_eq_append (v : Nat → Vec3 F) (count : Int) (c : Vec3 F) (r : Renderer F) :
    line_strip v count c r =
      r.append (strip v count.toNat c)
        [{ type := PrimitiveType.LINE_STRIP, vertices := count }] := by
  simp [line_strip, line_strip_loop_eq, Renderer.append, push_back, strip]

end Properties

theorem append_append {F : Type} (r : Renderer F) (a a' : List (VertexWorld F))
    (b b' : List DrawCommand) :
    (r.append a b).append a' b' = r.append (a ++ a') (b ++ b') := by
  simp [Renderer.append]

theorem append_nil {F : Type} (r : Renderer F) : r.append [] [] = r := by
  simp [Renderer.append]

/-! ### The two primitives -/

/-- Claim C8: `line(a, b, c)` pushes exactly two vertices, the first at `a` and
the second at `b`, both of colour `c`, and exactly one command, (LINES, 2);
no other member of the renderer changes. -/
theorem line_appends_segment {F : Type} [Glm F] (a b c : Vec3 F) (r : Renderer F) :
    ∃ va vb : VertexWorld F,
      (line a b c r).m_world_vertices = r.m_world_vertices ++ [va, vb] ∧
      va.position = a ∧ vb.position = b ∧ va.color = c ∧ vb.color = c ∧
      (line a b c r).m_draw_commands =
        r.m_draw_commands ++ [{ type := PrimitiveType.LINES, vertices := 2 }] ∧
      line a b c r =
        { r with m_world_vertices := (line a b c r).m_world_vertices
                 m_draw_commands := (line a b c r).m_draw_commands } := by
  refine ⟨{ position := a, uv := Glm.vec2Default, color := c },
    { position := b, uv := Glm.vec2Default, color := c }, ?_⟩
  simp [line, push_back]

/-- Claim C9, refuted as stated: with count -1 `line_strip` pushes no vertex
(the vertex vector keeps its length, it does not shrink by one) and still
pushes the command (LINE_STRIP, -1). -/
theorem line_strip_negative_count :
    (line_strip points0 (-1) white renderer0).m_world_vertices.length =
        renderer0.m_world_vertices.length ∧
      ((line_strip points0 (-1) white renderer0).m_world_vertices.length : Int) ≠
        renderer0.m_world_vertices.length + (-1) ∧
      (line_strip points0 (-1) white renderer0).m_draw_commands =
        [{ type := PrimitiveType.LINE_STRIP, vertices := -1 }] := by
  decide

/-- Claim C9, amended: for every point array and every count that is not
negative, `line_strip(points, count, c)` pushes exactly `count` vertices, the
i-th at `points[i]` and of colour `c`, in order, and exactly one command,
(LINE_STRIP, count). -/
theorem line_strip_appends_points {F : Type} [Glm F] (points : Nat → Vec3 F) (count : Int)
    (c : Vec3 F) (r : Renderer F) (hcount : 0 ≤ count) :
    ∃ dV : List (VertexWorld F),
      (line_strip points count c r).m_world_vertices = r.m_world_vertices ++ dV ∧
      (dV.length : Int) = count ∧
      (∀ i (h : i < dV.length), (dV.get ⟨i, h⟩).position = points i ∧
        (dV.get ⟨i, h⟩).color = c) ∧
      (line_strip points count c r).m_draw_commands =
        r.m_draw_commands ++ [{ type := PrimitiveType.LINE_STRIP, vertices := count }] := by
  refine ⟨strip points count.toNat c, ?_⟩
  rw [line_strip_eq_append]
  refine ⟨rfl, ?_, ?_, rfl⟩
  · simp [strip, Int.toNat_of_nonneg hcount]
  · intro i h
    simp [strip]

/-- Claim C9, an instance of the amended statement: three points. -/
theorem line_strip_appends_points_witness :
    ∃ dV : List (VertexWorld ℚ),
      (line_strip points0 3 white renderer0).m_world_vertices =
        renderer0.m_world_vertices ++ dV ∧
      (dV.length : Int) = 3 ∧
      (∀ i (h : i < dV.length), (dV.get ⟨i, h⟩).position = points0 i ∧
        (dV.get ⟨i, h⟩).color = white) ∧
      (line_strip points0 3 white renderer0).m_draw_commands =
        renderer0.m_draw_commands ++ [{ type := PrimitiveType.LINE_STRIP, vertices := 3 }] :=
  line_strip_appends_points points0 3 white renderer0 (by decide)

/-! ### The flush -/

theorem total_vertices_nil : total_vertices [] = 0 := rfl

theorem total_vertices_cons (c : DrawCommand) (cs : List DrawCommand) :
    total_vertices (c :: cs) = c.vertices + total_vertices cs := by
  simp [total_vertices]

theorem total_vertices_append (cs ds : List DrawCommand) :
    total_vertices (cs ++ ds) = total_vertices cs + total_vertices ds := by
  simp [total_vertices]

theorem replay_eq (cs : List DrawCommand) (v : Int) :
    replay cs v =
      ((List.range cs.length).zip cs).flatMap fun p =>
        [DeviceCall.set_primitive_type p.2.type,
         DeviceCall.draw (v + total_vertices (cs.take p.1)) p.2.vertices] := by
  induction cs generalizing v with
  | nil => simp [replay]
  | cons c cs ih =>
    rw [replay, ih, List.length_cons, List.range_succ_eq_map, List.zip_cons_cons,
      List.zip_map_left, List.flatMap_cons, List.flatMap_map]
    simp [total_vertices_cons, total_vertices_nil, Int.add_assoc]

theorem replay_eq_expected (cs : List DrawCommand) : replay cs 0 = expected_replay cs := by
  rw [replay_eq, expected_replay]
  simp

theorem filter_isDraw_replay (cs : List DrawCommand) (v : Int) :
    ((replay cs v).filter DeviceCall.isDraw).length = cs.length := by
  induction cs generalizing v with
  | nil => simp [replay]
  | cons c cs ih => simp [replay, DeviceCall.isDraw, ih]

theorem length_replay (cs : List DrawCommand) (v : Int) :
    (replay cs v).length = 2 * cs.length := by
  induction cs generalizing v with
  | nil => simp [replay]
  | cons c cs ih => simp [replay, ih]; omega

theorem replay_get (cs : List DrawCommand) (v : Int) (i : Nat) (h : i < cs.length) :
    (replay cs v)[2 * i]? = some (DeviceCall.set_primitive_type (cs.get ⟨i, h⟩).type) ∧
      (replay cs v)[2 * i + 1]? =
        some (DeviceCall.draw (v + total_vertices (cs.take i)) (cs.get ⟨i, h⟩).vertices) := by
  induction cs generalizing v i with
  | nil => simp at h
  | cons c cs ih =>
    cases i with
    | zero => simp [replay, total_vertices_nil]
    | succ i =>
      have h1 : i < cs.length := by simpa using h
      have e1 : 2 * (i + 1) = (2 * i) + 1 + 1 := by omega
      rw [e1, replay]
      simp only [List.getElem?_cons_succ]
      rw [(ih (v + c.vertices) i h1).1, (ih (v + c.vertices) i h1).2]
      simp [total_vertices_cons, Int.add_assoc]

theorem wrap_int_of_range (n : Int) (h1 : -2147483648 ≤ n) (h2 : n ≤ 2147483647) :
    wrap_int n = n := by
  unfold wrap_int
  omega

theorem wrap_int_range (n : Int) : -2147483648 ≤ wrap_int n ∧ wrap_int n ≤ 2147483647 := by
  unfold wrap_int
  omega

theorem wrap_int_add (a b : Int) : wrap_int (wrap_int a + b) = wrap_int (a + b) := by
  unfold wrap_int
  omega

theorem filter_isDraw_replay_int (cs : List DrawCommand) (v : Int) :
    ((replay_int cs v).filter DeviceCall.isDraw).length = cs.length := by
  induction cs generalizing v with
  | nil => simp [replay_int]
  | cons c cs ih => simp [replay_int, DeviceCall.isDraw, ih]

theorem length_replay_int (cs : List DrawCommand) (v : Int) :
    (replay_int cs v).length = 2 * cs.length := by
  induction cs generalizing v with
  | nil => simp [replay_int]
  | cons c cs ih => simp [replay_int, ih]; omega

/-- The calls of the replay loop, whatever the counts: the topology of
command `i`, then a draw of its count that starts at the sum of the counts
before it reduced to the range of `int`. -/
theorem replay_int_get (cs : List DrawCommand) (v : Int) (hv : wrap_int v = v) (i : Nat)
    (h : i < cs.length) :
    (replay_int cs v)[2 * i]? = some (DeviceCall.set_primitive_type (cs.get ⟨i, h⟩).type) ∧
      (replay_int cs v)[2 * i + 1]? =
        some (DeviceCall.draw (wrap_int (v + total_vertices (cs.take i)))
          (cs.get ⟨i, h⟩).vertices) := by
  induction cs generalizing v i with
  | nil => simp at h
  | cons c cs ih =>
    cases i with
    | zero => simp [replay_int, total_vertices_nil, hv]
    | succ i =>
      have h1 : i < cs.length := by simpa using h
      have e1 : 2 * (i + 1) = (2 * i) + 1 + 1 := by omega
      have hw : wrap_int (wrap_int (v + c.vertices)) = wrap_int (v + c.vertices) := by
        have := wrap_int_range (v + c.vertices)
        exact wrap_int_of_range _ this.1 this.2
      rw [e1, replay_int]
      simp only [List.getElem?_cons_succ]
      rw [(ih (wrap_int (v + c.vertices)) hw i h1).1, (ih (wrap_int (v + c.vertices)) hw i h1).2]
      simp [total_vertices_cons, wrap_int_add, Int.add_assoc]

/-- As long as the running offset stays in the range of `int` at every draw,
the replay loop makes the calls of the replay with integer offsets. -/
theorem replay_int_eq_replay (cs : List DrawCommand) (v : Int)
    (h : ∀ i, 0 < i → i < cs.length →
      -2147483648 ≤ v + total_vertices (cs.take i) ∧
        v + total_vertices (cs.take i) ≤ 2147483647) :
    replay_int cs v = replay cs v := by
  induction cs generalizing v with
  | nil => simp [replay_int, replay]
  | cons c cs ih =>
    rw [replay_int, replay]
    cases cs with
    | nil => simp [replay_int, replay]
    | cons c' cs' =>
      have h1 := h 1 (by omega) (by simp)
      simp only [List.take_succ_cons, List.take_zero, total_vertices_cons,
        total_vertices_nil, Int.add_zero] at h1
      rw [wrap_int_of_range _ h1.1 h1.2, ih]
      intro i hi0 hi
      have := h (i + 1) (by omega) (by simpa using hi)
      simpa [total_vertices_cons, Int.add_assoc] using this

theorem render_calls {F : Type} [Glm F] (fbo : Handle) (width height : Int)
    (view_proj : Mat4 F) (r : Renderer F) (d : Device F) :
    (render fbo width height view_proj r d).calls =
      binding_calls fbo width height r ++ replay_int r.m_draw_commands 0 := by
  simp [render, binding_calls]

/-- The calls of `render`, whatever the counts: the eleven mapping and binding
calls, then for each command in order its topology and a draw of its count
that starts at the sum of the counts before it reduced to the range of `int`;
there are as many draws as commands. -/
theorem render_calls_get {F : Type} [Glm F] (fbo : Handle) (width height : Int)
    (view_proj : Mat4 F) (r : Renderer F) (d : Device F) :
    (render fbo width height view_proj r d).calls.take 11 = binding_calls fbo width height r ∧
      (render fbo width height view_proj r d).calls.length = 11 + 2 * r.m_draw_commands.length ∧
      (∀ i (h : i < r.m_draw_commands.length),
        (render fbo width height view_proj r d).calls[11 + 2 * i]? =
          some (DeviceCall.set_primitive_type (r.m_draw_commands.get ⟨i, h⟩).type) ∧
        (render fbo width height view_proj r d).calls[11 + (2 * i + 1)]? =
          some (DeviceCall.draw (wrap_int (total_vertices (r.m_draw_commands.take i)))
            (r.m_draw_commands.get ⟨i, h⟩).vertices)) ∧
      ((render fbo width height view_proj r d).calls.filter DeviceCall.isDraw).length =
        r.m_draw_commands.length := by
  have hb : (binding_calls fbo width height r).length = 11 := rfl
  rw [render_calls]
  refine ⟨?_, ?_, ?_, ?_⟩
  · rw [List.take_append_of_le_length (Nat.le_of_eq hb.symm), ← hb, List.take_length]
  · rw [List.length_append, hb, length_replay_int]
  · intro i h
    have hg := replay_int_get r.m_draw_commands 0 rfl i h
    rw [← hb, List.getElem?_append_right (Nat.le_add_right _ _),
      List.getElem?_append_right (Nat.le_add_right _ _), Nat.add_sub_cancel_left,
      Nat.add_sub_cancel_left, hg.1, hg.2]
    simp
  · rw [List.filter_append, List.length_append, filter_isDraw_replay_int]
    simp [binding_calls, DeviceCall.isDraw]

/-- Claim C2, amended: whatever the vertex list holds (overflow or not), the
device calls of `render` are the eleven mapping and binding calls followed,
for each command in order, by the call that sets the topology to its tag and
by one `draw(first, count)` with `count` its vertex count; there are exactly
as many draw calls as commands.  As long as the running offset has stayed in
the range of `int`, that is the vertex counts of the commands before command
`k` add up to a number from -2^31 to 2^31 - 1 for every `k` up to `i`, the
`first` of draw `i` is the sum of the vertex counts of the commands before
command `i`; when this is so for every command, the calls after the binding
calls are the replay as specified. -/
theorem render_replays_commands {F : Type} [Glm F] (fbo : Handle) (width height : Int)
    (view_proj : Mat4 F) (r : Renderer F) (d : Device F) :
    (render fbo width height view_proj r d).calls.take 11 = binding_calls fbo width height r ∧
      (render fbo width height view_proj r d).calls.length =
        11 + 2 * r.m_draw_commands.length ∧
      ((render fbo width height view_proj r d).calls.filter DeviceCall.isDraw).length =
        r.m_draw_commands.length ∧
      (∀ i (h : i < r.m_draw_commands.length),
        (render fbo width height view_proj r d).calls[11 + 2 * i]? =
          some (DeviceCall.set_primitive_type (r.m_draw_commands.get ⟨i, h⟩).type) ∧
        ∃ first : Int,
          (render fbo width height view_proj r d).calls[11 + (2 * i + 1)]? =
            some (DeviceCall.draw first (r.m_draw_commands.get ⟨i, h⟩).vertices) ∧
          ((∀ k, k ≤ i →
              -2147483648 ≤ total_vertices (r.m_draw_commands.take k) ∧
                total_vertices (r.m_draw_commands.take k) ≤ 2147483647) →
            first = total_vertices (r.m_draw_commands.take i))) ∧
      ((∀ i, i < r.m_draw_commands.length →
          -2147483648 ≤ total_vertices (r.m_draw_commands.take i) ∧
            total_vertices (r.m_draw_commands.take i) ≤ 2147483647) →
        (render fbo width height view_proj r d).calls =
            binding_calls fbo width height r ++ expected_replay r.m_draw_commands ∧
          (expected_replay r.m_draw_commands).length = 2 * r.m_draw_commands.length ∧
          ∀ i (h : i < r.m_draw_commands.length),
            (expected_replay r.m_draw_commands)[2 * i]? =
              some (DeviceCall.set_primitive_type (r.m_draw_commands.get ⟨i, h⟩).type) ∧
            (expected_replay r.m_draw_commands)[2 * i + 1]? =
              some (DeviceCall.draw (total_vertices (r.m_draw_commands.take i))
                (r.m_draw_commands.get ⟨i, h⟩).vertices)) := by
  obtain ⟨h1, h2, h3, h4⟩ := render_calls_get fbo width height view_proj r d
  refine ⟨h1, h2, h4, ?_, ?_⟩
  · intro i h
    refine ⟨(h3 i h).1, wrap_int (total_vertices (r.m_draw_commands.take i)), (h3 i h).2, ?_⟩
    intro hk
    exact wrap_int_of_range _ (hk i (Nat.le_refl i)).1 (hk i (Nat.le_refl i)).2
  · intro hfit
    have he : replay_int r.m_draw_commands 0 = replay r.m_draw_commands 0 :=
      replay_int_eq_replay _ 0 (fun i _ hi => by simpa using hfit i hi)
    rw [render_calls, he, replay_eq_expected]
    refine ⟨rfl, ?_, ?_⟩
    · rw [← replay_eq_expected, length_replay]
    · intro i h
      rw [← replay_eq_expected]
      simpa using replay_get r.m_draw_commands 0 i h

/-- Claim C2, an instance: the frame of a `line` and a `line_strip` of three
points; the draws start at 0 and at 2. -/
theorem render_replays_commands_witness :
    (render 0 640 480 identity renderer_small device0).calls =
        binding_calls 0 640 480 renderer_small ++
          [DeviceCall.set_primitive_type PrimitiveType.LINES, DeviceCall.draw 0 2,
           DeviceCall.set_primitive_type PrimitiveType.LINE_STRIP, DeviceCall.draw 2 3] ∧
      expected_replay renderer_small.m_draw_commands =
        [DeviceCall.set_primitive_type PrimitiveType.LINES, DeviceCall.draw 0 2,
         DeviceCall.set_primitive_type PrimitiveType.LINE_STRIP, DeviceCall.draw 2 3] :=
  have h := (render_replays_commands 0 640 480 identity renderer_small device0).2.2.2.2
    (by decide)
  ⟨h.1.trans (by decide), by decide⟩

/-- Claim C2, refuted as stated: after four calls
`line_strip(points, -2147483648, c)` on the renderer just constructed the
command list holds four commands (LINE_STRIP, -2147483648).  The counts before
the third command add up to -4294967296 and those before the fourth to
-6442450944, but `render` issues the third draw with `first` 0 and the fourth
with `first` -2147483648: the running offset is an `int`. -/
theorem render_offset_wraps :
    renderer_wrap.m_draw_commands =
        List.replicate 4 { type := PrimitiveType.LINE_STRIP, vertices := -2147483648 } ∧
      total_vertices (renderer_wrap.m_draw_commands.take 2) = -4294967296 ∧
      total_vertices (renderer_wrap.m_draw_commands.take 3) = -6442450944 ∧
      (render 0 640 480 identity renderer_wrap device0).calls.filter DeviceCall.isDraw =
        [DeviceCall.draw 0 (-2147483648), DeviceCall.draw (-2147483648) (-2147483648),
         DeviceCall.draw 0 (-2147483648), DeviceCall.draw (-2147483648) (-2147483648)] ∧
      (render 0 640 480 identity renderer_wrap device0).calls ≠
        binding_calls 0 640 480 renderer_wrap ++
          expected_replay renderer_wrap.m_draw_commands := by
  decide

theorem total_take_bounds (cs : List DrawCommand) (h : ∀ c ∈ cs, 0 ≤ c.vertices) (i : Nat) :
    0 ≤ total_vertices (cs.take i) ∧ total_vertices (cs.take i) ≤ total_vertices cs := by
  induction cs generalizing i with
  | nil => simp [total_vertices_nil]
  | cons c cs ih =>
    cases i with
    | zero =>
      have h0 := h c (by simp)
      have := (ih (fun c hc => h c (by simp [hc])) cs.length)
      simp only [List.take_length] at this
      simp only [List.take_zero, total_vertices_nil, total_vertices_cons]
      omega
    | succ i =>
      have h0 := h c (by simp)
      have := ih (fun c hc => h c (by simp [hc])) i
      simp only [List.take_succ_cons, total_vertices_cons]
      omega

/-- A frame whose counts are not negative and add up to the number of
vertices, with fewer than 2^31 vertices: the replay loop makes the calls of
the replay with integer offsets. -/
theorem replay_int_of_balanced {F : Type} [Glm F] (r : Renderer F)
    (h : Balanced r.m_world_vertices r.m_draw_commands)
    (hV : r.m_world_vertices.length ≤ 2147483647) :
    replay_int r.m_draw_commands 0 = replay r.m_draw_commands 0 := by
  apply replay_int_eq_replay
  intro i _ _
  have := total_take_bounds r.m_draw_commands h.2 i
  have h1 := h.1
  omega

theorem render_vbo {F : Type} [Glm F] (fbo : Handle) (width height : Int)
    (view_proj : Mat4 F) (r : Renderer F) (d : Device F) :
    (render fbo width height view_proj r d).device.vbo = (upload r.m_world_vertices d.vbo).1 := by
  simp [render]

theorem render_cout {F : Type} [Glm F] (fbo : Handle) (width height : Int)
    (view_proj : Mat4 F) (r : Renderer F) (d : Device F) :
    (render fbo width height view_proj r d).cout = (upload r.m_world_vertices d.vbo).2 := by
  simp [render]

theorem upload_overflow {F : Type} (vs : List (VertexWorld F)) (vbo : Nat → VertexWorld F)
    (h : 100000 < vs.length) : upload vs vbo = (vbo, ["Vertices are above limit"]) := by
  have h1 : vs.length > MAX_VERTICES := h
  simp [upload, h1]

theorem upload_fits {F : Type} (vs : List (VertexWorld F)) (vbo : Nat → VertexWorld F)
    (h : vs.length ≤ 100000) : upload vs vbo = (memcpy_vertices vs vbo, []) := by
  have h1 : ¬ vs.length > MAX_VERTICES := by simpa [MAX_VERTICES] using h
  rw [upload, if_neg h1]

/-- Claim C3: `render` copies the vertices into the vertex buffer exactly when
there are at most MAX_VERTICES (100000) of them.  With more, every slot of the
buffer holds after `render` what it held before, and the overflow is reported;
with at most 100000 (100000 included), slot `i` holds vertex `i` for every `i`
below the number of vertices, every slot from that number on is unchanged, and
nothing is reported. -/
theorem render_upload_decision {F : Type} [Glm F] (fbo : Handle) (width height : Int)
    (view_proj : Mat4 F) (r : Renderer F) (d : Device F) :
    (100000 < r.m_world_vertices.length →
        (∀ i, (render fbo width height view_proj r d).device.vbo i = d.vbo i) ∧
        (render fbo width height view_proj r d).cout = ["Vertices are above limit"]) ∧
      (r.m_world_vertices.length ≤ 100000 →
        (∀ i (h : i < r.m_world_vertices.length),
          (render fbo width height view_proj r d).device.vbo i = r.m_world_vertices.get ⟨i, h⟩) ∧
        (∀ i, r.m_world_vertices.length ≤ i →
          (render fbo width height view_proj r d).device.vbo i = d.vbo i) ∧
        (render fbo width height view_proj r d).cout = []) := by
  rw [render_vbo, render_cout]
  constructor
  · intro h
    rw [upload_overflow _ _ h]
    exact ⟨fun _ => rfl, rfl⟩
  · intro h
    rw [upload_fits _ _ h]
    refine ⟨?_, ?_, rfl⟩
    · intro i hi
      simp [memcpy_vertices, List.getD_eq_getElem?_getD, List.getElem?_eq_getElem hi]
    · intro i hi
      simp [memcpy_vertices, List.getD_eq_getElem?_getD, List.getElem?_eq_none hi]

/-- Claim C3, instances: a frame of exactly 100000 vertices is copied, a frame
of 100001 vertices leaves the buffer as it was. -/
theorem render_upload_decision_witness :
    ((∀ i (h : i < renderer_full.m_world_vertices.length),
        (render 0 640 480 identity renderer_full device0).device.vbo i =
          renderer_full.m_world_vertices.get ⟨i, h⟩) ∧
      (∀ i, renderer_full.m_world_vertices.length ≤ i →
        (render 0 640 480 identity renderer_full device0).device.vbo i = device0.vbo i) ∧
      (render 0 640 480 identity renderer_full device0).cout = []) ∧
    ((∀ i, (render 0 640 480 identity renderer_over device0).device.vbo i = device0.vbo i) ∧
      (render 0 640 480 identity renderer_over device0).cout = ["Vertices are above limit"]) :=
  ⟨(render_upload_decision 0 640 480 identity renderer_full device0).2
      (Nat.le_of_eq (List.length_replicate 100000 vertex1)),
    (render_upload_decision 0 640 480 identity renderer_over device0).1
      (Nat.lt_of_lt_of_eq (Nat.lt_succ_self 100000)
        (List.length_replicate 100001 vertex1).symm)⟩

/-- Claim C4: after `render` both the vertex list and the command list are
empty, whatever they held before (in particular with more than 100000
vertices, on the overflow path). -/
theorem render_clears_accumulator {F : Type} [Glm F] (fbo : Handle) (width height : Int)
    (view_proj : Mat4 F) (r : Renderer F) (d : Device F) :
    (render fbo width height view_proj r d).renderer.m_world_vertices = [] ∧
      (render fbo width height view_proj r d).renderer.m_draw_commands = [] := by
  simp [render]

theorem upload_nil {F : Type} (vbo : Nat → VertexWorld F) : upload [] vbo = (vbo, []) := by
  have h : memcpy_vertices [] vbo = vbo := by
    funext i
    simp [memcpy_vertices]
  simp [upload, MAX_VERTICES, h]

/-- Claim C6: `render` on an empty accumulator leaves every slot of the vertex
buffer unchanged, reports nothing and makes the eleven mapping and binding
calls only, no `set_primitive_type` and no `draw`; a second `render` with the
same arguments right after it makes the same device calls and ends in the same
renderer and device state as the first. -/
theorem render_empty_idempotent {F : Type} [Glm F] (fbo : Handle) (width height : Int)
    (view_proj : Mat4 F) (r : Renderer F) (d : Device F)
    (hV : r.m_world_vertices = []) (hC : r.m_draw_commands = []) :
    (render fbo width height view_proj r d).device.vbo = d.vbo ∧
      (render fbo width height view_proj r d).cout = [] ∧
      (render fbo width height view_proj r d).calls = binding_calls fbo width height r ∧
      (render fbo width height view_proj r d).calls.filter DeviceCall.isReplay = [] ∧
      (render fbo width height view_proj
          (render fbo width height view_proj r d).renderer
          (render fbo width height view_proj r d).device).calls =
        (render fbo width height view_proj r d).calls ∧
      (render fbo width height view_proj
          (render fbo width height view_proj r d).renderer
          (render fbo width height view_proj r d).device).renderer =
        (render fbo width height view_proj r d).renderer ∧
      (render fbo width height view_proj
          (render fbo width height view_proj r d).renderer
          (render fbo width height view_proj r d).device).device =
        (render fbo width height view_proj r d).device ∧
      (render fbo width height view_proj
          (render fbo width height view_proj r d).renderer
          (render fbo width height view_proj r d).device).cout =
        (render fbo width height view_proj r d).cout := by
  simp [render, hV, hC, upload_nil, replay_int, binding_calls, DeviceCall.isReplay]

/-- Claim C6, an instance: the renderer just constructed. -/
theorem render_empty_idempotent_witness :
    (render 0 640 480 identity renderer0 device0).device.vbo = device0.vbo ∧
      (render 0 640 480 identity renderer0 device0).cout = [] ∧
      (render 0 640 480 identity renderer0 device0).calls =
        binding_calls 0 640 480 renderer0 ∧
      (render 0 640 480 identity renderer0 device0).calls.filter DeviceCall.isReplay = [] ∧
      (render 0 640 480 identity
          (render 0 640 480 identity renderer0 device0).renderer
          (render 0 640 480 identity renderer0 device0).device).calls =
        (render 0 640 480 identity renderer0 device0).calls ∧
      (render 0 640 480 identity
          (render 0 640 480 identity renderer0 device0).renderer
          (render 0 640 480 identity renderer0 device0).device).renderer =
        (render 0 640 480 identity renderer0 device0).renderer ∧
      (render 0 640 480 identity
          (render 0 640 480 identity renderer0 device0).renderer
          (render 0 640 480 identity renderer0 device0).device).device =
        (render 0 640 480 identity renderer0 device0).device ∧
      (render 0 640 480 identity
          (render 0 640 480 identity renderer0 device0).renderer
          (render 0 640 480 identity renderer0 device0).device).cout =
        (render 0 640 480 identity renderer0 device0).cout :=
  render_empty_idempotent 0 640 480 identity renderer0 device0 rfl rfl

/-! ### Generators only append -/

section AppendOnly

variable {F : Type} [Glm F] {P : List (VertexWorld F) → List DrawCommand → Prop}
  {Q : Int → Prop}

theorem appends_id (hP : Primitive P Q) : Appends P (fun r : Renderer F => r) :=
  ⟨[], [], hP.nil, fun r => (append_nil r).symm⟩

theorem appends_comp (hP : Primitive P Q) {f g : Renderer F → Renderer F}
    (hf : Appends P f) (hg : Appends P g) : Appends P (fun r => g (f r)) := by
  obtain ⟨a, b, hab, hf⟩ := hf
  obtain ⟨a', b', hab', hg⟩ := hg
  exact ⟨a ++ a', b ++ b', hP.app a b a' b' hab hab',
    fun r => by simp only [hf, hg, append_append]⟩

theorem appends_line (hP : Primitive P Q) (v0 v1 c : Vec3 F) : Appends P (line v0 v1 c) :=
  ⟨_, _, hP.seg v0 v1 c, line_eq_append v0 v1 c⟩

theorem appends_line_strip (hP : Primitive P Q) (v : Nat → Vec3 F) (count : Int) (c : Vec3 F)
    (hQ : Q count) : Appends P (line_strip v count c) :=
  ⟨_, _, hP.strp v count c hQ, line_strip_eq_append v count c⟩

theorem then_line (hP : Primitive P Q) {f : Renderer F → Renderer F} {v0 v1 c : Vec3 F}
    (hf : Appends P f) : Appends P (fun r => line v0 v1 c (f r)) :=
  appends_comp hP hf (appends_line hP v0 v1 c)

theorem then_line_strip (hP : Primitive P Q) {f : Renderer F → Renderer F}
    {v : Nat → Vec3 F} {c : Vec3 F} (n : Nat) (hf : Appends P f) :
    Appends P (fun r => line_strip v n c (f r)) :=
  appends_comp hP hf (appends_line_strip hP v n c (hP.nonneg n))

theorem appends_circle_xy (hP : Primitive P Q) (radius : F) (pos c : Vec3 F) :
    Appends P (circle_xy radius pos c) :=
  appends_line_strip hP _ 19 c (hP.nonneg 19)

theorem appends_circle_xz (hP : Primitive P Q) (radius : F) (pos c : Vec3 F) :
    Appends P (circle_xz radius pos c) :=
  appends_line_strip hP _ 19 c (hP.nonneg 19)

theorem appends_circle_yz (hP : Primitive P Q) (radius : F) (pos c : Vec3 F) :
    Appends P (circle_yz radius pos c) :=
  appends_line_strip hP _ 19 c (hP.nonneg 19)

theorem then_circle_xz (hP : Primitive P Q) {f : Renderer F → Renderer F} {radius : F}
    {pos c : Vec3 F} (hf : Appends P f) : Appends P (fun r => circle_xz radius pos c (f r)) :=
  appends_comp hP hf (appends_circle_xz hP radius pos c)

theorem then_circle_yz (hP : Primitive P Q) {f : Renderer F → Renderer F} {radius : F}
    {pos c : Vec3 F} (hf : Appends P f) : Appends P (fun r => circle_yz radius pos c (f r)) :=
  appends_comp hP hf (appends_circle_yz hP radius pos c)

theorem appends_sphere (hP : Primitive P Q) (radius : F) (pos c : Vec3 F) :
    Appends P (sphere radius pos c) := by
  show Appends P (fun r => circle_yz radius pos c (circle_xz radius pos c
    (circle_xy radius pos c r)))
  exact then_circle_yz hP (then_circle_xz hP (appends_circle_xy hP radius pos c))

theorem appends_capsule (hP : Primitive P Q) (height radius : F) (pos c : Vec3 F) :
    Appends P (capsule height radius pos c) := by
  unfold capsule
  simp only []
  refine then_circle_xz hP (then_circle_xz hP ?_)
  refine then_line_strip hP 10 (then_line_strip hP 10 ?_)
  refine then_line_strip hP 10 (then_line_strip hP 10 ?_)
  refine then_line hP (then_line hP (then_line hP ?_))
  exact appends_line hP _ _ c

theorem appends_aabb (hP : Primitive P Q) (min max pos c : Vec3 F) :
    Appends P (aabb min max pos c) := by
  unfold aabb
  simp only []
  refine then_line hP (then_line hP (then_line hP (then_line hP ?_)))
  refine then_line hP (then_line hP (then_line hP (then_line hP ?_)))
  refine then_line hP (then_line hP (then_line hP ?_))
  exact appends_line hP _ _ c

theorem appends_obb_lines (hP : Primitive P Q) (verts : Nat → Vec3 F) (c : Vec3 F) :
    Appends P (obb_lines verts c) := by
  unfold obb_lines
  simp only []
  refine then_line hP (then_line hP (then_line hP (then_line hP ?_)))
  refine then_line hP (then_line hP (then_line hP (then_line hP ?_)))
  refine then_line hP (then_line hP (then_line hP ?_))
  exact appends_line hP _ _ c

theorem appends_frustum (hP : Primitive P Q) (proj view : Mat4 F) (c : Vec3 F) :
    Appends P (frustum proj view c) := by
  unfold frustum
  simp only []
  refine then_line hP (then_line hP (then_line hP (then_line hP ?_)))
  refine then_line_strip hP 5 ?_
  exact appends_line_strip hP _ 5 c (hP.nonneg 5)

omit [Glm F] in
theorem appendsOnly_of_appends {f : Renderer F → Renderer F} (hf : Appends P f) :
    AppendsOnly P (fun r => Except.ok (f r)) := by
  obtain ⟨a, b, hab, hf⟩ := hf
  exact Or.inr ⟨a, b, hab, fun r => by simp only [hf]⟩

theorem appendsOnly_seq (hP : Primitive P Q) {f g : Renderer F → Except Fault (Renderer F)}
    (hf : AppendsOnly P f) (hg : AppendsOnly P g) :
    AppendsOnly P (fun r =>
      match f r with
      | Except.ok r1 => g r1
      | Except.error e => Except.error e) := by
  rcases hf with ⟨e, hf⟩ | ⟨a, b, hab, hf⟩
  · exact Or.inl ⟨e, fun r => by simp [hf]⟩
  · rcases hg with ⟨e, hg⟩ | ⟨a', b', hab', hg⟩
    · exact Or.inl ⟨e, fun r => by simp [hf, hg]⟩
    · exact Or.inr ⟨a ++ a', b ++ b', hP.app a b a' b' hab hab',
        fun r => by simp [hf, hg, append_append]⟩

theorem appendsOnly_grid_loop_x (hP : Primitive P Q) (y_level spacing : F) (c : Vec3 F)
    (offset_x offset_z : Int) (n : Nat) (x : Int) :
    AppendsOnly P (grid_loop_x y_level spacing c offset_x offset_z n x) := by
  induction n generalizing x with
  | zero => exact Or.inl ⟨Fault.outOfFuel, fun r => rfl⟩
  | succ n ih =>
    by_cases hx : x ≤ offset_x
    · have h := appendsOnly_seq hP
        (appendsOnly_of_appends (appends_line hP
          ({ x := Glm.ofInt x, y := y_level, z := Glm.ofInt (-offset_z) } : Vec3 F)
          { x := Glm.ofInt x, y := y_level, z := Glm.ofInt offset_z } c))
        (ih (Glm.toInt (Glm.add (Glm.ofInt x : F) spacing)))
      have e : grid_loop_x y_level spacing c offset_x offset_z (n + 1) x = _ :=
        funext fun r => by rw [grid_loop_x, if_pos hx]
      rw [e]
      exact h
    · have e : grid_loop_x y_level spacing c offset_x offset_z (n + 1) x =
          fun r => Except.ok r := funext fun r => by rw [grid_loop_x, if_neg hx]
      rw [e]
      exact appendsOnly_of_appends (appends_id hP)

theorem appendsOnly_grid_loop_z (hP : Primitive P Q) (y_level spacing : F) (c : Vec3 F)
    (offset_x offset_z : Int) (n : Nat) (z : Int) :
    AppendsOnly P (grid_loop_z y_level spacing c offset_x offset_z n z) := by
  induction n generalizing z with
  | zero => exact Or.inl ⟨Fault.outOfFuel, fun r => rfl⟩
  | succ n ih =>
    by_cases hz : z ≤ offset_z
    · have h := appendsOnly_seq hP
        (appendsOnly_of_appends (appends_line hP
          ({ x := Glm.ofInt (-offset_x), y := y_level, z := Glm.ofInt z } : Vec3 F)
          { x := Glm.ofInt offset_x, y := y_level, z := Glm.ofInt z } c))
        (ih (Glm.toInt (Glm.add (Glm.ofInt z : F) spacing)))
      have e : grid_loop_z y_level spacing c offset_x offset_z (n + 1) z = _ :=
        funext fun r => by rw [grid_loop_z, if_pos hz]
      rw [e]
      exact h
    · have e : grid_loop_z y_level spacing c offset_x offset_z (n + 1) z =
          fun r => Except.ok r := funext fun r => by rw [grid_loop_z, if_neg hz]
      rw [e]
      exact appendsOnly_of_appends (appends_id hP)

theorem appendsOnly_grid (hP : Primitive P Q) (fuel : Nat) (x z y_level spacing : F)
    (c : Vec3 F) : AppendsOnly P (grid fuel x z y_level spacing c) :=
  appendsOnly_seq hP (appendsOnly_grid_loop_x hP y_level spacing c _ _ fuel _)
    (appendsOnly_grid_loop_z hP y_level spacing c _ _ fuel _)

theorem appendsOnly_obb (hP : Primitive P Q) (fuel : Nat) (min max : Vec3 F) (model : Mat4 F)
    (c : Vec3 F) : AppendsOnly P (obb fuel min max model c) := by
  cases h : obb_corners fuel min max model with
  | error e => exact Or.inl ⟨e, fun r => by simp [obb, h]⟩
  | ok verts =>
    have e : obb fuel min max model c = fun r => Except.ok (obb_lines (ptr verts) c r) :=
      funext fun r => by simp [obb, h]
    rw [e]
    exact appendsOnly_of_appends (appends_obb_lines hP (ptr verts) c)

theorem appendsOnly_call (hP : Primitive P Q) (fuel : Nat) (g : Call F)
    (hg : ∀ v count c, g = Call.line_strip v count c → Q count) :
    AppendsOnly P (Call.run fuel g) := by
  cases g with
  | line v0 v1 c => exact appendsOnly_of_appends (appends_line hP v0 v1 c)
  | line_strip v count c =>
    exact appendsOnly_of_appends (appends_line_strip hP v count c (hg v count c rfl))
  | circle_xy radius pos c => exact appendsOnly_of_appends (appends_circle_xy hP radius pos c)
  | circle_xz radius pos c => exact appendsOnly_of_appends (appends_circle_xz hP radius pos c)
  | circle_yz radius pos c => exact appendsOnly_of_appends (appends_circle_yz hP radius pos c)
  | sphere radius pos c => exact appendsOnly_of_appends (appends_sphere hP radius pos c)
  | capsule height radius pos c =>
    exact appendsOnly_of_appends (appends_capsule hP height radius pos c)
  | aabb min max pos c => exact appendsOnly_of_appends (appends_aabb hP min max pos c)
  | obb min max model c => exact appendsOnly_obb hP fuel min max model c
  | grid x z y_level spacing c => exact appendsOnly_grid hP fuel x z y_level spacing c
  | frustum proj view c => exact appendsOnly_of_appends (appends_frustum hP proj view c)

theorem appendsOnly_runAll (hP : Primitive P Q) (fuel : Nat) (gs : List (Call F))
    (hgs : ∀ g ∈ gs, ∀ v count c, g = Call.line_strip v count c → Q count) :
    AppendsOnly P (Call.runAll fuel gs) := by
  induction gs with
  | nil => exact appendsOnly_of_appends (appends_id hP)
  | cons g gs ih =>
    exact appendsOnly_seq hP (appendsOnly_call hP fuel g (hgs g (List.mem_cons_self g gs)))
      (ih fun g' hg' => hgs g' (List.mem_cons_of_mem g hg'))

end AppendOnly

theorem primitive_true {F : Type} [Glm F] :
    Primitive (fun (_ : List (VertexWorld F)) (_ : List DrawCommand) => True)
      (fun _ => True) :=
  { nil := trivial
    app := fun _ _ _ _ _ _ => trivial
    seg := fun _ _ _ => trivial
    strp := fun _ _ _ _ => trivial
    nonneg := fun _ => trivial }

theorem run_eq_delta {F : Type} [Glm F] (fuel : Nat) (g : Call F) (raw r : Renderer F) :
    Call.run fuel g r =
      match Call.delta fuel g raw with
      | Except.ok d => Except.ok (r.append d.1 d.2)
      | Except.error e => Except.error e := by
  rcases appendsOnly_call primitive_true fuel g (fun _ _ _ _ => trivial) with
    ⟨e, h⟩ | ⟨a, b, _, h⟩
  · simp [Call.delta, h]
  · simp [Call.delta, h, Renderer.append, Renderer.new]

theorem loopFree_returns {F : Type} [Glm F] (fuel : Nat) (g : Call F) (r : Renderer F)
    (hg : g.loopFree = true) : ∃ r1, Call.run fuel g r = Except.ok r1 := by
  cases g <;> first | exact ⟨_, rfl⟩ | simp [Call.loopFree] at hg

/-- Claim C7: the effect of a generator call does not depend on the accumulator.
For every call `g` and every renderer `r`, the call on `r` fails exactly when
it fails on a renderer just constructed, and otherwise leaves `r` with the
vertices and commands pushed at the end that the same call pushes on a
renderer just constructed (on any storage `raw`); every generator but `obb`
and `grid` returns on every input.  Hence after two calls that return the
command list is the old one followed by the commands of the first call and
then those of the second, and likewise for the vertices. -/
theorem generators_append_only {F : Type} [Glm F] (fuel : Nat) :
    (∀ (g : Call F) (raw r : Renderer F),
      Call.run fuel g r =
        match Call.delta fuel g raw with
        | Except.ok d => Except.ok (r.append d.1 d.2)
        | Except.error e => Except.error e) ∧
    (∀ (g : Call F) (raw : Renderer F), g.loopFree = true →
      ∃ d, Call.delta fuel g raw = Except.ok d) ∧
    (∀ (g1 g2 : Call F) (raw r r1 r2 : Renderer F),
      Call.run fuel g1 r = Except.ok r1 → Call.run fuel g2 r1 = Except.ok r2 →
      ∃ d1 d2, Call.delta fuel g1 raw = Except.ok d1 ∧ Call.delta fuel g2 raw = Except.ok d2 ∧
        r2.m_draw_commands = r.m_draw_commands ++ d1.2 ++ d2.2 ∧
        r2.m_world_vertices = r.m_world_vertices ++ d1.1 ++ d2.1) := by
  refine ⟨run_eq_delta fuel, ?_, ?_⟩
  · intro g raw hg
    obtain ⟨r1, h1⟩ := loopFree_returns fuel g (Renderer.new raw) hg
    exact ⟨(r1.m_world_vertices, r1.m_draw_commands), by simp [Call.delta, h1]⟩
  · intro g1 g2 raw r r1 r2 h1 h2
    rw [run_eq_delta fuel g1 raw r] at h1
    rw [run_eq_delta fuel g2 raw r1] at h2
    cases hd1 : Call.delta fuel g1 raw with
    | error e => simp [hd1] at h1
    | ok d1 =>
      cases hd2 : Call.delta fuel g2 raw with
      | error e => simp [hd2] at h2
      | ok d2 =>
        simp only [hd1, Except.ok.injEq] at h1
        simp only [hd2, Except.ok.injEq] at h2
        refine ⟨d1, d2, rfl, rfl, ?_, ?_⟩
        · rw [← h2, ← h1]
          simp [Renderer.append]
        · rw [← h2, ← h1]
          simp [Renderer.append]

/-- Claim C7, an instance: a `line` call followed by a `circle_xy` call on a
renderer holding one segment already. -/
theorem generators_append_only_witness :
    ∃ d1 d2,
      Call.delta 0 (Call.line (points0 1) (points0 2) white) renderer0 = Except.ok d1 ∧
      Call.delta 0 (Call.circle_xy 2 (points0 3) white) renderer0 = Except.ok d2 ∧
      (circle_xy 2 (points0 3) white
          (line (points0 1) (points0 2) white
            (line (points0 0) (points0 1) white renderer0))).m_draw_commands =
        (line (points0 0) (points0 1) white renderer0).m_draw_commands ++ d1.2 ++ d2.2 ∧
      (circle_xy 2 (points0 3) white
          (line (points0 1) (points0 2) white
            (line (points0 0) (points0 1) white renderer0))).m_world_vertices =
        (line (points0 0) (points0 1) white renderer0).m_world_vertices ++ d1.1 ++ d2.1 :=
  (generators_append_only 0).2.2 (Call.line (points0 1) (points0 2) white)
    (Call.circle_xy 2 (points0 3) white) renderer0
    (line (points0 0) (points0 1) white renderer0) _ _ rfl rfl

/-! ### The partition invariant -/

theorem total_vertices_nonneg (cs : List DrawCommand) (h : ∀ c ∈ cs, 0 ≤ c.vertices) :
    0 ≤ total_vertices cs := by
  induction cs with
  | nil => simp [total_vertices]
  | cons c cs ih =>
    rw [total_vertices_cons]
    have h1 := h c (List.mem_cons_self c cs)
    have h2 := ih fun c' hc' => h c' (List.mem_cons_of_mem c hc')
    omega

theorem ranges_head (cs : List DrawCommand) (v : Int) (p : Int × Int)
    (hp : (ranges cs v).head? = some p) : p.1 = v := by
  cases cs with
  | nil => simp [ranges] at hp
  | cons c cs =>
    simp only [ranges, List.head?_cons, Option.some.injEq] at hp
    rw [← hp]

theorem ranges_bounds (cs : List DrawCommand) (v : Int) (h : ∀ c ∈ cs, 0 ≤ c.vertices) :
    ∀ p ∈ ranges cs v, v ≤ p.1 ∧ p.1 ≤ p.2 ∧ p.2 ≤ v + total_vertices cs := by
  induction cs generalizing v with
  | nil => simp [ranges]
  | cons c cs ih =>
    have h1 := h c (List.mem_cons_self c cs)
    have h2 : ∀ c' ∈ cs, 0 ≤ c'.vertices := fun c' hc' => h c' (List.mem_cons_of_mem c hc')
    have h3 := total_vertices_nonneg cs h2
    intro p hp
    rw [total_vertices_cons]
    simp only [ranges, List.mem_cons] at hp
    rcases hp with hp | hp
    · subst hp
      simp only
      omega
    · have := ih (v + c.vertices) h2 p hp
      omega

theorem ranges_chain (cs : List DrawCommand) (v : Int) :
    List.Chain' (fun a b : Int × Int => a.2 = b.1) (ranges cs v) := by
  induction cs generalizing v with
  | nil => simp [ranges]
  | cons c cs ih =>
    rw [ranges, List.chain'_cons']
    refine ⟨?_, ih _⟩
    intro b hb
    exact (ranges_head cs (v + c.vertices) b (by simpa using hb)).symm

theorem ranges_pairwise (cs : List DrawCommand) (v : Int) (h : ∀ c ∈ cs, 0 ≤ c.vertices) :
    List.Pairwise (fun a b : Int × Int => a.2 ≤ b.1) (ranges cs v) := by
  induction cs generalizing v with
  | nil => simp [ranges]
  | cons c cs ih =>
    have h2 : ∀ c' ∈ cs, 0 ≤ c'.vertices := fun c' hc' => h c' (List.mem_cons_of_mem c hc')
    rw [ranges, List.pairwise_cons]
    exact ⟨fun b hb => (ranges_bounds cs (v + c.vertices) h2 b hb).1, ih _ h2⟩

theorem ranges_last (cs : List DrawCommand) (v : Int) (p : Int × Int)
    (hp : (ranges cs v).getLast? = some p) : p.2 = v + total_vertices cs := by
  induction cs generalizing v with
  | nil => simp [ranges] at hp
  | cons c cs ih =>
    rw [total_vertices_cons]
    cases cs with
    | nil =>
      simp only [ranges, List.getLast?_singleton, Option.some.injEq] at hp
      rw [← hp]
      simp [total_vertices_nil]
    | cons c' cs' =>
      rw [ranges, ranges, List.getLast?_cons_cons] at hp
      have := ih (v + c.vertices) (by rw [ranges]; exact hp)
      rw [this, Int.add_assoc]

theorem ranges_draws (cs : List DrawCommand) (v : Int) :
    (replay cs v).filter DeviceCall.isDraw =
      (ranges cs v).map (fun p => DeviceCall.draw p.1 (p.2 - p.1)) := by
  induction cs generalizing v with
  | nil => simp [replay, ranges]
  | cons c cs ih => simp [replay, ranges, DeviceCall.isDraw, ih]

theorem partitionInvariant_of_balanced {F : Type} [Glm F] (r : Renderer F)
    (h : Balanced r.m_world_vertices r.m_draw_commands) : PartitionInvariant r := by
  obtain ⟨h1, h2⟩ := h
  refine ⟨h1, ranges_draws _ 0, ranges_chain _ 0, ranges_pairwise _ 0 h2, ?_, ?_, ?_⟩
  · intro p hp
    have := ranges_bounds _ 0 h2 p hp
    omega
  · intro p hp
    exact ranges_head _ 0 p hp
  · intro p hp
    have := ranges_last _ 0 p hp
    omega

theorem primitive_balanced {F : Type} [Glm F] :
    Primitive (Balanced : List (VertexWorld F) → List DrawCommand → Prop) (fun n => 0 ≤ n) :=
  { nil := ⟨by simp [total_vertices], by simp⟩
    app := fun a b a' b' h h' => by
      refine ⟨?_, ?_⟩
      · rw [total_vertices_append, h.1, h'.1]
        simp
      · intro c hc
        rcases List.mem_append.1 hc with hc | hc
        · exact h.2 c hc
        · exact h'.2 c hc
    seg := fun _ _ _ => ⟨by simp [total_vertices, segment], by simp⟩
    strp := fun v count c hcount => by
      refine ⟨?_, ?_⟩
      · simp [total_vertices, strip, Int.toNat_of_nonneg hcount]
      · simpa using hcount
    nonneg := fun n => Int.natCast_nonneg n }

theorem step_keeps_balanced {F : Type} [Glm F] (fuel : Nat) (s : Step F) (w w1 : World F)
    (hs : Step.countOk s) (hw : Balanced w.renderer.m_world_vertices w.renderer.m_draw_commands)
    (hrun : Step.run fuel s w = Except.ok w1) :
    Balanced w1.renderer.m_world_vertices w1.renderer.m_draw_commands := by
  cases s with
  | call g =>
    have hg : ∀ v count c, g = Call.line_strip v count c → 0 ≤ count := by
      intro v count c e
      subst e
      exact hs
    rcases appendsOnly_call primitive_balanced fuel g hg with ⟨e, h⟩ | ⟨a, b, hab, h⟩
    · simp [Step.run, h] at hrun
    · simp only [Step.run, h, Except.ok.injEq] at hrun
      rw [← hrun]
      exact primitive_balanced.app _ _ _ _ hw hab
  | render fbo width height view_proj =>
    simp only [Step.run, Except.ok.injEq] at hrun
    rw [← hrun]
    simp only [render]
    exact primitive_balanced.nil

theorem runAll_keeps_balanced {F : Type} [Glm F] (fuel : Nat) (steps : List (Step F))
    (w w1 : World F) (hs : ∀ s ∈ steps, Step.countOk s)
    (hw : Balanced w.renderer.m_world_vertices w.renderer.m_draw_commands)
    (hrun : Step.runAll fuel steps w = Except.ok w1) :
    Balanced w1.renderer.m_world_vertices w1.renderer.m_draw_commands := by
  induction steps generalizing w with
  | nil =>
    simp only [Step.runAll, Except.ok.injEq] at hrun
    rw [← hrun]
    exact hw
  | cons s steps ih =>
    rw [Step.runAll] at hrun
    cases h : Step.run fuel s w with
    | error e => simp [h] at hrun
    | ok w2 =>
      simp only [h] at hrun
      exact ih w2 (fun s' hs' => hs s' (List.mem_cons_of_mem s hs'))
        (step_keeps_balanced fuel s w w2 (hs s (List.mem_cons_self s steps)) hw h) hrun

/-- Claim C1, refuted as stated: on a renderer just constructed, the single call
`line_strip(points, -1, c)` returns and leaves a command list whose vertex
counts add up to -1 next to an empty vertex list. -/
theorem partition_fails_negative_count :
    ∃ w, Step.runAll 0 [Step.call (Call.line_strip points0 (-1) white)]
        (World.fresh renderer0 device0) = Except.ok w ∧
      total_vertices w.renderer.m_draw_commands = -1 ∧
      w.renderer.m_world_vertices.length = 0 ∧
      ¬ PartitionInvariant w.renderer :=
  ⟨_, rfl, by decide, by decide, fun h => absurd h.1 (by decide)⟩

theorem runAll_returns {F : Type} [Glm F] (fuel : Nat) (steps : List (Step F)) (w : World F)
    (hs : ∀ s ∈ steps, Step.loopFree s = true) :
    ∃ w1, Step.runAll fuel steps w = Except.ok w1 := by
  induction steps generalizing w with
  | nil => exact ⟨w, rfl⟩
  | cons s steps ih =>
    have h1 := hs s (List.mem_cons_self s steps)
    have h2 : ∀ s' ∈ steps, Step.loopFree s' = true :=
      fun s' hs' => hs s' (List.mem_cons_of_mem s hs')
    cases s with
    | call g =>
      obtain ⟨r1, hr1⟩ := loopFree_returns fuel g w.renderer h1
      obtain ⟨w1, hw1⟩ := ih { w with renderer := r1 } h2
      exact ⟨w1, by simp only [Step.runAll, Step.run, hr1, hw1]⟩
    | render fbo width height view_proj =>
      obtain ⟨w1, hw1⟩ := ih
        { renderer := (render fbo width height view_proj w.renderer w.device).renderer
          device := (render fbo width height view_proj w.renderer w.device).device
          calls := w.calls ++ (render fbo width height view_proj w.renderer w.device).calls
          cout := w.cout ++ (render fbo width height view_proj w.renderer w.device).cout } h2
      exact ⟨w1, by simp only [Step.runAll, Step.run, hw1]⟩

/-- Claim C1, amended: starting from a renderer just constructed, after any
finite sequence of generator calls and `render` calls in which every call
returns and every `line_strip` call of the application has a count that is not
negative, the partition invariant holds: the vertex counts of the commands add
up to the number of vertices, and the ranges given by the running offsets are
contiguous, do not overlap, are in command order and cover the vertex list.
Every call returns when the sequence has no `obb` and no `grid` call. -/
theorem partition_invariant {F : Type} [Glm F] (fuel : Nat) (steps : List (Step F))
    (raw : Renderer F) (d : Device F) (hcount : ∀ s ∈ steps, Step.countOk s) :
    (∀ w, Step.runAll fuel steps (World.fresh raw d) = Except.ok w →
        PartitionInvariant w.renderer) ∧
      ((∀ s ∈ steps, Step.loopFree s = true) →
        ∃ w, Step.runAll fuel steps (World.fresh raw d) = Except.ok w) :=
  ⟨fun w hrun => partitionInvariant_of_balanced w.renderer
      (runAll_keeps_balanced fuel steps (World.fresh raw d) w hcount
        primitive_balanced.nil hrun),
    runAll_returns fuel steps (World.fresh raw d)⟩

/-- Claim C1, an instance of the amended statement: a first frame, a `render`
and the generator calls of a second frame. -/
theorem partition_invariant_witness :
    (∀ s ∈ steps0, Step.countOk s) ∧
      ∃ w, Step.runAll 3 steps0 (World.fresh renderer0 device0) = Except.ok w ∧
        PartitionInvariant w.renderer :=
  have hcount : ∀ s ∈ steps0, Step.countOk s := by
    intro s hs
    simp only [steps0, List.mem_cons, List.mem_singleton, List.not_mem_nil, or_false] at hs
    rcases hs with h | h | h | h | h | h | h <;> subst h <;>
      simp [Step.countOk, Call.countOk]
  ⟨hcount, _, rfl, (partition_invariant 3 steps0 renderer0 device0 hcount).1 _ rfl⟩

/-! ### Overflow containment -/

theorem render_vbo_getD {F : Type} [Glm F] (fbo : Handle) (width height : Int)
    (view_proj : Mat4 F) (r : Renderer F) (d : Device F)
    (h : r.m_world_vertices.length ≤ 100000) (i : Nat) :
    (render fbo width height view_proj r d).device.vbo i =
      r.m_world_vertices.getD i (d.vbo i) := by
  rw [render_vbo, upload_fits _ _ h]
  rfl

theorem render_replay_calls {F : Type} [Glm F] (fbo : Handle) (width height : Int)
    (view_proj : Mat4 F) (r : Renderer F) (d : Device F) :
    (render fbo width height view_proj r d).calls.filter DeviceCall.isReplay =
      replay_int r.m_draw_commands 0 := by
  have h : ∀ (cs : List DrawCommand) (v : Int),
      (replay_int cs v).filter DeviceCall.isReplay = replay_int cs v := by
    intro cs
    induction cs with
    | nil => intro v; simp [replay_int]
    | cons c cs ih => intro v; simp [replay_int, DeviceCall.isReplay, ih]
  rw [render_calls, List.filter_append, h]
  simp [binding_calls, DeviceCall.isReplay]

/-- Claim C5: let a frame of more than 100000 vertices be rendered, and let `G`
be generator calls that, on a renderer just constructed, return and push at
most 100000 vertices in all.  Then on the renderer left by the overflowing
frame the calls `G` return and push the same vertices and commands, and the
next `render` copies exactly these vertices into the first slots of the
vertex buffer, leaves the other slots as they were before the overflowing
frame, reports nothing, and issues the same `set_primitive_type` and `draw`
calls as `render` after `G` on the renderer just constructed. -/
theorem overflow_contained {F : Type} [Glm F] (fuel : Nat) (G : List (Call F))
    (r raw rG : Renderer F) (d d' : Device F)
    (fbo1 : Handle) (width1 height1 : Int) (view_proj1 : Mat4 F)
    (fbo : Handle) (width height : Int) (view_proj : Mat4 F)
    (hover : 100000 < r.m_world_vertices.length)
    (hG : Call.runAll fuel G (Renderer.new raw) = Except.ok rG)
    (hle : rG.m_world_vertices.length ≤ 100000) :
    ∃ r2, Call.runAll fuel G (render fbo1 width1 height1 view_proj1 r d).renderer =
        Except.ok r2 ∧
      r2.m_world_vertices = rG.m_world_vertices ∧
      r2.m_draw_commands = rG.m_draw_commands ∧
      (∀ i, i < rG.m_world_vertices.length →
        some ((render fbo width height view_proj r2
          (render fbo1 width1 height1 view_proj1 r d).device).device.vbo i) =
            rG.m_world_vertices[i]?) ∧
      (∀ i, rG.m_world_vertices.length ≤ i →
        (render fbo width height view_proj r2
          (render fbo1 width1 height1 view_proj1 r d).device).device.vbo i = d.vbo i) ∧
      (render fbo width height view_proj r2
          (render fbo1 width1 height1 view_proj1 r d).device).cout = [] ∧
      (render fbo width height view_proj r2
          (render fbo1 width1 height1 view_proj1 r d).device).calls.filter
            DeviceCall.isReplay =
        (render fbo width height view_proj rG d').calls.filter DeviceCall.isReplay := by
  rcases appendsOnly_runAll primitive_true fuel G (fun _ _ _ _ _ _ => trivial) with
    ⟨e, h⟩ | ⟨a, b, _, h⟩
  · rw [h] at hG
    cases hG
  · rw [h, Except.ok.injEq] at hG
    have hV : rG.m_world_vertices = a := by rw [← hG]; simp [Renderer.append, Renderer.new]
    have hC : rG.m_draw_commands = b := by rw [← hG]; simp [Renderer.append, Renderer.new]
    have hd : ∀ i, (render fbo1 width1 height1 view_proj1 r d).device.vbo i = d.vbo i := by
      intro i
      rw [render_vbo, upload_overflow _ _ hover]
    refine ⟨(render fbo1 width1 height1 view_proj1 r d).renderer.append a b, h _, ?_, ?_, ?_⟩
    · rw [hV]; simp [Renderer.append, render]
    · rw [hC]; simp [Renderer.append, render]
    · have hV2 : ((render fbo1 width1 height1 view_proj1 r d).renderer.append a b).m_world_vertices
          = rG.m_world_vertices := by rw [hV]; simp [Renderer.append, render]
      have hC2 : ((render fbo1 width1 height1 view_proj1 r d).renderer.append a b).m_draw_commands
          = rG.m_draw_commands := by rw [hC]; simp [Renderer.append, render]
      have hle2 : ((render fbo1 width1 height1 view_proj1 r d).renderer.append
          a b).m_world_vertices.length ≤ 100000 := by rw [hV2]; exact hle
      refine ⟨?_, ?_, ?_, ?_⟩
      · intro i hi
        rw [render_vbo_getD _ _ _ _ _ _ hle2, hV2, List.getD_eq_getElem?_getD,
          List.getElem?_eq_getElem hi]
        rfl
      · intro i hi
        rw [render_vbo_getD _ _ _ _ _ _ hle2, hV2, List.getD_eq_getElem?_getD,
          List.getElem?_eq_none hi]
        exact hd i
      · rw [render_cout, upload_fits _ _ hle2]
      · rw [render_replay_calls, render_replay_calls, hC2]

/-- Claim C5, an instance: a frame of 100001 vertices is rendered, then a
segment and a strip of three points are drawn and rendered. -/
theorem overflow_contained_witness :
    ∃ r2, Call.runAll 0 calls0 (render 0 640 480 identity renderer_over device0).renderer =
        Except.ok r2 ∧
      r2.m_world_vertices = renderer_small.m_world_vertices ∧
      r2.m_draw_commands = renderer_small.m_draw_commands ∧
      (∀ i, i < renderer_small.m_world_vertices.length →
        some ((render 1 800 600 identity r2
          (render 0 640 480 identity renderer_over device0).device).device.vbo i) =
            renderer_small.m_world_vertices[i]?) ∧
      (∀ i, renderer_small.m_world_vertices.length ≤ i →
        (render 1 800 600 identity r2
          (render 0 640 480 identity renderer_over device0).device).device.vbo i =
            device0.vbo i) ∧
      (render 1 800 600 identity r2
          (render 0 640 480 identity renderer_over device0).device).cout = [] ∧
      (render 1 800 600 identity r2
          (render 0 640 480 identity renderer_over device0).device).calls.filter
            DeviceCall.isReplay =
        (render 1 800 600 identity renderer_small device0).calls.filter
          DeviceCall.isReplay :=
  overflow_contained 0 calls0 renderer_over renderer0 renderer_small device0 device0
    0 640 480 identity 1 800 600 identity
    (Nat.lt_of_lt_of_eq (Nat.lt_succ_self 100000) (List.length_replicate 100001 vertex1).symm)
    rfl (by decide)

/-! ### Circles -/

theorem strip_ptr {F : Type} [Glm F] (verts : List (Vec3 F)) (c : Vec3 F) :
    strip (ptr verts) verts.length c =
      verts.map fun p => { position := p, uv := Glm.vec2Default, color := c } := by
  apply List.ext_getElem
  · simp [strip]
  · intro i h1 h2
    have hi : i < verts.length := by simpa [strip] using h1
    simp [strip, ptr, List.getD_eq_getElem?_getD, List.getElem?_eq_getElem hi]

theorem angles_full : angles 0 360 = (List.range 19).map fun k => ((20 * k : Nat) : Int) := by
  decide

theorem circle_strip {F : Type} [Glm F] (f : Int → Vec3 F) (c : Vec3 F) (r : Renderer F) :
    line_strip (ptr ((angles 0 360).map f)) 19 c r =
      r.append
        ((List.range 19).map fun k =>
          { position := f ((20 * k : Nat) : Int), uv := Glm.vec2Default, color := c })
        [{ type := PrimitiveType.LINE_STRIP, vertices := 19 }] := by
  have hlen : ((angles 0 360).map f).length = 19 := by
    rw [List.length_map, angles_full]
    simp
  have h := strip_ptr ((angles 0 360).map f) c
  rw [hlen] at h
  rw [line_strip_eq_append]
  have e : (19 : Int).toNat = 19 := rfl
  rw [e, h, angles_full]
  simp [Function.comp_def]

/-- Claim C10: for every radius, centre and colour, each of `circle_xy`,
`circle_xz` and `circle_yz` pushes exactly one command, (LINE_STRIP, 19), and
exactly 19 vertices of the given colour; vertex number k (k = 0..18) is the
centre offset by cos(20 k degrees) times the radius and sin(20 k degrees) times
the radius along the two axes of the plane and by 0 along the third axis.
Where adding 0 leaves a float unchanged, the third coordinate of every point
is that of the centre: the points lie in the plane through the centre. -/
theorem circle_decomposition {F : Type} [Glm F] (radius : F) (pos c : Vec3 F)
    (r : Renderer F) :
    circle_xy radius pos c r =
        r.append
          ((List.range 19).map fun k =>
            { position := circle_xy_point radius pos k, uv := Glm.vec2Default, color := c })
          [{ type := PrimitiveType.LINE_STRIP, vertices := 19 }] ∧
      circle_xz radius pos c r =
        r.append
          ((List.range 19).map fun k =>
            { position := circle_xz_point radius pos k, uv := Glm.vec2Default, color := c })
          [{ type := PrimitiveType.LINE_STRIP, vertices := 19 }] ∧
      circle_yz radius pos c r =
        r.append
          ((List.range 19).map fun k =>
            { position := circle_yz_point radius pos k, uv := Glm.vec2Default, color := c })
          [{ type := PrimitiveType.LINE_STRIP, vertices := 19 }] ∧
      ((∀ x : F, Glm.add x (Glm.ofInt 0) = x) →
        ∀ k, (circle_xy_point radius pos k).z = pos.z ∧
          (circle_xz_point radius pos k).y = pos.y ∧
          (circle_yz_point radius pos k).x = pos.x) := by
  refine ⟨?_, ?_, ?_, ?_⟩
  · rw [circle_xy, circle_strip]
    rfl
  · rw [circle_xz, circle_strip]
    rfl
  · rw [circle_yz, circle_strip]
    rfl
  · intro h k
    simp [circle_xy_point, circle_xz_point, circle_yz_point, Vec3.add, h]

/-- Claim C10, an instance in exact arithmetic, where adding 0 changes nothing:
the three circles of radius 2 around the point (1, 2, 0). -/
theorem circle_decomposition_witness :
    circle_xy 2 (points0 1) white renderer0 =
        renderer0.append
          ((List.range 19).map fun k =>
            { position := circle_xy_point 2 (points0 1) k, uv := Glm.vec2Default,
              color := white })
          [{ type := PrimitiveType.LINE_STRIP, vertices := 19 }] ∧
      circle_xz 2 (points0 1) white renderer0 =
        renderer0.append
          ((List.range 19).map fun k =>
            { position := circle_xz_point 2 (points0 1) k, uv := Glm.vec2Default,
              color := white })
          [{ type := PrimitiveType.LINE_STRIP, vertices := 19 }] ∧
      circle_yz 2 (points0 1) white renderer0 =
        renderer0.append
          ((List.range 19).map fun k =>
            { position := circle_yz_point 2 (points0 1) k, uv := Glm.vec2Default,
              color := white })
          [{ type := PrimitiveType.LINE_STRIP, vertices := 19 }] ∧
      ∀ k, (circle_xy_point 2 (points0 1) k).z = (points0 1).z ∧
        (circle_xz_point 2 (points0 1) k).y = (points0 1).y ∧
        (circle_yz_point 2 (points0 1) k).x = (points0 1).x :=
  have h := circle_decomposition 2 (points0 1) white renderer0
  ⟨h.1, h.2.1, h.2.2.1, h.2.2.2 (fun x => by simp [Glm.add, Glm.ofInt])⟩

theorem circle_xy_eq_append {F : Type} [Glm F] (radius : F) (pos c : Vec3 F) (r : Renderer F) :
    circle_xy radius pos c r =
      r.append (circle_vertices (circle_xy_point radius pos) c)
        [{ type := PrimitiveType.LINE_STRIP, vertices := 19 }] := by
  rw [circle_xy, circle_strip]
  rfl

theorem circle_xz_eq_append {F : Type} [Glm F] (radius : F) (pos c : Vec3 F) (r : Renderer F) :
    circle_xz radius pos c r =
      r.append (circle_vertices (circle_xz_point radius pos) c)
        [{ type := PrimitiveType.LINE_STRIP, vertices := 19 }] := by
  rw [circle_xz, circle_strip]
  rfl

theorem circle_yz_eq_append {F : Type} [Glm F] (radius : F) (pos c : Vec3 F) (r : Renderer F) :
    circle_yz radius pos c r =
      r.append (circle_vertices (circle_yz_point radius pos) c)
        [{ type := PrimitiveType.LINE_STRIP, vertices := 19 }] := by
  rw [circle_yz, circle_strip]
  rfl

theorem length_circle_vertices {F : Type} [Glm F] (point : Nat → Vec3 F) (c : Vec3 F) :
    (circle_vertices point c).length = 19 := by
  simp [circle_vertices]

theorem length_segment {F : Type} [Glm F] (v0 v1 c : Vec3 F) : (segment v0 v1 c).length = 2 :=
  rfl

theorem length_strip {F : Type} [Glm F] (v : Nat → Vec3 F) (n : Nat) (c : Vec3 F) :
    (strip v n c).length = n := by
  simp [strip]

/-! ### Sphere and capsule -/

/-- Claim C12: for every radius, centre and colour, `sphere` has the effect of
`circle_xy`, then `circle_xz`, then `circle_yz` with the same arguments: it
pushes exactly three commands, each (LINE_STRIP, 19), and exactly 57 vertices,
the 19 points of the xy circle, then of the xz circle, then of the yz circle. -/
theorem sphere_three_circles {F : Type} [Glm F] (radius : F) (pos c : Vec3 F)
    (r : Renderer F) :
    sphere radius pos c r =
        circle_yz radius pos c (circle_xz radius pos c (circle_xy radius pos c r)) ∧
      sphere radius pos c r =
        r.append
          (circle_vertices (circle_xy_point radius pos) c ++
            circle_vertices (circle_xz_point radius pos) c ++
            circle_vertices (circle_yz_point radius pos) c)
          [{ type := PrimitiveType.LINE_STRIP, vertices := 19 },
           { type := PrimitiveType.LINE_STRIP, vertices := 19 },
           { type := PrimitiveType.LINE_STRIP, vertices := 19 }] ∧
      (circle_vertices (circle_xy_point radius pos) c ++
        circle_vertices (circle_xz_point radius pos) c ++
        circle_vertices (circle_yz_point radius pos) c).length = 57 := by
  refine ⟨rfl, ?_, ?_⟩
  · rw [sphere, circle_xy_eq_append, circle_xz_eq_append, circle_yz_eq_append, append_append,
      append_append]
    rfl
  · simp [length_circle_vertices]

/-- Claim C13: for every height, radius, position and colour, `capsule` pushes
exactly ten commands, in order four (LINES, 2), four (LINE_STRIP, 10) and two
(LINE_STRIP, 19), and exactly 86 vertices. -/
theorem capsule_commands {F : Type} [Glm F] (height radius : F) (pos c : Vec3 F)
    (r : Renderer F) :
    ∃ dV : List (VertexWorld F),
      capsule height radius pos c r =
        r.append dV
          [{ type := PrimitiveType.LINES, vertices := 2 },
           { type := PrimitiveType.LINES, vertices := 2 },
           { type := PrimitiveType.LINES, vertices := 2 },
           { type := PrimitiveType.LINES, vertices := 2 },
           { type := PrimitiveType.LINE_STRIP, vertices := 10 },
           { type := PrimitiveType.LINE_STRIP, vertices := 10 },
           { type := PrimitiveType.LINE_STRIP, vertices := 10 },
           { type := PrimitiveType.LINE_STRIP, vertices := 10 },
           { type := PrimitiveType.LINE_STRIP, vertices := 19 },
           { type := PrimitiveType.LINE_STRIP, vertices := 19 }] ∧
      dV.length = 86 := by
  unfold capsule
  simp only [line_eq_append, line_strip_eq_append, circle_xz_eq_append, append_append]
  refine ⟨_, rfl, ?_⟩
  simp [length_circle_vertices, length_segment, length_strip]

/-! ### Frustum -/

theorem strip_ptr_toNat {F : Type} [Glm F] (verts : List (Vec3 F)) (c : Vec3 F) (n : Int)
    (h : n.toNat = verts.length) :
    strip (ptr verts) n.toNat c = verts.map (vertex_at c) := by
  rw [h, strip_ptr]
  rfl

theorem segment_eq {F : Type} [Glm F] (v0 v1 c : Vec3 F) :
    segment v0 v1 c = [vertex_at c v0, vertex_at c v1] := rfl

theorem frustum_corner_values {F : Type} [Glm F] (proj view : Mat4 F) :
    frustum_corners proj view =
      [unproject proj view (-1) (-1) 1, unproject proj view (-1) 1 1,
       unproject proj view 1 1 1, unproject proj view 1 (-1) 1,
       unproject proj view (-1) (-1) (-1), unproject proj view (-1) 1 (-1),
       unproject proj view 1 1 (-1), unproject proj view 1 (-1) (-1)] := by
  simp [frustum_corners, kFrustumCorners, unproject, Vec4.divScalar]

/-- Claim C16: `frustum` pushes exactly six commands, in order (LINE_STRIP, 5),
(LINE_STRIP, 5) and four (LINES, 2), and exactly 18 vertices.  The first strip
visits the unprojections of the corners (-1,-1), (-1,1), (1,1), (1,-1) of the
face z = +1 and ends on its first point; the second strip does the same on the
face z = -1; connecting line number i joins corner number i of the first strip
to corner number i of the second, the unprojections of the corners with the
same x and y. -/
theorem frustum_decomposition {F : Type} [Glm F] (proj view : Mat4 F) (c : Vec3 F)
    (r : Renderer F) :
    frustum proj view c r =
        r.append
          (([unproject proj view (-1) (-1) 1, unproject proj view (-1) 1 1,
             unproject proj view 1 1 1, unproject proj view 1 (-1) 1,
             unproject proj view (-1) (-1) 1] ++
            [unproject proj view (-1) (-1) (-1), unproject proj view (-1) 1 (-1),
             unproject proj view 1 1 (-1), unproject proj view 1 (-1) (-1),
             unproject proj view (-1) (-1) (-1)] ++
            [unproject proj view (-1) (-1) 1, unproject proj view (-1) (-1) (-1),
             unproject proj view (-1) 1 1, unproject proj view (-1) 1 (-1),
             unproject proj view 1 1 1, unproject proj view 1 1 (-1),
             unproject proj view 1 (-1) 1, unproject proj view 1 (-1) (-1)]).map (vertex_at c))
          [{ type := PrimitiveType.LINE_STRIP, vertices := 5 },
           { type := PrimitiveType.LINE_STRIP, vertices := 5 },
           { type := PrimitiveType.LINES, vertices := 2 },
           { type := PrimitiveType.LINES, vertices := 2 },
           { type := PrimitiveType.LINES, vertices := 2 },
           { type := PrimitiveType.LINES, vertices := 2 }] := by
  unfold frustum
  simp only [line_eq_append, line_strip_eq_append, append_append, frustum_corner_values]
  have h5 : ∀ p0 p1 p2 p3 p4 : Vec3 F,
      strip (ptr [p0, p1, p2, p3, p4]) 5 c = [p0, p1, p2, p3, p4].map (vertex_at c) :=
    fun p0 p1 p2 p3 p4 => strip_ptr_toNat [p0, p1, p2, p3, p4] c 5 rfl
  simp [segment_eq, ptr, h5]

/-! ### Boxes -/

theorem aabb_eq_append {F : Type} [Glm F] (min max pos c : Vec3 F) (r : Renderer F) :
    aabb min max pos c r =
      r.append
        (segment_vertices c
          (box_segments aabb_edges (box_corner (Vec3.add pos min) (Vec3.add pos max))))
        (line_commands 12) := by
  unfold aabb
  simp only [line_eq_append, append_append]
  rfl

theorem length_segment_vertices {F : Type} [Glm F] (c : Vec3 F)
    (segs : List (Vec3 F × Vec3 F)) : (segment_vertices c segs).length = 2 * segs.length := by
  induction segs with
  | nil => rfl
  | cons s segs ih =>
    simp only [segment_vertices, List.flatMap_cons, List.length_append, List.length_cons] at ih ⊢
    rw [ih, length_segment]
    omega

theorem box_corner_injective {F : Type} [Glm F] (lo hi : Vec3 F) (hx : lo.x ≠ hi.x)
    (hy : lo.y ≠ hi.y) (hz : lo.z ≠ hi.z) (s t : Corner)
    (h : box_corner lo hi s = box_corner lo hi t) : s = t := by
  obtain ⟨s1, s2, s3⟩ := s
  obtain ⟨t1, t2, t3⟩ := t
  simp only [box_corner, Vec3.mk.injEq] at h
  obtain ⟨h1, h2, h3⟩ := h
  have e1 : s1 = t1 := by
    cases s1 <;> cases t1 <;> simp_all [eq_comm]
  have e2 : s2 = t2 := by
    cases s2 <;> cases t2 <;> simp_all [eq_comm]
  have e3 : s3 = t3 := by
    cases s3 <;> cases t3 <;> simp_all [eq_comm]
  rw [e1, e2, e3]

theorem aabb_edges_distinct :
    aabb_edges.Pairwise (fun e e' => e ≠ e' ∧ e ≠ (e'.2, e'.1)) := by
  decide

theorem box_segments_pairwise {F : Type} [Glm F] (lo hi : Vec3 F) (hx : lo.x ≠ hi.x)
    (hy : lo.y ≠ hi.y) (hz : lo.z ≠ hi.z) (edges : List (Corner × Corner))
    (h : edges.Pairwise (fun e e' => e ≠ e' ∧ e ≠ (e'.2, e'.1))) :
    (box_segments edges (box_corner lo hi)).Pairwise (fun s t => s ≠ t ∧ s ≠ (t.2, t.1)) := by
  rw [box_segments, List.pairwise_map]
  refine h.imp ?_
  intro e e' hee
  have inj := box_corner_injective lo hi hx hy hz
  constructor
  · intro heq
    simp only [Prod.mk.injEq] at heq
    exact hee.1 (Prod.ext (inj _ _ heq.1) (inj _ _ heq.2))
  · intro heq
    simp only [Prod.mk.injEq] at heq
    exact hee.2 (Prod.ext (inj _ _ heq.1) (inj _ _ heq.2))

theorem aabb_boxEdges {F : Type} [Glm F] (lo hi : Vec3 F) (hx : lo.x ≠ hi.x)
    (hy : lo.y ≠ hi.y) (hz : lo.z ≠ hi.z) :
    BoxEdges (box_segments aabb_edges (box_corner lo hi)) [0, 2, 4, 6] [8, 9, 10, 11]
      [1, 3, 5, 7] := by
  refine ⟨?_, ?_, ?_, box_segments_pairwise lo hi hx hy hz _ aabb_edges_distinct⟩
  · intro i hi s hs
    simp only [List.mem_cons, List.mem_singleton, List.not_mem_nil, or_false] at hi
    rcases hi with rfl | rfl | rfl | rfl <;>
      simp only [box_segments, aabb_edges, List.map_cons, List.getElem?_cons_succ,
        List.getElem?_cons_zero, Option.some.injEq] at hs <;>
      subst hs <;> simp [differ_in_x, box_corner, hx, Ne.symm hx]
  · intro i hi s hs
    simp only [List.mem_cons, List.mem_singleton, List.not_mem_nil, or_false] at hi
    rcases hi with rfl | rfl | rfl | rfl <;>
      simp only [box_segments, aabb_edges, List.map_cons, List.getElem?_cons_succ,
        List.getElem?_cons_zero, Option.some.injEq] at hs <;>
      subst hs <;> simp [differ_in_y, box_corner, hy, Ne.symm hy]
  · intro i hi s hs
    simp only [List.mem_cons, List.mem_singleton, List.not_mem_nil, or_false] at hi
    rcases hi with rfl | rfl | rfl | rfl <;>
      simp only [box_segments, aabb_edges, List.map_cons, List.getElem?_cons_succ,
        List.getElem?_cons_zero, Option.some.injEq] at hs <;>
      subst hs <;> simp [differ_in_z, box_corner, hz, Ne.symm hz]

theorem on_box_corner {F : Type} [Glm F] (lo hi : Vec3 F) (s : Corner) :
    on_box lo hi (box_corner lo hi s) := by
  obtain ⟨s1, s2, s3⟩ := s
  cases s1 <;> cases s2 <;> cases s3 <;> simp [on_box, box_corner]

/-- Claim C14, amended: `aabb` pushes exactly twelve commands, all (LINES, 2),
and exactly 24 vertices, the ends of twelve segments between corners of the
box spanned by `pos + min` and `pos + max`: each coordinate of each end is the
corresponding coordinate of `pos + min` or of `pos + max`.  When the corners
`pos + min` and `pos + max` as computed in float arithmetic differ on every
axis, the twelve segments are the twelve edges of the box: the ends of each
segment differ in exactly one coordinate, four segments along each axis, and
no two segments coincide.  The computed corners differ on every axis when
`min` and `max` do and the addition gives `pos + a = pos + b` only for
`a = b`, as exact addition does and float addition does not. -/
theorem aabb_box_edges {F : Type} [Glm F] (min max pos c : Vec3 F) (r : Renderer F) :
    aabb min max pos c r =
        r.append
          (segment_vertices c
            (box_segments aabb_edges (box_corner (Vec3.add pos min) (Vec3.add pos max))))
          (line_commands 12) ∧
      (line_commands 12).length = 12 ∧
      (∀ cmd ∈ line_commands 12,
        cmd = { type := PrimitiveType.LINES, vertices := 2 }) ∧
      (segment_vertices c
        (box_segments aabb_edges
          (box_corner (Vec3.add pos min) (Vec3.add pos max)))).length = 24 ∧
      (∀ s ∈ box_segments aabb_edges (box_corner (Vec3.add pos min) (Vec3.add pos max)),
        on_box (Vec3.add pos min) (Vec3.add pos max) s.1 ∧
        on_box (Vec3.add pos min) (Vec3.add pos max) s.2) ∧
      ((Vec3.add pos min).x ≠ (Vec3.add pos max).x →
        (Vec3.add pos min).y ≠ (Vec3.add pos max).y →
        (Vec3.add pos min).z ≠ (Vec3.add pos max).z →
        BoxEdges (box_segments aabb_edges (box_corner (Vec3.add pos min) (Vec3.add pos max)))
          [0, 2, 4, 6] [8, 9, 10, 11] [1, 3, 5, 7]) ∧
      ((∀ p a b : F, Glm.add p a = Glm.add p b → a = b) →
        min.x ≠ max.x → min.y ≠ max.y → min.z ≠ max.z →
        BoxEdges (box_segments aabb_edges (box_corner (Vec3.add pos min) (Vec3.add pos max)))
          [0, 2, 4, 6] [8, 9, 10, 11] [1, 3, 5, 7]) := by
  refine ⟨aabb_eq_append min max pos c r, by simp [line_commands], ?_, ?_, ?_,
    aabb_boxEdges _ _, ?_⟩
  · intro cmd hcmd
    exact List.eq_of_mem_replicate hcmd
  · rw [length_segment_vertices]
    rfl
  · intro s hs
    simp only [box_segments, List.mem_map] at hs
    obtain ⟨e, _, rfl⟩ := hs
    exact ⟨on_box_corner _ _ _, on_box_corner _ _ _⟩
  · intro hcancel hx hy hz
    exact aabb_boxEdges _ _ (fun h => hx (hcancel _ _ _ h)) (fun h => hy (hcancel _ _ _ h))
      (fun h => hz (hcancel _ _ _ h))

/-! ### Exact arithmetic -/

theorem exact_add (a b : ℚ) : Glm.add a b = a + b := rfl

theorem exact_sub (a b : ℚ) : Glm.sub a b = a - b := rfl

theorem exact_mul (a b : ℚ) : Glm.mul a b = a * b := rfl

theorem exact_div (a b : ℚ) : Glm.div a b = a / b := rfl

theorem exact_le (a b : ℚ) : Glm.le a b = decide (a ≤ b) := rfl

theorem exact_ofInt (i : Int) : (Glm.ofInt i : ℚ) = (i : ℚ) := rfl

theorem exact_vec3_sub (a b : Vec3 ℚ) :
    Vec3.sub a b = { x := a.x - b.x, y := a.y - b.y, z := a.z - b.z } := rfl

theorem exact_vec3_add (a b : Vec3 ℚ) :
    Vec3.add a b = { x := a.x + b.x, y := a.y + b.y, z := a.z + b.z } := rfl

/-! ### The corner enumeration of `obb` in exact arithmetic -/

theorem obb_loop_z_two (model : Mat4 ℚ) (lo hi x y : ℚ) (n : Nat) (verts : List (Vec3 ℚ))
    (h : lo < hi) (hlen : verts.length + 2 ≤ 8) :
    obb_loop_z model hi (hi - lo) x y (n + 3) lo verts =
      Except.ok (verts ++ [transform model { x := x, y := y, z := lo },
        transform model { x := x, y := y, z := hi }]) := by
  have h1 : lo ≤ hi := le_of_lt h
  have h2 : ¬ (hi + (hi - lo) ≤ hi) := by linarith
  have h3 : verts.length < 8 := by omega
  have h4 : verts.length + 1 < 8 := by omega
  simp [obb_loop_z, exact_le, exact_add, h1, h2, h3, h4, push_back, transform]

theorem obb_loop_y_two (model : Mat4 ℚ) (min max : Vec3 ℚ) (x : ℚ) (fuel n : Nat)
    (verts : List (Vec3 ℚ)) (hy : min.y < max.y) (hz : min.z < max.z)
    (hlen : verts.length + 4 ≤ 8) :
    obb_loop_y model min max (Vec3.sub max min) (fuel + 3) x (n + 3) min.y verts =
      Except.ok (verts ++
        [transform model { x := x, y := min.y, z := min.z },
         transform model { x := x, y := min.y, z := max.z },
         transform model { x := x, y := max.y, z := min.z },
         transform model { x := x, y := max.y, z := max.z }]) := by
  have h1 : min.y ≤ max.y := le_of_lt hy
  have h2 : ¬ (max.y + (max.y - min.y) ≤ max.y) := by linarith
  have hz1 := obb_loop_z_two model min.z max.z x min.y fuel verts hz (by omega)
  have hz2 := obb_loop_z_two model min.z max.z x max.y fuel
    (verts ++ [transform model { x := x, y := min.y, z := min.z },
      transform model { x := x, y := min.y, z := max.z }]) hz (by simp; omega)
  simp [obb_loop_y, exact_le, exact_add, exact_vec3_sub, h1, h2, hz1, hz2]

theorem obb_corners_exact (model : Mat4 ℚ) (min max : Vec3 ℚ) (fuel : Nat) (hfuel : 3 ≤ fuel)
    (hx : min.x < max.x) (hy : min.y < max.y) (hz : min.z < max.z) :
    obb_corners fuel min max model =
      Except.ok (corner_order.map fun s => transform model (box_corner min max s)) := by
  obtain ⟨n, rfl⟩ : ∃ n, fuel = n + 3 := ⟨fuel - 3, by omega⟩
  have h1 : min.x ≤ max.x := le_of_lt hx
  have h2 : ¬ (max.x + (max.x - min.x) ≤ max.x) := by linarith
  have hy1 := obb_loop_y_two model min max min.x n n [] hy hz (by simp)
  have hy2 := obb_loop_y_two model min max max.x n n
    [transform model { x := min.x, y := min.y, z := min.z },
     transform model { x := min.x, y := min.y, z := max.z },
     transform model { x := min.x, y := max.y, z := min.z },
     transform model { x := min.x, y := max.y, z := max.z }] hy hz (by simp)
  simp only [List.nil_append] at hy1
  simp [obb_corners, obb_loop_x, exact_le, exact_add, exact_vec3_sub, h1, h2, hy1, hy2,
    corner_order, box_corner]
  rw [← exact_vec3_sub, hy1]
  simp [hy2]

theorem obb_lines_eq_append {F : Type} [Glm F] (point : Corner → Vec3 F) (c : Vec3 F)
    (r : Renderer F) :
    obb_lines (ptr (corner_order.map point)) c r =
      r.append (segment_vertices c (box_segments obb_edges point)) (line_commands 12) := by
  unfold obb_lines
  simp only [line_eq_append, append_append]
  rfl

theorem obb_edges_distinct :
    obb_edges.Pairwise (fun e e' => e ≠ e' ∧ e ≠ (e'.2, e'.1)) := by
  decide

theorem obb_edges_adjacent (s t : Corner) :
    s.adjacent t = true ↔ ((s, t) ∈ obb_edges ∨ (t, s) ∈ obb_edges) := by
  revert s t
  decide

theorem aabb_edges_adjacent (s t : Corner) :
    s.adjacent t = true ↔ ((s, t) ∈ aabb_edges ∨ (t, s) ∈ aabb_edges) := by
  revert s t
  decide

theorem obb_edges_aabb_edges (s t : Corner) :
    ((s, t) ∈ obb_edges ∨ (t, s) ∈ obb_edges) ↔ ((s, t) ∈ aabb_edges ∨ (t, s) ∈ aabb_edges) :=
  (obb_edges_adjacent s t).symm.trans (aabb_edges_adjacent s t)

theorem box_segments_undirected {F : Type} (E E' : List (Corner × Corner))
    (point : Corner → Vec3 F)
    (h : ∀ s t, ((s, t) ∈ E ∨ (t, s) ∈ E) → ((s, t) ∈ E' ∨ (t, s) ∈ E')) (p q : Vec3 F)
    (hpq : (p, q) ∈ box_segments E point ∨ (q, p) ∈ box_segments E point) :
    (p, q) ∈ box_segments E' point ∨ (q, p) ∈ box_segments E' point := by
  simp only [box_segments, List.mem_map, Prod.mk.injEq] at hpq ⊢
  rcases hpq with ⟨e, he, h1, h2⟩ | ⟨e, he, h1, h2⟩
  · rcases h e.1 e.2 (Or.inl he) with h' | h'
    · exact Or.inl ⟨_, h', h1, h2⟩
    · exact Or.inr ⟨_, h', h2, h1⟩
  · rcases h e.1 e.2 (Or.inl he) with h' | h'
    · exact Or.inr ⟨_, h', h1, h2⟩
    · exact Or.inl ⟨_, h', h2, h1⟩

theorem transform_identity (p : Vec3 ℚ) : transform identity p = p := by
  simp [transform, identity, Glm.mulMV, Exact.mulMV, Exact.get, exact_ofInt]

/-- Claim C15: in exact arithmetic, for `min` below `max` on every axis and
any iteration budget of at least 3, the loops of `obb` write exactly the eight
corners of the local box, each transformed by `model`, and `obb` pushes exactly
twelve commands (LINES, 2) and 24 vertices, the ends of twelve segments between
transformed corners.  The twelve segments join exactly the pairs of corners
that differ on one axis, no pair twice, which are the pairs `aabb` joins; with
the identity matrix a segment is pushed by `obb`, in one direction or the
other, exactly when it is pushed by `aabb` for the same box at the origin. -/
theorem obb_box_edges (fuel : Nat) (min max : Vec3 ℚ) (model : Mat4 ℚ) (c : Vec3 ℚ)
    (r : Renderer ℚ) (hfuel : 3 ≤ fuel) (hx : min.x < max.x) (hy : min.y < max.y)
    (hz : min.z < max.z) :
    obb_corners fuel min max model =
        Except.ok (corner_order.map fun s => transform model (box_corner min max s)) ∧
      obb fuel min max model c r =
        Except.ok (r.append
          (segment_vertices c
            (box_segments obb_edges fun s => transform model (box_corner min max s)))
          (line_commands 12)) ∧
      (line_commands 12).length = 12 ∧
      (segment_vertices c
        (box_segments obb_edges fun s => transform model (box_corner min max s))).length = 24 ∧
      (∀ s t : Corner, s.adjacent t = true ↔ ((s, t) ∈ obb_edges ∨ (t, s) ∈ obb_edges)) ∧
      obb_edges.Pairwise (fun e e' => e ≠ e' ∧ e ≠ (e'.2, e'.1)) ∧
      (∀ s t : Corner,
        ((s, t) ∈ obb_edges ∨ (t, s) ∈ obb_edges) ↔
          ((s, t) ∈ aabb_edges ∨ (t, s) ∈ aabb_edges)) ∧
      aabb min max origin c r =
        r.append
          (segment_vertices c
            (box_segments aabb_edges
              (box_corner (Vec3.add origin min)
                (Vec3.add origin max))))
          (line_commands 12) ∧
      (∀ p q : Vec3 ℚ,
        ((p, q) ∈ box_segments obb_edges (fun s => transform identity (box_corner min max s)) ∨
          (q, p) ∈ box_segments obb_edges
            (fun s => transform identity (box_corner min max s))) ↔
        ((p, q) ∈ box_segments aabb_edges
            (box_corner (Vec3.add origin min)
              (Vec3.add origin max)) ∨
          (q, p) ∈ box_segments aabb_edges
            (box_corner (Vec3.add origin min)
              (Vec3.add origin max)))) := by
  have hc := obb_corners_exact model min max fuel hfuel hx hy hz
  refine ⟨hc, ?_, by simp [line_commands], ?_, obb_edges_adjacent, obb_edges_distinct,
    obb_edges_aabb_edges, aabb_eq_append _ _ _ _ _, ?_⟩
  · rw [obb, hc]
    simp only []
    rw [obb_lines_eq_append]
  · rw [length_segment_vertices]
    rfl
  · intro p q
    have e1 : (fun s => transform identity (box_corner min max s)) = box_corner min max :=
      funext fun s => transform_identity _
    have e2 : Vec3.add origin min = min := by
      simp [exact_vec3_add, origin]
    have e3 : Vec3.add origin max = max := by
      simp [exact_vec3_add, origin]
    rw [e1, e2, e3]
    exact ⟨box_segments_undirected _ _ _ (fun s t => (obb_edges_aabb_edges s t).1) p q,
      box_segments_undirected _ _ _ (fun s t => (obb_edges_aabb_edges s t).2) p q⟩

/-- Claim C15, an instance: the box from (0, 0, 0) to (1, 2, 3), moved by the
identity matrix, with iteration budget 3. -/
theorem obb_box_edges_witness :
    obb_corners 3 box_min0 box_max0 identity =
        Except.ok (corner_order.map fun s => transform identity (box_corner box_min0 box_max0 s)) ∧
      obb 3 box_min0 box_max0 identity white renderer0 =
        Except.ok (renderer0.append
          (segment_vertices white
            (box_segments obb_edges fun s => transform identity (box_corner box_min0 box_max0 s)))
          (line_commands 12)) :=
  have h := obb_box_edges 3 box_min0 box_max0 identity white renderer0 (Nat.le_refl 3)
    (by simp [box_min0, box_max0]) (by simp [box_min0, box_max0])
    (by simp [box_min0, box_max0])
  ⟨h.1, h.2.1⟩

/-! ### The grid in exact arithmetic -/

theorem exact_toInt_intCast (n : Int) : (Glm.toInt ((n : Int) : ℚ) : Int) = n := by
  have h : ⌊((n : Int) : ℚ)⌋ = n := Int.floor_intCast n
  have h' : ⌊(-(n : Int) : ℚ)⌋ = -n := by
    rw [← Int.cast_neg]
    exact Int.floor_intCast (-n)
  show Exact.toInt ((n : Int) : ℚ) = n
  unfold Exact.toInt
  split
  · exact h
  · show -⌊(-(n : Int) : ℚ)⌋ = n
    rw [h']
    omega

theorem exact_toInt_floor (q : ℚ) : (Glm.toInt (Glm.floor q) : Int) = ⌊q⌋ :=
  exact_toInt_intCast ⌊q⌋

theorem segment_vertices_cons {F : Type} [Glm F] (c : Vec3 F) (s : Vec3 F × Vec3 F)
    (segs : List (Vec3 F × Vec3 F)) :
    segment_vertices c (s :: segs) = segment s.1 s.2 c ++ segment_vertices c segs := rfl

theorem segment_vertices_append {F : Type} [Glm F] (c : Vec3 F)
    (segs segs' : List (Vec3 F × Vec3 F)) :
    segment_vertices c (segs ++ segs') = segment_vertices c segs ++ segment_vertices c segs' := by
  simp [segment_vertices]

theorem line_commands_succ (n : Nat) :
    line_commands (n + 1) =
      { type := PrimitiveType.LINES, vertices := 2 } :: line_commands n := rfl

theorem line_commands_add (n m : Nat) :
    line_commands (n + m) = line_commands n ++ line_commands m :=
  List.replicate_add n m _

theorem grid_x_lines_succ {F : Type} [Glm F] (y_level : F) (x0 oz s : Int) (n : Nat) :
    grid_x_lines y_level x0 oz s (n + 1) =
      ({ x := Glm.ofInt x0, y := y_level, z := Glm.ofInt (-oz) },
       { x := Glm.ofInt x0, y := y_level, z := Glm.ofInt oz }) ::
        grid_x_lines y_level (x0 + s) oz s n := by
  have e : ∀ k : Nat, x0 + ((k : Int) + 1) * s = x0 + s + (k : Int) * s := by
    intro k
    ring
  simp only [grid_x_lines, List.range_succ_eq_map, List.map_cons, List.map_map]
  simp [Function.comp_def, e]

theorem grid_z_lines_succ {F : Type} [Glm F] (y_level : F) (ox z0 s : Int) (n : Nat) :
    grid_z_lines y_level ox z0 s (n + 1) =
      ({ x := Glm.ofInt (-ox), y := y_level, z := Glm.ofInt z0 },
       { x := Glm.ofInt ox, y := y_level, z := Glm.ofInt z0 }) ::
        grid_z_lines y_level ox (z0 + s) s n := by
  have e : ∀ k : Nat, z0 + ((k : Int) + 1) * s = z0 + s + (k : Int) * s := by
    intro k
    ring
  simp only [grid_z_lines, List.range_succ_eq_map, List.map_cons, List.map_map]
  simp [Function.comp_def, e]

theorem grid_loop_x_exact (y_level : ℚ) (s : Int) (c : Vec3 ℚ) (ox oz : Int) (n : Nat) :
    ∀ (fuel : Nat) (x : Int) (r : Renderer ℚ), n < fuel →
      (∀ k : Nat, k < n → x + k * s ≤ ox) → ox < x + n * s →
      grid_loop_x y_level (s : ℚ) c ox oz fuel x r =
        Except.ok (r.append (segment_vertices c (grid_x_lines y_level x oz s n))
          (line_commands n)) := by
  induction n with
  | zero =>
    intro fuel x r hfuel _ hlast
    obtain ⟨f, rfl⟩ : ∃ f, fuel = f + 1 := ⟨fuel - 1, by omega⟩
    have hx : ¬ x ≤ ox := by simpa using hlast
    rw [grid_loop_x, if_neg hx]
    simp [grid_x_lines, segment_vertices, line_commands, append_nil]
  | succ n ih =>
    intro fuel x r hfuel hk hlast
    obtain ⟨f, rfl⟩ : ∃ f, fuel = f + 1 := ⟨fuel - 1, by omega⟩
    have hx : x ≤ ox := by simpa using hk 0 (Nat.succ_pos n)
    have hstep : (Glm.toInt (Glm.add (Glm.ofInt x : ℚ) (s : ℚ)) : Int) = x + s := by
      rw [exact_add, exact_ofInt, ← Int.cast_add]
      exact exact_toInt_intCast (x + s)
    rw [grid_loop_x, if_pos hx, hstep, ih f (x + s) _ (by omega) ?_ ?_, line_eq_append,
      append_append, grid_x_lines_succ, segment_vertices_cons]
    · rfl
    · intro k hk'
      have := hk (k + 1) (by omega)
      push_cast at this
      linarith
    · push_cast at hlast
      linarith

theorem grid_loop_z_exact (y_level : ℚ) (s : Int) (c : Vec3 ℚ) (ox oz : Int) (n : Nat) :
    ∀ (fuel : Nat) (z : Int) (r : Renderer ℚ), n < fuel →
      (∀ k : Nat, k < n → z + k * s ≤ oz) → oz < z + n * s →
      grid_loop_z y_level (s : ℚ) c ox oz fuel z r =
        Except.ok (r.append (segment_vertices c (grid_z_lines y_level ox z s n))
          (line_commands n)) := by
  induction n with
  | zero =>
    intro fuel z r hfuel _ hlast
    obtain ⟨f, rfl⟩ : ∃ f, fuel = f + 1 := ⟨fuel - 1, by omega⟩
    have hz : ¬ z ≤ oz := by simpa using hlast
    rw [grid_loop_z, if_neg hz]
    simp [grid_z_lines, segment_vertices, line_commands, append_nil]
  | succ n ih =>
    intro fuel z r hfuel hk hlast
    obtain ⟨f, rfl⟩ : ∃ f, fuel = f + 1 := ⟨fuel - 1, by omega⟩
    have hz : z ≤ oz := by simpa using hk 0 (Nat.succ_pos n)
    have hstep : (Glm.toInt (Glm.add (Glm.ofInt z : ℚ) (s : ℚ)) : Int) = z + s := by
      rw [exact_add, exact_ofInt, ← Int.cast_add]
      exact exact_toInt_intCast (z + s)
    rw [grid_loop_z, if_pos hz, hstep, ih f (z + s) _ (by omega) ?_ ?_, line_eq_append,
      append_append, grid_z_lines_succ, segment_vertices_cons]
    · rfl
    · intro k hk'
      have := hk (k + 1) (by omega)
      push_cast at this
      linarith
    · push_cast at hlast
      linarith

theorem length_line_commands (n : Nat) : (line_commands n).length = n :=
  List.length_replicate n _

theorem length_grid_x_lines {F : Type} [Glm F] (y_level : F) (x0 oz s : Int) (n : Nat) :
    (grid_x_lines y_level x0 oz s n).length = n := by
  rw [grid_x_lines, List.length_map, List.length_range]

theorem length_grid_z_lines {F : Type} [Glm F] (y_level : F) (ox z0 s : Int) (n : Nat) :
    (grid_z_lines y_level ox z0 s n).length = n := by
  rw [grid_z_lines, List.length_map, List.length_range]

theorem grid_count (o s : Int) (n : Nat) (hs : 1 ≤ s)
    (hn : (n : Int) = 2 * o / s + 1) :
    (∀ k : Nat, k < n → -o + k * s ≤ o) ∧ o < -o + n * s := by
  have hs0 : (0 : Int) < s := by omega
  have h1 : 2 * o / s * s ≤ 2 * o := Int.ediv_mul_le (2 * o) (by omega)
  have h2 : 2 * o < (2 * o / s + 1) * s := Int.lt_ediv_add_one_mul_self (2 * o) hs0
  constructor
  · intro k hk
    have hk' : (k : Int) ≤ 2 * o / s := by omega
    have h3 : (k : Int) * s ≤ 2 * o / s * s := Int.mul_le_mul_of_nonneg_right hk' (by omega)
    omega
  · rw [hn]
    omega

theorem grid_offset (x : ℚ) (s : Int) :
    (Glm.toInt (Glm.floor (Glm.div (Glm.mul x (s : ℚ)) (Glm.ofInt 2 : ℚ))) : Int) =
      ⌊x * s / 2⌋ := by
  rw [exact_toInt_floor, exact_div, exact_mul, exact_ofInt]
  norm_num

/-- The grid in exact arithmetic: for an integer spacing s of at least 1 and
half extents ox = floor(x s / 2) and oz = floor(z s / 2) that are not
negative, `grid` returns (within any iteration budget above the number of
lines of each loop) and pushes (LINES, 2) commands only: first
floor(2 ox / s) + 1 segments at x = -ox, -ox + s, ..., none beyond ox, each
from z = -oz to z = oz, then floor(2 oz / s) + 1 segments at z = -oz,
-oz + s, ..., none beyond oz, each from x = -ox to x = ox; every end has
y = y_level. -/
theorem grid_lines_exact (x z y_level : ℚ) (s : Int) (c : Vec3 ℚ) (r : Renderer ℚ) (fuel : Nat)
    (hs : 1 ≤ s) (hox : 0 ≤ ⌊x * s / 2⌋) (hoz : 0 ≤ ⌊z * s / 2⌋)
    (hfx : (2 * ⌊x * s / 2⌋ / s + 1).toNat < fuel)
    (hfz : (2 * ⌊z * s / 2⌋ / s + 1).toNat < fuel) :
    ∃ (ox oz : Int) (nx nz : Nat),
      ox = ⌊x * s / 2⌋ ∧ oz = ⌊z * s / 2⌋ ∧
      (nx : Int) = 2 * ox / s + 1 ∧ (nz : Int) = 2 * oz / s + 1 ∧
      grid fuel x z y_level (s : ℚ) c r =
        Except.ok (r.append
          (segment_vertices c
            (grid_x_lines y_level (-ox) oz s nx ++ grid_z_lines y_level ox (-oz) s nz))
          (line_commands (nx + nz))) ∧
      (∀ k : Nat, k < nx → -ox + k * s ≤ ox) ∧ ox < -ox + nx * s ∧
      (∀ k : Nat, k < nz → -oz + k * s ≤ oz) ∧ oz < -oz + nz * s ∧
      (∀ seg ∈ grid_x_lines y_level (-ox) oz s nx ++ grid_z_lines y_level ox (-oz) s nz,
        seg.1.y = y_level ∧ seg.2.y = y_level) := by
  have hs0 : (0 : Int) < s := by omega
  have hqx : 0 ≤ 2 * ⌊x * s / 2⌋ / s := Int.ediv_nonneg (by omega) (by omega)
  have hqz : 0 ≤ 2 * ⌊z * s / 2⌋ / s := Int.ediv_nonneg (by omega) (by omega)
  have hnx : (((2 * ⌊x * s / 2⌋ / s + 1).toNat : Nat) : Int) = 2 * ⌊x * s / 2⌋ / s + 1 :=
    Int.toNat_of_nonneg (by omega)
  have hnz : (((2 * ⌊z * s / 2⌋ / s + 1).toNat : Nat) : Int) = 2 * ⌊z * s / 2⌋ / s + 1 :=
    Int.toNat_of_nonneg (by omega)
  have hcx := grid_count _ s _ hs hnx
  have hcz := grid_count _ s _ hs hnz
  refine ⟨⌊x * s / 2⌋, ⌊z * s / 2⌋, (2 * ⌊x * s / 2⌋ / s + 1).toNat,
    (2 * ⌊z * s / 2⌋ / s + 1).toNat, rfl, rfl, hnx, hnz, ?_, hcx.1, hcx.2, hcz.1, hcz.2, ?_⟩
  · unfold grid
    simp only [grid_offset]
    rw [grid_loop_x_exact y_level s c _ _ _ fuel _ r hfx hcx.1 hcx.2]
    simp only []
    rw [grid_loop_z_exact y_level s c _ _ _ fuel _ _ hfz hcz.1 hcz.2, append_append,
      segment_vertices_append, line_commands_add]
  · intro seg hseg
    simp only [List.mem_append, grid_x_lines, grid_z_lines, List.mem_map] at hseg
    rcases hseg with ⟨k, _, rfl⟩ | ⟨k, _, rfl⟩ <;> exact ⟨rfl, rfl⟩

/-! ### The grid in any arithmetic -/

theorem grid_loop_x_steps {F : Type} [Glm F] (y_level spacing : F) (s : Int) (c : Vec3 F)
    (ox oz : Int) (n : Nat) :
    ∀ (fuel : Nat) (x : Int) (r : Renderer F), n < fuel →
      (∀ k : Nat, k < n → x + k * s ≤ ox) → ox < x + n * s →
      (∀ k : Nat, k < n →
        Glm.toInt (Glm.add (Glm.ofInt (x + k * s)) spacing) = x + k * s + s) →
      grid_loop_x y_level spacing c ox oz fuel x r =
        Except.ok (r.append (segment_vertices c (grid_x_lines y_level x oz s n))
          (line_commands n)) := by
  induction n with
  | zero =>
    intro fuel x r hfuel _ hlast _
    obtain ⟨f, rfl⟩ : ∃ f, fuel = f + 1 := ⟨fuel - 1, by omega⟩
    have hx : ¬ x ≤ ox := by simpa using hlast
    rw [grid_loop_x, if_neg hx]
    simp [grid_x_lines, segment_vertices, line_commands, append_nil]
  | succ n ih =>
    intro fuel x r hfuel hk hlast hstep
    obtain ⟨f, rfl⟩ : ∃ f, fuel = f + 1 := ⟨fuel - 1, by omega⟩
    have hx : x ≤ ox := by simpa using hk 0 (Nat.succ_pos n)
    have hstep0 : Glm.toInt (Glm.add (Glm.ofInt x) spacing) = x + s := by
      simpa using hstep 0 (Nat.succ_pos n)
    rw [grid_loop_x, if_pos hx, hstep0, ih f (x + s) _ (by omega) ?_ ?_ ?_, line_eq_append,
      append_append, grid_x_lines_succ, segment_vertices_cons]
    · rfl
    · intro k hk'
      have := hk (k + 1) (by omega)
      push_cast at this
      linarith
    · push_cast at hlast
      linarith
    · intro k hk'
      have := hstep (k + 1) (by omega)
      have e : x + ((k + 1 : Nat) : Int) * s = x + s + (k : Int) * s := by
        push_cast
        ring
      rw [e] at this
      exact this

theorem grid_loop_z_steps {F : Type} [Glm F] (y_level spacing : F) (s : Int) (c : Vec3 F)
    (ox oz : Int) (n : Nat) :
    ∀ (fuel : Nat) (z : Int) (r : Renderer F), n < fuel →
      (∀ k : Nat, k < n → z + k * s ≤ oz) → oz < z + n * s →
      (∀ k : Nat, k < n →
        Glm.toInt (Glm.add (Glm.ofInt (z + k * s)) spacing) = z + k * s + s) →
      grid_loop_z y_level spacing c ox oz fuel z r =
        Except.ok (r.append (segment_vertices c (grid_z_lines y_level ox z s n))
          (line_commands n)) := by
  induction n with
  | zero =>
    intro fuel z r hfuel _ hlast _
    obtain ⟨f, rfl⟩ : ∃ f, fuel = f + 1 := ⟨fuel - 1, by omega⟩
    have hz : ¬ z ≤ oz := by simpa using hlast
    rw [grid_loop_z, if_neg hz]
    simp [grid_z_lines, segment_vertices, line_commands, append_nil]
  | succ n ih =>
    intro fuel z r hfuel hk hlast hstep
    obtain ⟨f, rfl⟩ : ∃ f, fuel = f + 1 := ⟨fuel - 1, by omega⟩
    have hz : z ≤ oz := by simpa using hk 0 (Nat.succ_pos n)
    have hstep0 : Glm.toInt (Glm.add (Glm.ofInt z) spacing) = z + s := by
      simpa using hstep 0 (Nat.succ_pos n)
    rw [grid_loop_z, if_pos hz, hstep0, ih f (z + s) _ (by omega) ?_ ?_ ?_, line_eq_append,
      append_append, grid_z_lines_succ, segment_vertices_cons]
    · rfl
    · intro k hk'
      have := hk (k + 1) (by omega)
      push_cast at this
      linarith
    · push_cast at hlast
      linarith
    · intro k hk'
      have := hstep (k + 1) (by omega)
      have e : z + ((k + 1 : Nat) : Int) * s = z + s + (k : Int) * s := by
        push_cast
        ring
      rw [e] at this
      exact this

/-- Claim C17, amended: let the spacing be the float of an integer s of at
least 1, let ox and oz be the half extents as `grid` computes them in float
arithmetic, the conversion to `int` of floor((x s) / 2) and of
floor((z s) / 2), both not negative, and let the update of the loop counter be
exact, that is the float sum of a counter value k and the spacing converts
back to k + s for every k from -ox to ox and from -oz to oz.  Then `grid`
returns (within any iteration budget above the number of lines of each loop)
and pushes (LINES, 2) commands only: first floor(2 ox / s) + 1 segments at
x = -ox, -ox + s, ..., none beyond ox, each from z = -oz to z = oz, then
floor(2 oz / s) + 1 segments at z = -oz, -oz + s, ..., none beyond oz, each
from x = -ox to x = ox; every end has y = y_level. -/
theorem grid_lines {F : Type} [Glm F] (x z y_level : F) (s : Int) (c : Vec3 F)
    (r : Renderer F) (fuel : Nat) (ox oz : Int)
    (hox : ox = Glm.toInt (Glm.floor (Glm.div (Glm.mul x (Glm.ofInt s)) (Glm.ofInt 2))))
    (hoz : oz = Glm.toInt (Glm.floor (Glm.div (Glm.mul z (Glm.ofInt s)) (Glm.ofInt 2))))
    (hs : 1 ≤ s) (hox0 : 0 ≤ ox) (hoz0 : 0 ≤ oz)
    (hstepx : ∀ k : Int, -ox ≤ k → k ≤ ox →
      Glm.toInt (Glm.add (Glm.ofInt k) (Glm.ofInt s : F)) = k + s)
    (hstepz : ∀ k : Int, -oz ≤ k → k ≤ oz →
      Glm.toInt (Glm.add (Glm.ofInt k) (Glm.ofInt s : F)) = k + s)
    (hfx : (2 * ox / s + 1).toNat < fuel) (hfz : (2 * oz / s + 1).toNat < fuel) :
    ∃ nx nz : Nat,
      (nx : Int) = 2 * ox / s + 1 ∧ (nz : Int) = 2 * oz / s + 1 ∧
      grid fuel x z y_level (Glm.ofInt s) c r =
        Except.ok (r.append
          (segment_vertices c
            (grid_x_lines y_level (-ox) oz s nx ++ grid_z_lines y_level ox (-oz) s nz))
          (line_commands (nx + nz))) ∧
      (∀ k : Nat, k < nx → -ox + k * s ≤ ox) ∧ ox < -ox + nx * s ∧
      (∀ k : Nat, k < nz → -oz + k * s ≤ oz) ∧ oz < -oz + nz * s ∧
      (∀ seg ∈ grid_x_lines y_level (-ox) oz s nx ++ grid_z_lines y_level ox (-oz) s nz,
        seg.1.y = y_level ∧ seg.2.y = y_level) := by
  have hs0 : (0 : Int) < s := by omega
  have hqx : 0 ≤ 2 * ox / s := Int.ediv_nonneg (by omega) (by omega)
  have hqz : 0 ≤ 2 * oz / s := Int.ediv_nonneg (by omega) (by omega)
  have hnx : (((2 * ox / s + 1).toNat : Nat) : Int) = 2 * ox / s + 1 :=
    Int.toNat_of_nonneg (by omega)
  have hnz : (((2 * oz / s + 1).toNat : Nat) : Int) = 2 * oz / s + 1 :=
    Int.toNat_of_nonneg (by omega)
  have hcx := grid_count ox s _ hs hnx
  have hcz := grid_count oz s _ hs hnz
  have hsx : ∀ k : Nat, k < (2 * ox / s + 1).toNat →
      Glm.toInt (Glm.add (Glm.ofInt (-ox + k * s)) (Glm.ofInt s : F)) = -ox + k * s + s := by
    intro k hk
    have h0 : 0 ≤ (k : Int) * s := Int.mul_nonneg (by omega) (by omega)
    exact hstepx _ (by omega) (hcx.1 k hk)
  have hsz : ∀ k : Nat, k < (2 * oz / s + 1).toNat →
      Glm.toInt (Glm.add (Glm.ofInt (-oz + k * s)) (Glm.ofInt s : F)) = -oz + k * s + s := by
    intro k hk
    have h0 : 0 ≤ (k : Int) * s := Int.mul_nonneg (by omega) (by omega)
    exact hstepz _ (by omega) (hcz.1 k hk)
  refine ⟨(2 * ox / s + 1).toNat, (2 * oz / s + 1).toNat, hnx, hnz, ?_, hcx.1, hcx.2,
    hcz.1, hcz.2, ?_⟩
  · unfold grid
    simp only [← hox, ← hoz]
    rw [grid_loop_x_steps y_level (Glm.ofInt s) s c _ _ _ fuel _ r hfx hcx.1 hcx.2 hsx]
    simp only []
    rw [grid_loop_z_steps y_level (Glm.ofInt s) s c _ _ _ fuel _ _ hfz hcz.1 hcz.2 hsz,
      append_append, segment_vertices_append, line_commands_add]
  · intro seg hseg
    simp only [List.mem_append, grid_x_lines, grid_z_lines, List.mem_map] at hseg
    rcases hseg with ⟨k, _, rfl⟩ | ⟨k, _, rfl⟩ <;> exact ⟨rfl, rfl⟩

/-! ### Degenerate boxes -/

theorem obb_loop_z_stuck (model : Mat4 ℚ) (max_z x y z : ℚ) (hz : z ≤ max_z) (n : Nat) :
    ∀ verts : List (Vec3 ℚ), ∃ e, obb_loop_z model max_z 0 x y n z verts = Except.error e := by
  induction n with
  | zero => exact fun _ => ⟨Fault.outOfFuel, rfl⟩
  | succ n ih =>
    intro verts
    by_cases hlen : verts.length < 8
    · obtain ⟨e, he⟩ := ih (push_back verts
        (transform model { x := x, y := y, z := z }))
      refine ⟨e, ?_⟩
      simpa [obb_loop_z, exact_le, exact_add, hz, hlen, transform] using he
    · exact ⟨Fault.outOfBounds, by simp [obb_loop_z, exact_le, hz, hlen]⟩

theorem obb_loop_y_stuck (model : Mat4 ℚ) (min max size : Vec3 ℚ) (fuel : Nat) (x y : ℚ)
    (hsize : size.y = 0) (hy : y ≤ max.y) (n : Nat) :
    ∀ verts : List (Vec3 ℚ),
      ∃ e, obb_loop_y model min max size fuel x n y verts = Except.error e := by
  induction n with
  | zero => exact fun _ => ⟨Fault.outOfFuel, rfl⟩
  | succ n ih =>
    intro verts
    cases h : obb_loop_z model max.z size.z x y fuel min.z verts with
    | error e => exact ⟨e, by simp [obb_loop_y, exact_le, hy, h]⟩
    | ok verts1 =>
      obtain ⟨e, he⟩ := ih verts1
      exact ⟨e, by simpa [obb_loop_y, exact_le, exact_add, hy, h, hsize] using he⟩

theorem obb_loop_x_stuck (model : Mat4 ℚ) (min max size : Vec3 ℚ) (fuel : Nat) (x : ℚ)
    (hsize : size.x = 0) (hx : x ≤ max.x) (n : Nat) :
    ∀ verts : List (Vec3 ℚ),
      ∃ e, obb_loop_x model min max size fuel n x verts = Except.error e := by
  induction n with
  | zero => exact fun _ => ⟨Fault.outOfFuel, rfl⟩
  | succ n ih =>
    intro verts
    cases h : obb_loop_y model min max size fuel x fuel min.y verts with
    | error e => exact ⟨e, by simp [obb_loop_x, exact_le, hx, h]⟩
    | ok verts1 =>
      obtain ⟨e, he⟩ := ih verts1
      exact ⟨e, by simpa [obb_loop_x, exact_le, exact_add, hx, h, hsize] using he⟩

theorem obb_loop_y_of_z_stuck (model : Mat4 ℚ) (min max size : Vec3 ℚ) (fuel : Nat) (x : ℚ)
    (hsize : size.z = 0) (hy : min.y ≤ max.y) (hz : min.z ≤ max.z) (n : Nat)
    (verts : List (Vec3 ℚ)) :
    ∃ e, obb_loop_y model min max size fuel x n min.y verts = Except.error e := by
  cases n with
  | zero => exact ⟨Fault.outOfFuel, rfl⟩
  | succ n =>
    obtain ⟨e, he⟩ := obb_loop_z_stuck model max.z x min.y min.z hz fuel verts
    exact ⟨e, by simp [obb_loop_y, exact_le, hy, hsize, he]⟩

theorem obb_loop_x_of_inner_stuck (model : Mat4 ℚ) (min max size : Vec3 ℚ) (fuel : Nat)
    (hx : min.x ≤ max.x)
    (hinner : ∀ x verts,
      ∃ e, obb_loop_y model min max size fuel x fuel min.y verts = Except.error e)
    (n : Nat) (verts : List (Vec3 ℚ)) :
    ∃ e, obb_loop_x model min max size fuel n min.x verts = Except.error e := by
  cases n with
  | zero => exact ⟨Fault.outOfFuel, rfl⟩
  | succ n =>
    obtain ⟨e, he⟩ := hinner min.x verts
    exact ⟨e, by simp [obb_loop_x, exact_le, hx, he]⟩

/-- In exact arithmetic, a box that is not inverted on any axis and has zero
extent on some axis makes `obb` fail to return, whatever the iteration
budget. -/
theorem obb_zero_extent (fuel : Nat) (min max : Vec3 ℚ) (model : Mat4 ℚ) (c : Vec3 ℚ)
    (r : Renderer ℚ) (hx : min.x ≤ max.x) (hy : min.y ≤ max.y) (hz : min.z ≤ max.z)
    (hflat : min.x = max.x ∨ min.y = max.y ∨ min.z = max.z) :
    ∃ e, obb fuel min max model c r = Except.error e := by
  have key : ∃ e, obb_corners fuel min max model = Except.error e := by
    unfold obb_corners
    rcases hflat with h | h | h
    · exact obb_loop_x_stuck model min max _ fuel min.x (by simp [exact_vec3_sub, h]) hx fuel []
    · exact obb_loop_x_of_inner_stuck model min max _ fuel hx
        (fun x verts => obb_loop_y_stuck model min max _ fuel x min.y
          (by simp [exact_vec3_sub, h]) hy fuel verts) fuel []
    · exact obb_loop_x_of_inner_stuck model min max _ fuel hx
        (fun x verts => obb_loop_y_of_z_stuck model min max _ fuel x
          (by simp [exact_vec3_sub, h]) hy hz fuel verts) fuel []
  obtain ⟨e, he⟩ := key
  exact ⟨e, by simp [obb, he]⟩

/-- In exact arithmetic, a box inverted in x makes the outer loop of `obb`
exit at once: nothing is written to `verts` and the twelve lines join
default-constructed points. -/
theorem obb_inverted_returns (fuel : Nat) (min max : Vec3 ℚ) (model : Mat4 ℚ) (c : Vec3 ℚ)
    (r : Renderer ℚ) (hx : max.x < min.x) :
    obb (fuel + 1) min max model c r = Except.ok (obb_lines (ptr []) c r) := by
  have h : ¬ min.x ≤ max.x := not_le.2 hx
  simp [obb, obb_corners, obb_loop_x, exact_le, h]

/-- Claim C20, evaluated at a box of zero extent in z, from (0, 0, 0) to
(1, 2, 0): whatever the iteration budget, `obb` does not return.  The
innermost loop adds 0 to `z`, so its condition stays true; it runs out of
budget or, at the ninth element, writes past the end of `verts`. -/
theorem obb_flat_box_never_returns :
    (∀ fuel : Nat,
      ∃ e, obb fuel box_min0 flat_max0 identity white renderer0 = Except.error e) ∧
      obb 8 box_min0 flat_max0 identity white renderer0 = Except.error Fault.outOfFuel ∧
      obb 9 box_min0 flat_max0 identity white renderer0 = Except.error Fault.outOfBounds := by
  refine ⟨fun fuel => obb_zero_extent fuel box_min0 flat_max0 identity white renderer0
    (by simp [box_min0, flat_max0]) (by simp [box_min0, flat_max0])
    (by simp [box_min0, flat_max0]) (Or.inr (Or.inr rfl)), ?_, ?_⟩
  · simp [obb, obb_corners, obb_loop_x, obb_loop_y, obb_loop_z, exact_le, exact_add,
      exact_vec3_sub, box_min0, flat_max0, push_back]
  · simp [obb, obb_corners, obb_loop_x, obb_loop_y, obb_loop_z, exact_le, exact_add,
      exact_vec3_sub, box_min0, flat_max0, push_back]

/-! ### Creation and release of the device objects -/

/-- What `init` checks: it returns true exactly when the two shaders, the
vertex array and the vertex buffer are not null; the handles of the shader
program, the input layout, the two states and the uniform buffer are not
looked at. -/
theorem init_success_iff {F : Type} [Glm F] (device : RenderDevice) (r : Renderer F) :
    (init device r).success = true ↔
      device.create_shader ShaderType.VERTEX ≠ 0 ∧
      device.create_shader ShaderType.FRAGMENT ≠ 0 ∧
      device.create_vertex_array device.create_vertex_buffer device.create_input_layout ≠ 0 ∧
      device.create_vertex_buffer ≠ 0 := by
  unfold init
  by_cases h1 : device.create_shader ShaderType.VERTEX = 0
  · simp [h1]
  · by_cases h2 : device.create_shader ShaderType.FRAGMENT = 0
    · simp [h2]
    · by_cases h3 : device.create_vertex_array device.create_vertex_buffer
          device.create_input_layout = 0
      · simp [h1, h2, h3]
      · by_cases h4 : device.create_vertex_buffer = 0
        · simp [h1, h2, h4]
        · simp [h1, h2, h3, h4]

/-- Claim C18, evaluated on a device whose `create_shader_program` returns null
while every other creation succeeds: `init` makes all nine creation calls,
stores the null program and returns true, with nothing logged. -/
theorem init_ignores_null_program :
    (init device_no_program renderer0).success = true ∧
      (init device_no_program renderer0).renderer.m_line_program = 0 ∧
      (init device_no_program renderer0).calls =
        [ResourceCall.create_shader ShaderType.VERTEX,
         ResourceCall.create_shader ShaderType.FRAGMENT,
         ResourceCall.create_shader_program [11, 12],
         ResourceCall.create_vertex_buffer,
         ResourceCall.create_input_layout,
         ResourceCall.create_vertex_array 14 15,
         ResourceCall.create_rasterizer_state,
         ResourceCall.create_depth_stencil_state,
         ResourceCall.create_uniform_buffer] ∧
      (init device_no_program renderer0).log = [] := by
  decide

/-- Claim C19, evaluated after a successful `init` on a device that returns the
nine distinct handles 11 to 19: `shutdown` makes eight `destroy` calls, one
for each handle but that of the input layout (15), which is never destroyed. -/
theorem shutdown_leaks_input_layout :
    (init device_ok renderer0).success = true ∧
      created_handles (init device_ok renderer0).renderer =
        [11, 12, 13, 14, 15, 16, 17, 18, 19] ∧
      (init device_ok renderer0).renderer.m_line_il = 15 ∧
      shutdown (init device_ok renderer0).renderer =
        [ResourceCall.destroy 19, ResourceCall.destroy 13, ResourceCall.destroy 11,
         ResourceCall.destroy 12, ResourceCall.destroy 14, ResourceCall.destroy 16,
         ResourceCall.destroy 18, ResourceCall.destroy 17] ∧
      ResourceCall.destroy 15 ∉ shutdown (init device_ok renderer0).renderer := by
  decide

/-- Whatever the renderer holds, `shutdown` destroys the uniform buffer, the
program, the two shaders, the vertex buffer, the vertex array and the two
states, in this order, and makes no other call. -/
theorem shutdown_calls {F : Type} [Glm F] (r : Renderer F) :
    shutdown r =
      ([r.m_ubo, r.m_line_program, r.m_line_vs, r.m_line_fs, r.m_line_vbo, r.m_line_vao,
        r.m_ds, r.m_rs].map ResourceCall.destroy) := rfl

/-! ### The closing point of a circle -/

/-- The first and the last of the 19 points of `circle_xy` are the same
expression at 0 and at 360 degrees: they are equal wherever `cos` and `sin`
take the same values at the two angles.  How far apart they are in float
arithmetic depends on the rounding of these two functions, which the
embedding does not interpret. -/
theorem circle_xy_closed_of_periodic {F : Type} [Glm F] (radius : F) (pos : Vec3 F)
    (hcos : Glm.cos (Glm.radians (Glm.ofInt 360 : F)) = Glm.cos (Glm.radians (Glm.ofInt 0 : F)))
    (hsin : Glm.sin (Glm.radians (Glm.ofInt 360 : F)) = Glm.sin (Glm.radians (Glm.ofInt 0 : F))) :
    circle_xy_point radius pos 18 = circle_xy_point radius pos 0 := by
  simp only [circle_xy_point]
  norm_num
  rw [hcos, hsin]

/-! ### The grid with a spacing below 1 -/

theorem grid_offset_rat (x s : ℚ) :
    (Glm.toInt (Glm.floor (Glm.div (Glm.mul x s) (Glm.ofInt 2 : ℚ))) : Int) = ⌊x * s / 2⌋ := by
  rw [exact_toInt_floor, exact_div, exact_mul, exact_ofInt]
  norm_num

theorem exact_toInt_step_le (x ox : Int) (s : ℚ) (hs0 : 0 ≤ s) (hs1 : s < 1) (hox : 0 ≤ ox)
    (hx : x ≤ ox) : (Glm.toInt (Glm.add (Glm.ofInt x : ℚ) s) : Int) ≤ ox := by
  rw [exact_add, exact_ofInt]
  show Exact.toInt ((x : ℚ) + s) ≤ ox
  unfold Exact.toInt
  split
  · show ⌊(x : ℚ) + s⌋ ≤ ox
    have hfl : ⌊s⌋ = 0 := Int.floor_eq_zero_iff.2 ⟨hs0, hs1⟩
    rw [Int.floor_int_add, hfl]
    omega
  · rename_i hneg
    show -⌊-((x : ℚ) + s)⌋ ≤ ox
    have hpos : 0 ≤ -((x : ℚ) + s) := by linarith [not_le.1 hneg]
    have := Int.floor_nonneg.2 hpos
    omega

theorem grid_loop_x_never_exits (y_level s : ℚ) (c : Vec3 ℚ) (ox oz : Int) (hs0 : 0 ≤ s)
    (hs1 : s < 1) (hox : 0 ≤ ox) (n : Nat) :
    ∀ (x : Int) (r : Renderer ℚ), x ≤ ox →
      grid_loop_x y_level s c ox oz n x r = Except.error Fault.outOfFuel := by
  induction n with
  | zero => exact fun _ _ _ => rfl
  | succ n ih =>
    intro x r hx
    rw [grid_loop_x, if_pos hx]
    exact ih _ _ (exact_toInt_step_le x ox s hs0 hs1 hox hx)

/-- In exact arithmetic, with a spacing from 0 up to but excluding 1 and a half
extent in x that is not negative, `grid` does not return, whatever the
iteration budget: the counter of the first loop never gets past the half
extent. -/
theorem grid_small_spacing (fuel : Nat) (x z y_level s : ℚ) (c : Vec3 ℚ) (r : Renderer ℚ)
    (hs0 : 0 ≤ s) (hs1 : s < 1) (hox : 0 ≤ ⌊x * s / 2⌋) :
    grid fuel x z y_level s c r = Except.error Fault.outOfFuel := by
  unfold grid
  simp only [grid_offset_rat]
  rw [grid_loop_x_never_exits y_level s c _ _ hs0 hs1 hox fuel _ r (by omega)]

/-- Claim C21, evaluated at `grid(4, 4, 0, 0.5, c)` and at `grid(4, 4, 0, 0, c)`:
whatever the iteration budget, `grid` does not return.  With spacing 0.5 the
half extent is 1 and the counter of the first loop goes from -1 to 0, as
-1 + 0.5 converts to 0, and then stays at 0, as 0 + 0.5 converts to 0; with
spacing 0 the half extent is 0 and the counter stays at 0. -/
theorem grid_fractional_spacing_never_returns :
    (∀ fuel : Nat, grid fuel 4 4 0 (1 / 2) white renderer0 = Except.error Fault.outOfFuel) ∧
      (Glm.toInt (Glm.floor (Glm.div (Glm.mul (4 : ℚ) (1 / 2)) (Glm.ofInt 2 : ℚ))) : Int) = 1 ∧
      (Glm.toInt (Glm.add (Glm.ofInt (-1) : ℚ) (1 / 2)) : Int) = 0 ∧
      (Glm.toInt (Glm.add (Glm.ofInt 0 : ℚ) (1 / 2)) : Int) = 0 ∧
      (∀ fuel : Nat, grid fuel 4 4 0 0 white renderer0 = Except.error Fault.outOfFuel) ∧
      (Glm.toInt (Glm.floor (Glm.div (Glm.mul (4 : ℚ) 0) (Glm.ofInt 2 : ℚ))) : Int) = 0 ∧
      (Glm.toInt (Glm.add (Glm.ofInt 0 : ℚ) 0) : Int) = 0 := by
  have h1 : ⌊(4 : ℚ) * (1 / 2) / 2⌋ = 1 := by
    rw [Int.floor_eq_iff]
    norm_num
  have h2 : ⌊(4 : ℚ) * 0 / 2⌋ = 0 := by
    rw [Int.floor_eq_iff]
    norm_num
  have t1 : Exact.toInt ((-1 : ℚ) + 1 / 2) = 0 := by
    have hneg : ¬ (0 : ℚ) ≤ -1 + 1 / 2 := by norm_num
    have hfl : ⌊-((-1 : ℚ) + 1 / 2)⌋ = 0 := by
      rw [Int.floor_eq_iff]
      norm_num
    show (if (0 : ℚ) ≤ -1 + 1 / 2 then ⌊(-1 : ℚ) + 1 / 2⌋ else -⌊-((-1 : ℚ) + 1 / 2)⌋) = 0
    rw [if_neg hneg, hfl]
    rfl
  have t2 : Exact.toInt ((0 : ℚ) + 1 / 2) = 0 := by
    have hpos : (0 : ℚ) ≤ 0 + 1 / 2 := by norm_num
    have hfl : ⌊(0 : ℚ) + 1 / 2⌋ = 0 := by
      rw [Int.floor_eq_iff]
      norm_num
    show (if (0 : ℚ) ≤ 0 + 1 / 2 then ⌊(0 : ℚ) + 1 / 2⌋ else -⌊-((0 : ℚ) + 1 / 2)⌋) = 0
    rw [if_pos hpos, hfl]
  refine ⟨fun fuel => grid_small_spacing fuel 4 4 0 (1 / 2) white renderer0 (by norm_num)
    (by norm_num) (by rw [h1]; decide), ?_, ?_, ?_,
    fun fuel => grid_small_spacing fuel 4 4 0 0 white renderer0 (le_refl 0) (by norm_num)
      (by rw [h2]), ?_, ?_⟩
  · rw [grid_offset_rat, h1]
  · rw [exact_add, exact_ofInt]
    simpa using t1
  · rw [exact_add, exact_ofInt]
    simpa using t2
  · rw [grid_offset_rat, h2]
  · rw [exact_add, exact_ofInt]
    simpa using exact_toInt_intCast 0

/-! ### The parts of a capsule -/

theorem length_angles_upper : (angles 0 180).length = 10 := by decide

theorem length_angles_lower : (angles 180 360).length = 10 := by decide

theorem arc_strip {F : Type} [Glm F] (l : List Int) (f : Int → Vec3 F) (c : Vec3 F)
    (h : l.length = 10) : strip (ptr (l.map f)) (10 : Int).toNat c = (l.map f).map (vertex_at c) :=
  strip_ptr_toNat (l.map f) c 10 (by rw [List.length_map, h]; rfl)

theorem capsule_eq_append {F : Type} [Glm F] (height radius : F) (pos c : Vec3 F)
    (r : Renderer F) :
    capsule height radius pos c r =
      r.append (capsule_vertices height radius pos c) capsule_command_list := by
  unfold capsule
  simp only [line_eq_append, line_strip_eq_append, circle_xz_eq_append, append_append]
  rw [arc_strip _ _ c length_angles_upper, arc_strip _ _ c length_angles_upper,
    arc_strip _ _ c length_angles_lower, arc_strip _ _ c length_angles_lower]
  simp only [capsule_vertices, capsule_sides, segment_vertices, List.flatMap_cons,
    List.flatMap_nil, List.append_nil, List.append_assoc, capsule_command_list,
    List.cons_append, List.nil_append]
  rfl

/-- What holds of the parts of a capsule for every interpretation of the float
operations: the upper end of each side line is at the height of the centre of
the upper cap and arcs, `height - radius`; the lower end of each side line is
at `pos.y + radius`, while the centre of the lower cap and arcs is at
`radius`. -/
theorem capsule_side_heights {F : Type} [Glm F] (height radius : F) (pos : Vec3 F) :
    (∀ s ∈ capsule_sides height radius pos,
        s.2.y = (capsule_top height radius pos).y ∧ s.1.y = Glm.add pos.y radius) ∧
      (capsule_top height radius pos).y = Glm.sub height radius ∧
      (capsule_bottom radius pos).y = radius := by
  refine ⟨?_, rfl, rfl⟩
  intro s hs
  simp only [capsule_sides, List.mem_cons, List.mem_singleton, List.not_mem_nil, or_false] at hs
  rcases hs with rfl | rfl | rfl | rfl <;> exact ⟨rfl, rfl⟩

/-- Claim C22, evaluated at `capsule(20, 5, (0, 1, 0), c)` in exact arithmetic:
the lower end of each of the four side lines is at y = 6, the centre of the
lower cap and of the two lower arcs is at y = 5; the upper ends and the upper
centre are all at y = 15. -/
theorem capsule_lower_parts_disagree :
    capsule 20 5 raised_pos0 white renderer0 =
        renderer0.append (capsule_vertices 20 5 raised_pos0 white) capsule_command_list ∧
      (∀ s ∈ capsule_sides (20 : ℚ) 5 raised_pos0, s.1.y = 6 ∧ s.2.y = 15) ∧
      (capsule_bottom (5 : ℚ) raised_pos0).y = 5 ∧
      (capsule_top (20 : ℚ) 5 raised_pos0).y = 15 ∧
      (∀ s ∈ capsule_sides (20 : ℚ) 5 raised_pos0,
        s.1.y ≠ (capsule_bottom (5 : ℚ) raised_pos0).y) := by
  have hs : ∀ s ∈ capsule_sides (20 : ℚ) 5 raised_pos0, s.1.y = 6 ∧ s.2.y = 15 := by
    intro s hs
    simp only [capsule_sides, List.mem_cons, List.mem_singleton, List.not_mem_nil,
      or_false] at hs
    rcases hs with rfl | rfl | rfl | rfl <;>
      simp only [exact_add, exact_sub, raised_pos0] <;> norm_num
  refine ⟨capsule_eq_append 20 5 raised_pos0 white renderer0, hs, rfl, ?_, ?_⟩
  · simp only [capsule_top, exact_sub]
    norm_num
  · intro s hmem
    rw [(hs s hmem).1]
    simp only [capsule_bottom]
    norm_num

/-! ### Boxes and grids in binary32 arithmetic -/

theorem binary32_absorbs_one :
    Glm.add ({ val := 16777216 } : Binary32) { val := 1 } = { val := 16777216 } := by
  decide!

theorem binary32_add_zero :
    Glm.add ({ val := 16777216 } : Binary32) { val := 0 } = { val := 16777216 } := by
  decide!

/-- Claim C14, an instance in binary32 arithmetic: the box from (0, 0, 0) to
(1, 1, 1) placed at (5, 5, 5), where the computed corners are (5, 5, 5) and
(6, 6, 6). -/
theorem aabb_box_edges_witness :
    aabb unit_min32 unit_max32 near_pos32 white32 renderer32 =
        renderer32.append
          (segment_vertices white32
            (box_segments aabb_edges
              (box_corner (Vec3.add near_pos32 unit_min32) (Vec3.add near_pos32 unit_max32))))
          (line_commands 12) ∧
      BoxEdges
        (box_segments aabb_edges
          (box_corner (Vec3.add near_pos32 unit_min32) (Vec3.add near_pos32 unit_max32)))
        [0, 2, 4, 6] [8, 9, 10, 11] [1, 3, 5, 7] :=
  have h := aabb_box_edges unit_min32 unit_max32 near_pos32 white32 renderer32
  ⟨h.1, h.2.2.2.2.2.1 (by decide!) (by decide!) (by decide!)⟩

/-- Claim C14, refuted as stated: in binary32 arithmetic take min = (0, 0, 0),
max = (1, 1, 1) and pos = (2^24, 2^24, 2^24).  The corners `min` and `max`
differ on every axis, but `pos + max` is rounded to `pos + min` = `pos`, so
the 24 vertices `aabb` pushes all lie at `pos`: the two ends of every segment
coincide and the twelve segments are not the edges of a box. -/
theorem aabb_corners_absorbed :
    unit_min32.x ≠ unit_max32.x ∧ unit_min32.y ≠ unit_max32.y ∧
      unit_min32.z ≠ unit_max32.z ∧
      Vec3.add far_pos32 unit_min32 = far_pos32 ∧
      Vec3.add far_pos32 unit_max32 = far_pos32 ∧
      aabb unit_min32 unit_max32 far_pos32 white32 renderer32 =
        renderer32.append (List.replicate 24 (vertex_at white32 far_pos32))
          (line_commands 12) ∧
      ¬ BoxEdges
        (box_segments aabb_edges
          (box_corner (Vec3.add far_pos32 unit_min32) (Vec3.add far_pos32 unit_max32)))
        [0, 2, 4, 6] [8, 9, 10, 11] [1, 3, 5, 7] := by
  have hmin : Vec3.add far_pos32 unit_min32 = far_pos32 := by
    simp only [Vec3.add, far_pos32, unit_min32, binary32_add_zero]
  have hmax : Vec3.add far_pos32 unit_max32 = far_pos32 := by
    simp only [Vec3.add, far_pos32, unit_max32, binary32_absorbs_one]
  refine ⟨by decide!, by decide!, by decide!, hmin, hmax, ?_, ?_⟩
  · rw [aabb_eq_append, hmin, hmax]
    simp [segment_vertices, box_segments, aabb_edges, box_corner, segment, vertex_at]
  · rw [hmin, hmax]
    intro h
    have h0 := h.1 0 (by simp) _ rfl
    exact h0.1 rfl

theorem binary32_grid_offset :
    Glm.toInt (Glm.floor (Glm.div (Glm.mul x32 (Glm.ofInt 3)) (Glm.ofInt 2))) = 5 := by
  decide!

theorem binary32_grid_step (k : Int) (h1 : -5 ≤ k) (h2 : k ≤ 5) :
    Glm.toInt (Glm.add (Glm.ofInt k) (Glm.ofInt 3 : Binary32)) = k + 3 := by
  interval_cases k <;> decide!

theorem binary32_counter_sticks :
    Glm.toInt (Glm.add (Glm.ofInt (-16777220)) (Glm.ofInt 1 : Binary32)) = -16777220 := by
  decide!

theorem binary32_wide_offset :
    Glm.toInt (Glm.floor (Glm.div (Glm.mul wide32 (Glm.ofInt 1)) (Glm.ofInt 2))) =
      16777220 := by
  decide!

/-- In binary32 arithmetic `grid(33554440, 33554440, y, 1, c)` does not
return: the half extent is 16777220, the loop counter starts at -16777220, and
the float sum -16777220 + 1 is rounded back to -16777220, so the counter never
advances. -/
theorem grid_counter_sticks (y_level : Binary32) (c : Vec3 Binary32) (fuel : Nat)
    (r : Renderer Binary32) :
    grid fuel wide32 wide32 y_level (Glm.ofInt 1) c r = Except.error Fault.outOfFuel := by
  have hloop : ∀ (n : Nat) (r : Renderer Binary32),
      grid_loop_x y_level (Glm.ofInt 1) c 16777220 16777220 n (-16777220) r =
        Except.error Fault.outOfFuel := by
    intro n
    induction n with
    | zero => intro r; rfl
    | succ n ih =>
      intro r
      rw [grid_loop_x, if_pos (by decide), binary32_counter_sticks, ih]
  unfold grid
  simp only [binary32_wide_offset]
  rw [hloop]

/-- Claim C17, refuted as stated: in binary32 arithmetic take x = z =
3.3333333f (the float 13981013 / 2^22) and the spacing 3.  The half extent of
the claim is floor(x s / 2) = 4, which gives floor(8 / 3) + 1 = 3 lines per
direction, at -4, -1 and 2.  The code rounds the product x s to 10, has the
half extent 5 and pushes 4 lines per direction, at -5, -2, 1 and 4, each from
-5 to 5: eight commands, not six.  And for x = z = 33554440 and the spacing 1
the half extent is 16777220 in exact and in binary32 arithmetic alike, but
`grid` pushes no finite number of lines: it does not return within any
iteration budget. -/
theorem grid_rounded_extent :
    ⌊x32.val * 3 / 2⌋ = 4 ∧
      Glm.toInt (Glm.floor (Glm.div (Glm.mul x32 (Glm.ofInt 3)) (Glm.ofInt 2))) = 5 ∧
      grid 9 x32 x32 (Glm.ofInt 0) (Glm.ofInt 3) white32 renderer32 =
        Except.ok (renderer32.append
          (segment_vertices white32
            (grid_x_lines (Glm.ofInt 0) (-5) 5 3 4 ++ grid_z_lines (Glm.ofInt 0) 5 (-5) 3 4))
          (line_commands (4 + 4))) ∧
      grid 9 x32 x32 (Glm.ofInt 0) (Glm.ofInt 3) white32 renderer32 ≠
        Except.ok (renderer32.append
          (segment_vertices white32
            (grid_x_lines (Glm.ofInt 0) (-4) 4 3 3 ++ grid_z_lines (Glm.ofInt 0) 4 (-4) 3 3))
          (line_commands (3 + 3))) ∧
      ⌊wide32.val * 1 / 2⌋ = 16777220 ∧
      Glm.toInt (Glm.floor (Glm.div (Glm.mul wide32 (Glm.ofInt 1)) (Glm.ofInt 2))) =
        16777220 ∧
      (∀ fuel : Nat,
        grid fuel wide32 wide32 (Glm.ofInt 0) (Glm.ofInt 1) white32 renderer32 =
          Except.error Fault.outOfFuel) := by
  have hfl : ⌊x32.val * 3 / 2⌋ = 4 := by
    rw [Int.floor_eq_iff]
    norm_num [x32]
  have hle : ∀ k : Nat, k < 4 → (-5 : Int) + k * 3 ≤ 5 := by
    intro k hk
    omega
  have hstep : ∀ k : Nat, k < 4 →
      Glm.toInt (Glm.add (Glm.ofInt (-5 + k * 3)) (Glm.ofInt 3 : Binary32)) =
        -5 + k * 3 + 3 := by
    intro k hk
    exact binary32_grid_step _ (by omega) (by omega)
  have hgrid : grid 9 x32 x32 (Glm.ofInt 0) (Glm.ofInt 3) white32 renderer32 =
      Except.ok (renderer32.append
        (segment_vertices white32
          (grid_x_lines (Glm.ofInt 0) (-5) 5 3 4 ++ grid_z_lines (Glm.ofInt 0) 5 (-5) 3 4))
        (line_commands (4 + 4))) := by
    unfold grid
    simp only [binary32_grid_offset]
    rw [grid_loop_x_steps (Glm.ofInt 0) (Glm.ofInt 3) 3 white32 5 5 4 9 (-5) renderer32
      (by decide) hle (by decide) hstep]
    simp only []
    rw [grid_loop_z_steps (Glm.ofInt 0) (Glm.ofInt 3) 3 white32 5 5 4 9 (-5) _
      (by decide) hle (by decide) hstep, append_append, segment_vertices_append,
      line_commands_add]
  have hwide : ⌊wide32.val * 1 / 2⌋ = 16777220 := by
    rw [Int.floor_eq_iff]
    norm_num [wide32]
  refine ⟨hfl, binary32_grid_offset, hgrid, ?_, hwide, binary32_wide_offset,
    fun fuel => grid_counter_sticks _ _ fuel _⟩
  rw [hgrid]
  intro h
  have hc := congrArg (fun e => match e with
    | Except.ok r1 => r1.m_draw_commands.length
    | Except.error _ => 0) h
  simp only [Renderer.append, List.length_append, length_line_commands] at hc
  omega

theorem binary32_demo_offset :
    Glm.toInt (Glm.floor (Glm.div (Glm.mul ({ val := 101 } : Binary32) (Glm.ofInt 1))
      (Glm.ofInt 2))) = 50 := by
  decide!

theorem binary32_demo_step (k : Int) (h1 : -50 ≤ k) (h2 : k ≤ 50) :
    Glm.toInt (Glm.add (Glm.ofInt k) (Glm.ofInt 1 : Binary32)) = k + 1 := by
  interval_cases k <;> decide!

/-- Claim C17, the instance named in the claim, in binary32 arithmetic:
`grid(101, 101, 0, 1, c)` has the half extents 50 and 50 and pushes 101 + 101
commands and 404 vertices. -/
theorem grid_lines_witness :
    ∃ r1, grid 200 ({ val := 101 } : Binary32) { val := 101 } (Glm.ofInt 0) (Glm.ofInt 1)
        white32 renderer32 = Except.ok r1 ∧
      r1.m_draw_commands.length = 202 ∧ r1.m_world_vertices.length = 404 := by
  obtain ⟨nx, nz, hnx, hnz, hgrid, -⟩ :=
    grid_lines ({ val := 101 } : Binary32) { val := 101 } (Glm.ofInt 0) 1 white32 renderer32
      200 50 50 binary32_demo_offset.symm binary32_demo_offset.symm (by decide) (by decide)
      (by decide) binary32_demo_step binary32_demo_step (by decide) (by decide)
  have hx : nx = 101 := by
    have : (nx : Int) = 101 := by rw [hnx]; decide
    omega
  have hz : nz = 101 := by
    have : (nz : Int) = 101 := by rw [hnz]; decide
    omega
  subst hx hz
  refine ⟨_, hgrid, ?_, ?_⟩
  · show ([] ++ line_commands (101 + 101)).length = 202
    rw [List.nil_append, length_line_commands]
  · show ([] ++ segment_vertices white32
      (grid_x_lines (Glm.ofInt 0) (-50) 50 1 101 ++
        grid_z_lines (Glm.ofInt 0) 50 (-50) 1 101)).length = 404
    rw [List.nil_append, length_segment_vertices, List.length_append, length_grid_x_lines,
      length_grid_z_lines]

end dd
